import Mathlib

/-! arena2d-sim, `LevelStaticMap`: a shallow embedding of
`arena2d-sim/level/LevelStaticMap.cpp`.

* `b2Vec2` coordinates are exact rationals: the rounding of `float` and `double` arithmetic
  is not represented.
* The physics world, the spawn areas and the heap are external collaborators; every call
  into them is recorded, in program order, in the `trace` of the level.
* `loadStaticMap` also keeps a record (`Probe`) of the reads of `data`, the reads of the seam
  masks and the calls of `add_edge` it performs.
* `uint32` index arithmetic is reduced modulo `2 ^ 32`; a read of `data` past its end
  (undefined behaviour in the source) or of a mask past its end makes the embedded function
  return `none`.
* Loop counters are natural numbers.
-/

namespace Arena2D

/-! ## Data model -/

/-- The type `b2Vec2`. -/
structure Vec2 where
  x : ℚ
  y : ℚ
  deriving DecidableEq, Repr

/-- The fields of `nav_msgs::OccupancyGrid` that the level reads: `info.width`, `info.height`,
`info.resolution` and `data`. -/
structure OccupancyGrid where
  width : Nat
  height : Nat
  resolution : ℚ
  data : List Int
  deriving DecidableEq, Repr

/-- An occupancy grid as it arrives over the map service: one cell per position, and an
array length that fits the `uint32` length prefix of a serialised ROS array. -/
def OccupancyGrid.WellFormed (g : OccupancyGrid) : Prop :=
  g.data.length = g.width * g.height ∧ g.width * g.height < 2 ^ 32

instance (g : OccupancyGrid) : Decidable g.WellFormed := by
  unfold OccupancyGrid.WellFormed; infer_instance

/-- A dynamic obstacle: `ptr` identifies the object returned by `new Wanderer(...)`, the other
fields are the constructor arguments and the radius given to `addCircle`. -/
structure Wanderer where
  ptr : Nat
  pos : Vec2
  speed : ℚ
  changeRate : ℚ
  stopRate : ℚ
  radius : ℚ
  deriving DecidableEq, Repr

/-- Calls into the collaborators of the level, in the order the source issues them. -/
inductive Event where
  /-- The call `addBox(pos, half_width, half_height, angle)`. -/
  | addBox (pos : Vec2) (halfWidth halfHeight angle : ℚ)
  /-- The call `world->CreateBody(&b)`, returning the handle `body`. -/
  | createBody (body : Nat)
  /-- The call `body->CreateFixture(&fixture_def)` with the edge shape `p1`-`p2`. -/
  | createEdgeFixture (body : Nat) (p1 p2 : Vec2)
  /-- The call `world->DestroyBody(*it)`; `index` is the value the counter `i` had in the
  test `i++ > _n_non_clear_bodies` that selected the entry. -/
  | destroyBody (index : Nat) (body : Nat)
  /-- The statement `delete (*it)` on a tracked wanderer. -/
  | deleteWanderer (w : Wanderer)
  /-- The expression `new Wanderer(...)` followed by `addCircle`. -/
  | newWanderer (w : Wanderer)
  /-- The call `resetRobotToCenter()`. -/
  | resetRobotToCenter
  /-- The call `_goalSpawnArea.addQuadTree(...)`. -/
  | goalAddQuadTree (halfWidth halfHeight halfGoalSize : ℚ)
  /-- The call `_goalSpawnArea.calculateArea()`. -/
  | goalCalculateArea
  /-- The call `_dynamicSpawn.clear()`. -/
  | dynamicClear
  /-- The call `_dynamicSpawn.addCheeseRect(...)`. -/
  | dynamicAddCheeseRect (halfWidth halfHeight dynamicRadius : ℚ)
  /-- The call `_dynamicSpawn.calculateArea()`. -/
  | dynamicCalculateArea
  /-- The call `_dynamicSpawn.getRandomPoint(p)`. -/
  | getRandomPoint (p : Vec2)
  /-- The call `randomGoalSpawnUntilValid()`. -/
  | randomGoalSpawnUntilValid
  deriving DecidableEq, Repr

/-- The members of `LevelStaticMap` (and of its base `Level`) that the source reads or
writes, together with the state of its collaborators. -/
structure LevelStaticMap where
  /-- The member `_dynamic`. -/
  _dynamic : Bool
  /-- The member `_init_reset`. -/
  _init_reset : Bool
  /-- The member `_n_non_clear_bodies`. -/
  _n_non_clear_bodies : Nat
  /-- The member `_bodyList`. -/
  _bodyList : List Nat
  /-- The member `_wanderers`. -/
  _wanderers : List Wanderer
  /-- The number of bodies the world has created so far; the next handle. -/
  nextBody : Nat
  /-- The number of wanderers allocated so far; identifies the next one. -/
  nextWanderer : Nat
  /-- The number of points drawn from `_dynamicSpawn` so far. -/
  draws : Nat
  /-- The calls issued so far. -/
  trace : List Event
  deriving DecidableEq, Repr

/-- The entries of `_SETTINGS->stage` read by `reset`, and the source of random points. -/
structure Settings where
  goal_size : ℚ
  dynamic_obstacle_size : ℚ
  obstacle_speed : ℚ
  num_obstacles : Int
  num_dynamic_obstacles : Int
  min_obstacle_size : ℚ
  max_obstacle_size : ℚ
  /-- The point produced by the `k`-th call of `_dynamicSpawn.getRandomPoint`. -/
  randomPoint : Nat → Vec2

/-! ## `loadStaticMap` -/

/-- The test `data[..] == 100 || data[..] == -1`. -/
def isOccupied (v : Int) : Bool := v == 100 || v == -1

/-- The index expression `i * cols + j`, evaluated in `uint32`. -/
def cellIndex (cols i j : Nat) : Nat := (i * cols + j) % 2 ^ 32

/-- One coordinate of `lower_left_pos`:
`-((cols >> 1) - ((cols & 1) ^ 1) / 2.f) * resolution`. -/
def lowerLeftCoord (n : Nat) (resolution : ℚ) : ℚ :=
  -(((n >>> 1 : Nat) : ℚ) - (((n &&& 1) ^^^ 1 : Nat) : ℚ) / 2) * resolution

/-- The local `lower_left_pos`. -/
def lower_left_pos (g : OccupancyGrid) : Vec2 :=
  ⟨lowerLeftCoord g.width g.resolution, lowerLeftCoord g.height g.resolution⟩

/-- Modelled from the spec: `Level::addBox`, which is defined outside this source file. It
creates one static body carrying one box fixture and registers it in `_bodyList` (the spec's
body registry is the ordered collection of created bodies). -/
def addBox (s : LevelStaticMap) (pos : Vec2) (halfWidth halfHeight angle : ℚ) :
    LevelStaticMap :=
  { s with
    _bodyList := s._bodyList ++ [s.nextBody]
    nextBody := s.nextBody + 1
    trace := s.trace ++ [Event.addBox pos halfWidth halfHeight angle] }

/-- The position `lower_left_pos + b2Vec2(j * resolution, i * resolution)`. -/
def cellPos (g : OccupancyGrid) (i j : Nat) : Vec2 :=
  ⟨(lower_left_pos g).x + (j : ℚ) * g.resolution, (lower_left_pos g).y + (i : ℚ) * g.resolution⟩

/-- What a run of `loadStaticMap` does to its own data, next to the calls recorded in the
trace: every evaluation of `data[k]`, every evaluation of `diff.at<uint8_t>(..)` in a seam
scan, and every call of the closure `add_edge`, each list in program order. -/
structure Probe where
  /-- The index `k` of each evaluation of `data[k]`. -/
  dataReads : List Nat
  /-- The pair `(diff.total(), j)` of each evaluation of `diff.at<uint8_t>` at position `j`. -/
  maskReads : List (Nat × Nat)
  /-- The arguments `(x1, y1, x2, y2)` of each call of `add_edge`. -/
  edgeCalls : List (Nat × Nat × Nat × Nat)
  deriving DecidableEq, Repr

/-- The record of a run that has not started. -/
def noProbe : Probe := ⟨[], [], []⟩

/-- The record extended by evaluations of `data[k]`. -/
def Probe.addData (p : Probe) (ks : List Nat) : Probe :=
  { p with dataReads := p.dataReads ++ ks }

/-- The record extended by evaluations of `diff.at<uint8_t>`. -/
def Probe.addMask (p : Probe) (js : List (Nat × Nat)) : Probe :=
  { p with maskReads := p.maskReads ++ js }

/-- The record extended by calls of `add_edge`. -/
def Probe.addCalls (p : Probe) (cs : List (Nat × Nat × Nat × Nat)) : Probe :=
  { p with edgeCalls := p.edgeCalls ++ cs }

/-- The expression `data[k]`: the value read, the read being recorded; `none` when `k` is
past the end of `data`. -/
def readData (g : OccupancyGrid) (k : Nat) (p : Probe) : Option (Int × Probe) := do
  let v ← g.data[k]?
  pure (v, p.addData [k])

/-- The condition `data[i * cols + j] == 100 || data[i * cols + j] == -1`, evaluated left to
right: the second operand, which evaluates `data[i * cols + j]` again, is evaluated only when
the first is false. -/
def occupiedTest (g : OccupancyGrid) (i j : Nat) (p : Probe) : Option (Bool × Probe) := do
  let r1 ← readData g (cellIndex g.width i j) p
  if r1.1 == 100 then
    pure (true, r1.2)
  else
    let r2 ← readData g (cellIndex g.width i j) r1.2
    pure (r2.1 == -1, r2.2)

/-- The body of the inner loop of the per-cell branch, for row `i` and column `j`, on the
level and the record of the run. -/
def perCellStepTraced (g : OccupancyGrid) (i : Nat) (st : LevelStaticMap × Probe) (j : Nat) :
    Option (LevelStaticMap × Probe) := do
  let r ← occupiedTest g i j st.2
  if r.1 then
    let s1 := addBox st.1 (cellPos g i j) (g.resolution / 2) (g.resolution / 2) 0
    pure ({ s1 with _n_non_clear_bodies := s1._n_non_clear_bodies + 1 }, r.2)
  else
    pure (st.1, r.2)

/-- The body of the inner loop of the per-cell branch, for row `i` and column `j`: the level
it leaves. -/
def perCellStep (g : OccupancyGrid) (i : Nat) (s : LevelStaticMap) (j : Nat) :
    Option LevelStaticMap :=
  (perCellStepTraced g i (s, noProbe) j).map Prod.fst

/-- The per-cell branch, `for i < rows` / `for j < cols`, on the level and the record of the
run. -/
def loadPerCellTraced (g : OccupancyGrid) (st : LevelStaticMap × Probe) :
    Option (LevelStaticMap × Probe) :=
  (List.range g.height).foldlM
    (fun st i => (List.range g.width).foldlM (perCellStepTraced g i) st) st

/-- The per-cell branch: the level it leaves. -/
def loadPerCell (g : OccupancyGrid) (s : LevelStaticMap) : Option LevelStaticMap :=
  (loadPerCellTraced g (s, noProbe)).map Prod.fst

/-- The image `cv::Mat static_map(rows, cols, CV_8UC1)`. -/
structure Mat where
  rows : Nat
  cols : Nat
  px : List (List Nat)
  deriving DecidableEq, Repr

/-- The pixel `m.at<uint8>(i, j)`. -/
def Mat.at (m : Mat) (i j : Nat) : Nat := (m.px.getD i []).getD j 0

/-- The body of the inner loop of the classification loop: the pixel
`static_map.at<uint8>(i, j)` is set to 255 for a wall and to 0 otherwise (the pixels of row
`i` written so far are `acc.1`). -/
def classifyStep (g : OccupancyGrid) (i : Nat) (acc : List Nat × Probe) (j : Nat) :
    Option (List Nat × Probe) := do
  let r ← occupiedTest g i j acc.2
  pure (acc.1 ++ [if r.1 then 255 else 0], r.2)

/-- The body of the outer loop of the classification loop: row `i` of the image is filled
(the rows filled so far are `acc.1`). -/
def classifyRow (g : OccupancyGrid) (acc : List (List Nat) × Probe) (i : Nat) :
    Option (List (List Nat) × Probe) := do
  let r ← (List.range g.width).foldlM (classifyStep g i) ([], acc.2)
  pure (acc.1 ++ [r.1], r.2)

/-- The classification loop filling `static_map`, with the record of the run. -/
def buildStaticMapTraced (g : OccupancyGrid) (p : Probe) : Option (Mat × Probe) := do
  let r ← (List.range g.height).foldlM (classifyRow g) ([], p)
  pure (⟨g.height, g.width, r.1⟩, r.2)

/-- The classification loop filling `static_map`: the image it leaves. -/
def buildStaticMap (g : OccupancyGrid) : Option Mat :=
  (buildStaticMapTraced g noProbe).map Prod.fst

/-- The function `cv::absdiff` on one pair of bytes. -/
def absdiff (a b : Nat) : Nat := if a ≤ b then b - a else a - b

/-- The mask `diff` of the seam between rows `i` and `i + 1`. -/
def rowDiff (m : Mat) (i : Nat) : List Nat :=
  (List.range m.cols).map fun j => absdiff (m.at i j) (m.at (i + 1) j)

/-- The mask `diff` of the seam between columns `i` and `i + 1`. -/
def colDiff (m : Mat) (i : Nat) : List Nat :=
  (List.range m.rows).map fun j => absdiff (m.at j i) (m.at j (i + 1))

/-- The locals `start`, `started` of a seam scan and the `add_edge` calls issued so far,
each as the pair `(start, j)`. -/
structure Scan where
  start : Nat
  started : Bool
  runs : List (Nat × Nat)
  deriving DecidableEq, Repr

/-- The local `edge_exists` at position `j` of a scan: `false`, unless `j < diff.total()`, in
which case the mask byte `diff.at<uint8_t>(..)` is read, the read is recorded, and the byte
is converted to `bool`. A read outside the mask gives `none`. -/
def edge_exists (diff : List Nat) (j : Nat) (p : Probe) : Option (Bool × Probe) :=
  if j < diff.length then do
    let v ← diff[j]?
    pure (v != 0, p.addMask [(diff.length, j)])
  else
    pure (false, p)

/-- The body of the scan loop `for (j = 0; j <= diff.total(); j++)`. -/
def scanStep (diff : List Nat) (st : Scan × Probe) (j : Nat) : Option (Scan × Probe) := do
  let r ← edge_exists diff j st.2
  if r.1 && !st.1.started then
    pure ({ st.1 with start := j, started := true }, r.2)
  else if st.1.started && !r.1 then
    pure ({ st.1 with runs := st.1.runs ++ [(st.1.start, j)], started := false }, r.2)
  else
    pure (st.1, r.2)

/-- The scan of one mask, from `start = 0`, `started = false`, with the record of the run. -/
def scan (diff : List Nat) (p : Probe) : Option (Scan × Probe) :=
  (List.range (diff.length + 1)).foldlM (scanStep diff) (⟨0, false, []⟩, p)

/-- The runs `(start, j)` for which the scan of one mask calls `add_edge` (a scan never
fails, see `scan_eq`, so the second case does not arise). -/
def scanRuns (diff : List Nat) : List (Nat × Nat) :=
  match scan diff noProbe with
  | some r => r.1.runs
  | none => []

/-- The body of the row loop for the seam between rows `i` and `i + 1`: the mask is scanned
and `add_edge(start, i, j, i)` is called for every run (the calls so far are `acc.1`). -/
def rowSeam (m : Mat) (acc : List (Nat × Nat × Nat × Nat) × Probe) (i : Nat) :
    Option (List (Nat × Nat × Nat × Nat) × Probe) := do
  let r ← scan (rowDiff m i) acc.2
  pure (acc.1 ++ r.1.runs.map (fun q => (q.1, i, q.2, i)), r.2)

/-- The body of the column loop for the seam between columns `i` and `i + 1`: the mask is
scanned and `add_edge(i, start, i, j)` is called for every run. -/
def colSeam (m : Mat) (acc : List (Nat × Nat × Nat × Nat) × Probe) (i : Nat) :
    Option (List (Nat × Nat × Nat × Nat) × Probe) := do
  let r ← scan (colDiff m i) acc.2
  pure (acc.1 ++ r.1.runs.map (fun q => (i, q.1, i, q.2)), r.2)

/-- The row loop `for (int i = 0; i < static_map.rows - 1; i++)`: its `add_edge` calls, in
order, and the record of the run. -/
def rowLoop (m : Mat) (p : Probe) : Option (List (Nat × Nat × Nat × Nat) × Probe) :=
  (List.range (m.rows - 1)).foldlM (rowSeam m) ([], p)

/-- The column loop `for (int i = 0; i < static_map.cols - 1; i++)`: its `add_edge` calls,
in order, and the record of the run. -/
def colLoop (m : Mat) (p : Probe) : Option (List (Nat × Nat × Nat × Nat) × Probe) :=
  (List.range (m.cols - 1)).foldlM (colSeam m) ([], p)

/-- The arguments `(x1, y1, x2, y2)` of every `add_edge` call of the row loop, in order (the
loop never fails, see `rowLoop_eq`, so the second case does not arise). -/
def rowEdgeCalls (m : Mat) : List (Nat × Nat × Nat × Nat) :=
  match rowLoop m noProbe with
  | some r => r.1
  | none => []

/-- The arguments `(x1, y1, x2, y2)` of every `add_edge` call of the column loop, in order. -/
def colEdgeCalls (m : Mat) : List (Nat × Nat × Nat × Nat) :=
  match colLoop m noProbe with
  | some r => r.1
  | none => []

/-- The closure `add_edge`: the fixture created on `body` for the call `(x1, y1, x2, y2)`.
The end points are the exact values of `lower_left_pos + resolution * (x, y)`; the source
evaluates these expressions in `double` on `float` operands and stores them in a `float`
`b2Vec2`, a rounding that this embedding does not represent. -/
def add_edge (g : OccupancyGrid) (body : Nat) (c : Nat × Nat × Nat × Nat) : Event :=
  Event.createEdgeFixture body
    ⟨(lower_left_pos g).x + g.resolution * (c.1 : ℚ),
     (lower_left_pos g).y + g.resolution * (c.2.1 : ℚ)⟩
    ⟨(lower_left_pos g).x + g.resolution * (c.2.2.1 : ℚ),
     (lower_left_pos g).y + g.resolution * (c.2.2.2 : ℚ)⟩

/-- The line-approximation branch, on the level and the record of the run. -/
def loadApproximateTraced (g : OccupancyGrid) (st : LevelStaticMap × Probe) :
    Option (LevelStaticMap × Probe) := do
  let body := st.1.nextBody
  let m ← buildStaticMapTraced g st.2
  let rc ← rowLoop m.1 m.2
  let cc ← colLoop m.1 rc.2
  pure ({ st.1 with
      nextBody := st.1.nextBody + 1
      trace := st.1.trace ++ [Event.createBody body]
        ++ rc.1.map (add_edge g body)
        ++ cc.1.map (add_edge g body)
      _n_non_clear_bodies := st.1._n_non_clear_bodies + 1
      _bodyList := st.1._bodyList ++ [body] },
    cc.2.addCalls (rc.1 ++ cc.1))

/-- The line-approximation branch: the level it leaves. -/
def loadApproximate (g : OccupancyGrid) (s : LevelStaticMap) : Option LevelStaticMap :=
  (loadApproximateTraced g (s, noProbe)).map Prod.fst

/-- The method `LevelStaticMap::loadStaticMap(bool enable_line_approximation)`, on the level
and the record of the run. -/
def loadStaticMapTraced (g : OccupancyGrid) (enable_line_approximation : Bool)
    (st : LevelStaticMap × Probe) : Option (LevelStaticMap × Probe) :=
  if !enable_line_approximation then loadPerCellTraced g st else loadApproximateTraced g st

/-- The method `LevelStaticMap::loadStaticMap(bool enable_line_approximation)`. -/
def loadStaticMap (g : OccupancyGrid) (enable_line_approximation : Bool) (s : LevelStaticMap) :
    Option LevelStaticMap :=
  if !enable_line_approximation then loadPerCell g s else loadApproximate g s

/-! ## `lazyclear`, `freeWanderers`, `reset` and the constructor -/

/-- The loop of `lazyclear` over the remaining entries of `_bodyList`, the counter `i` being at
`i`: the entries kept, and the `DestroyBody` calls issued. -/
def lazyclearLoop (n : Nat) : Nat → List Nat → List Nat × List Event
  | _, [] => ([], [])
  | i, b :: rest =>
    let r := lazyclearLoop n (i + 1) rest
    if i > n then (r.1, Event.destroyBody i b :: r.2) else (b :: r.1, r.2)

/-- The method `LevelStaticMap::lazyclear`. -/
def lazyclear (s : LevelStaticMap) : LevelStaticMap :=
  let r := lazyclearLoop s._n_non_clear_bodies 0 s._bodyList
  { s with _bodyList := r.1, trace := s.trace ++ r.2 }

/-- The method `LevelStaticMap::freeWanderers`. -/
def freeWanderers (s : LevelStaticMap) : LevelStaticMap :=
  { s with _wanderers := [], trace := s.trace ++ s._wanderers.map Event.deleteWanderer }

/-- The body of the loop `for (int i = 0; i < num_dynamic_obstacles; i++)` of `reset`. -/
def spawnWanderer (cfg : Settings) (s : LevelStaticMap) : LevelStaticMap :=
  let p := cfg.randomPoint s.draws
  let w : Wanderer :=
    ⟨s.nextWanderer, p, cfg.obstacle_speed, 1 / 10, 1 / 20, cfg.dynamic_obstacle_size / 2⟩
  { s with
    draws := s.draws + 1
    nextWanderer := s.nextWanderer + 1
    _wanderers := s._wanderers ++ [w]
    trace := s.trace ++ [Event.getRandomPoint p, Event.newWanderer w] }

/-- The block `if (_init_reset) { ... }` that computes the goal spawn area. -/
def resetGoalArea (g : OccupancyGrid) (cfg : Settings) (s : LevelStaticMap) : LevelStaticMap :=
  if s._init_reset then
    { s with trace := s.trace ++
        [Event.goalAddQuadTree (g.resolution * g.width / 2) (g.resolution * g.height / 2)
           (cfg.goal_size / 2),
         Event.goalCalculateArea] }
  else s

/-- The block `if (_dynamic) { ... }` of `reset`. -/
def resetDynamic (g : OccupancyGrid) (cfg : Settings) (s : LevelStaticMap) : LevelStaticMap :=
  if s._dynamic then
    let s1 :=
      if s._init_reset then
        { s with
          _init_reset := false
          trace := s.trace ++
            [Event.dynamicClear,
             Event.dynamicAddCheeseRect (g.resolution * g.width / 2)
               (g.resolution * g.height / 2) (cfg.dynamic_obstacle_size / 2),
             Event.dynamicCalculateArea] }
      else s
    (List.range cfg.num_dynamic_obstacles.toNat).foldl (fun t _ => spawnWanderer cfg t) s1
  else s

/-- The method `LevelStaticMap::reset(bool robot_position_reset)`; `g` is the grid held in
`_occupancygrid_ptr`. -/
def reset (g : OccupancyGrid) (cfg : Settings) (robot_position_reset : Bool)
    (s : LevelStaticMap) : LevelStaticMap :=
  let s1 := lazyclear s
  let s2 := if s1._dynamic then freeWanderers s1 else s1
  let s3 := if robot_position_reset then
      { s2 with trace := s2.trace ++ [Event.resetRobotToCenter] } else s2
  let s4 := resetGoalArea g cfg s3
  let s5 := resetDynamic g cfg s4
  { s5 with trace := s5.trace ++ [Event.randomGoalSpawnUntilValid] }

/-- The state the constructor's initialiser list and first statement establish. -/
def initial (dynamic : Bool) : LevelStaticMap :=
  ⟨dynamic, true, 0, [], [], 0, 0, 0, []⟩

/-- The constructor `LevelStaticMap::LevelStaticMap(d, dynamic)`. The default argument of
`loadStaticMap()` is declared in the header, so it is the parameter
`enable_line_approximation`. -/
def construct (g : OccupancyGrid) (dynamic enable_line_approximation : Bool) :
    Option LevelStaticMap :=
  loadStaticMap g enable_line_approximation (initial dynamic)

/-! ## Observations on traces -/

/-- The boxes passed to `addBox`, as `(pos, halfWidth, halfHeight, angle)`. -/
def boxesOf (t : List Event) : List (Vec2 × ℚ × ℚ × ℚ) :=
  t.filterMap fun e =>
    match e with
    | Event.addBox p w h a => some (p, w, h, a)
    | _ => none

/-- The edge fixtures created, as `(body, p1, p2)`. -/
def edgesOf (t : List Event) : List (Nat × Vec2 × Vec2) :=
  t.filterMap fun e =>
    match e with
    | Event.createEdgeFixture b p q => some (b, p, q)
    | _ => none

/-- The bodies returned by `CreateBody`. -/
def createdBodiesOf (t : List Event) : List Nat :=
  t.filterMap fun e =>
    match e with
    | Event.createBody b => some b
    | _ => none

/-- The `DestroyBody` calls, as `(index, body)`. -/
def destroyedOf (t : List Event) : List (Nat × Nat) :=
  t.filterMap fun e =>
    match e with
    | Event.destroyBody i b => some (i, b)
    | _ => none

/-- The wanderers deleted. -/
def deletedWanderersOf (t : List Event) : List Wanderer :=
  t.filterMap fun e =>
    match e with
    | Event.deleteWanderer w => some w
    | _ => none

/-- The wanderers allocated. -/
def newWanderersOf (t : List Event) : List Wanderer :=
  t.filterMap fun e =>
    match e with
    | Event.newWanderer w => some w
    | _ => none

/-- The number of goal spawn-area computations (`_goalSpawnArea.calculateArea()`). -/
def goalAreaComputations (t : List Event) : Nat :=
  t.count Event.goalCalculateArea

/-- The number of dynamic-obstacle spawn-area computations. -/
def dynamicAreaComputations (t : List Event) : Nat :=
  t.count Event.dynamicCalculateArea

/-! ## Reference notions for the per-cell mode -/

/-- The positions in `data` of the cells whose value is 100 or -1, in increasing order. -/
def occupiedCells (g : OccupancyGrid) : List Nat :=
  (List.range g.data.length).filter fun k => isOccupied (g.data.getD k 0)

/-- The box centred on the cell stored at position `k` of `data`, that is the cell of row
`k / width` and column `k % width`. -/
def cellBox (g : OccupancyGrid) (k : Nat) : Vec2 × ℚ × ℚ × ℚ :=
  (cellPos g (k / g.width) (k % g.width), g.resolution / 2, g.resolution / 2, 0)

/-- The effect of the per-cell branch for the cell stored at position `k`: the `addBox` call
and the increment of `_n_non_clear_bodies`. -/
def placeBox (g : OccupancyGrid) (s : LevelStaticMap) (k : Nat) : LevelStaticMap :=
  let s1 := addBox s (cellPos g (k / g.width) (k % g.width)) (g.resolution / 2)
    (g.resolution / 2) 0
  { s1 with _n_non_clear_bodies := s1._n_non_clear_bodies + 1 }

/-! ## Registry operations -/

/-- An operation on the body registry after construction. -/
inductive RegistryOp where
  /-- Registration of a body created after construction. -/
  | register (body : Nat)
  /-- A call of `lazyclear`. -/
  | clear
  deriving DecidableEq, Repr

/-- Modelled from the spec: `registerEphemeral(body)`, which appends a body created after
construction to the registry without moving the watermark; in the source this is the
`_bodyList.push_back` of the `Level` helpers, defined outside this file. -/
def registerEphemeral (s : LevelStaticMap) (body : Nat) : LevelStaticMap :=
  { s with _bodyList := s._bodyList ++ [body] }

/-- One registry operation. -/
def applyOp (s : LevelStaticMap) : RegistryOp → LevelStaticMap
  | RegistryOp.register b => registerEphemeral s b
  | RegistryOp.clear => lazyclear s

/-- A finite sequence of registry operations, left to right. -/
def applyOps (s : LevelStaticMap) (ops : List RegistryOp) : LevelStaticMap :=
  ops.foldl applyOp s

/-! ## Example inputs -/

/-- The 3x3 grid of resolution 1 whose centre cell is occupied. -/
def centreGrid : OccupancyGrid := ⟨3, 3, 1, [0, 0, 0, 0, 100, 0, 0, 0, 0]⟩

/-- Stage settings for the examples: two dynamic obstacles, random points `(k, 0)`. -/
def exampleSettings : Settings :=
  ⟨1, 1, 1, 0, 2, 1, 1, fun k => ⟨k, 0⟩⟩

/-- Consecutive `reset` calls on one level, one per entry of `flags` (the argument
`robot_position_reset` of each call). -/
def resetAll (g : OccupancyGrid) (cfg : Settings) (flags : List Bool) (s : LevelStaticMap) :
    LevelStaticMap :=
  flags.foldl (fun t f => reset g cfg f t) s

/-- A level with dynamic obstacles whose first reset is over and which tracks two wanderers. -/
def trackedLevel : LevelStaticMap :=
  ⟨true, false, 1, [0], [⟨0, ⟨0, 0⟩, 1, 1 / 10, 1 / 20, 1 / 2⟩,
    ⟨1, ⟨1, 0⟩, 1, 1 / 10, 1 / 20, 1 / 2⟩], 1, 2, 2, []⟩

/-- The 1x1 grid whose only cell is free. -/
def freeCell : OccupancyGrid := ⟨1, 1, 1, [0]⟩

/-- The 1x1 grid whose only cell is occupied. -/
def wallCell : OccupancyGrid := ⟨1, 1, 1, [100]⟩

/-- The 3x3 grid of resolution 1 whose centre cell is free and whose other cells are
occupied: `centreGrid` with every class swapped. -/
def ringGrid : OccupancyGrid := ⟨3, 3, 1, [100, 100, 100, 100, 0, 100, 100, 100, 100]⟩

/-- A level with one permanent body and three bodies registered after construction. -/
def crowdedLevel : LevelStaticMap :=
  ⟨false, false, 1, [0, 1, 2, 3], [], 4, 0, 0, []⟩

/-- The 3x2 grid of resolution 1 whose cells are all free. -/
def freeGrid : OccupancyGrid := ⟨3, 2, 1, [0, 0, 0, 0, 0, 0]⟩

/-- The grid with five rows and no column. -/
def emptyGrid : OccupancyGrid := ⟨0, 5, 1, []⟩

/-- A 3x2 grid of resolution 1/2 with walls of both kinds (100 and -1). -/
def mixedGrid : OccupancyGrid := ⟨3, 2, 1 / 2, [100, 0, -1, 0, 0, 100]⟩

/-- A 3x2 grid of resolution 1 whose first row has walls in its last two columns: the run of
seam 0 reaches the last column. -/
def sentinelGrid : OccupancyGrid := ⟨3, 2, 1, [0, 100, 100, 0, 0, 0]⟩

/-- A 1x1 grid whose cell sequence has two entries. -/
def longGrid : OccupancyGrid := ⟨1, 1, 1, [100, 0]⟩

/-- A 2x1 grid whose cell sequence has one entry. -/
def shortGrid : OccupancyGrid := ⟨2, 1, 1, [0]⟩

/-! ## Reference notions for the approximate mode -/

/-- The wall/free class of the cell of row `i`, column `j`: `true` for a wall (100 or -1). -/
def isWall (g : OccupancyGrid) (i j : Nat) : Bool :=
  isOccupied (g.data.getD (i * g.width + j) 0)

/-- The image `static_map` of a grid whose reads are all in range. -/
def staticMapOf (g : OccupancyGrid) : Mat :=
  ⟨g.height, g.width,
    (List.range g.height).map fun i =>
      (List.range g.width).map fun j => if isWall g i j then 255 else 0⟩

/-- The four sides (bottom, right, top, left) of the axis-aligned box of centre `c` and
half-extent `h`, each as a pair of end points. -/
def footprintSides (c : Vec2) (h : ℚ) : List (Vec2 × Vec2) :=
  [(⟨c.x - h, c.y - h⟩, ⟨c.x + h, c.y - h⟩),
   (⟨c.x + h, c.y - h⟩, ⟨c.x + h, c.y + h⟩),
   (⟨c.x - h, c.y + h⟩, ⟨c.x + h, c.y + h⟩),
   (⟨c.x - h, c.y - h⟩, ⟨c.x - h, c.y + h⟩)]

/-- The edge fixtures that the constructor's call of `loadStaticMap` in approximate mode
creates, as `(body, p1, p2)` in creation order; `none` when a read leaves `data`. -/
def emittedEdges (g : OccupancyGrid) : Option (List (Nat × Vec2 × Vec2)) :=
  (loadStaticMap g true (initial false)).map fun s => edgesOf s.trace

/-- Whether some edge of `es` is horizontal at the height of grid row `k` and spans the
position of grid column `c` (left end included, right end excluded), for a grid of `w`
columns, `h` rows and resolution `r`. -/
def crossesRowSeam (w h : Nat) (r : ℚ) (es : List (Nat × Vec2 × Vec2)) (k c : Nat) : Bool :=
  es.any fun e =>
    decide (e.2.1.y = lowerLeftCoord h r + r * (k : ℚ)) &&
    decide (e.2.2.y = lowerLeftCoord h r + r * (k : ℚ)) &&
    decide (e.2.1.x ≤ lowerLeftCoord w r + r * (c : ℚ)) &&
    decide (lowerLeftCoord w r + r * (c : ℚ) < e.2.2.x)

/-- Whether some edge of `es` is vertical at the abscissa of grid column `k` and spans the
position of grid row `c` (lower end included, upper end excluded). -/
def crossesColSeam (w h : Nat) (r : ℚ) (es : List (Nat × Vec2 × Vec2)) (k c : Nat) : Bool :=
  es.any fun e =>
    decide (e.2.1.x = lowerLeftCoord w r + r * (k : ℚ)) &&
    decide (e.2.2.x = lowerLeftCoord w r + r * (k : ℚ)) &&
    decide (e.2.1.y ≤ lowerLeftCoord h r + r * (c : ℚ)) &&
    decide (lowerLeftCoord h r + r * (c : ℚ) < e.2.2.y)

/-- The exclusive or of a list of booleans. -/
def xorAll (l : List Bool) : Bool := l.foldl xor false

/-- Rasterisation of an edge list on a `w` by `h` grid of resolution `r`: the class of cell
`(i, j)` is the class `seed` of cell `(0, 0)`, flipped once for every edge crossed on the way
up column 0 to row `i` and then along row `i` to column `j`. -/
def rasterise (w h : Nat) (r : ℚ) (es : List (Nat × Vec2 × Vec2)) (seed : Bool)
    (i j : Nat) : Bool :=
  xor seed
    (xor (xorAll ((List.range i).map fun k => crossesRowSeam w h r es k 0))
      (xorAll ((List.range j).map fun k => crossesColSeam w h r es k i)))

/-- Whether position `j` lies inside the mask and carries a non-zero byte: the value the
scan computes for `edge_exists` at `j` (`edge_exists_eq`). -/
def maskBit (diff : List Nat) (j : Nat) : Bool :=
  if j < diff.length then diff.getD j 0 != 0 else false

/-- The effect of one iteration of the scan on the locals `start`, `started` and on the runs
closed so far (`scanStep_eq`). -/
def scanStepValue (diff : List Nat) (st : Scan) (j : Nat) : Scan :=
  if maskBit diff j && !st.started then
    { st with start := j, started := true }
  else if st.started && !maskBit diff j then
    { st with runs := st.runs ++ [(st.start, j)], started := false }
  else
    st

/-- The evaluations of `data[k]` made by one evaluation of the occupancy condition on the
cell stored at position `k`: one when the value is 100, two otherwise. -/
def cellReads (g : OccupancyGrid) (k : Nat) : List Nat :=
  if g.data.getD k 0 == 100 then [k] else [k, k]

/-- Position `c` lies in one of the runs `[start, end)`. -/
def covers (runs : List (Nat × Nat)) (c : Nat) : Prop :=
  ∃ r ∈ runs, r.1 ≤ c ∧ c < r.2

/-- The loop invariant of a seam scan before iteration `k`. -/
def ScanInv (diff : List Nat) (k : Nat) (st : Scan) : Prop :=
  (∀ r ∈ st.runs, r.1 < r.2 ∧ r.2 < k) ∧
  (st.started = true → st.start < k ∧ k ≤ diff.length ∧
    ∀ c, st.start ≤ c → c < k → maskBit diff c = true) ∧
  (∀ c, c < k →
    (maskBit diff c = true ↔ covers st.runs c ∨ (st.started = true ∧ st.start ≤ c)))

/-- The edge fixture, as `(body, p1, p2)`, that `add_edge` creates for the call `c`. -/
def edgeOfCall (g : OccupancyGrid) (body : Nat) (c : Nat × Nat × Nat × Nat) :
    Nat × Vec2 × Vec2 :=
  (body,
   ⟨(lower_left_pos g).x + g.resolution * (c.1 : ℚ),
    (lower_left_pos g).y + g.resolution * (c.2.1 : ℚ)⟩,
   ⟨(lower_left_pos g).x + g.resolution * (c.2.2.1 : ℚ),
    (lower_left_pos g).y + g.resolution * (c.2.2.2 : ℚ)⟩)

/-- The mask of the seam between rows `i` and `i + 1` of a classification `w` with `cols`
columns: 255 where the two rows differ in class, 0 elsewhere. -/
def rowMask (w : Nat → Nat → Bool) (cols i : Nat) : List Nat :=
  (List.range cols).map fun c => if xor (w i c) (w (i + 1) c) then 255 else 0

/-- The mask of the seam between columns `i` and `i + 1` of a classification `w` with `rows`
rows. -/
def colMask (w : Nat → Nat → Bool) (rows i : Nat) : List Nat :=
  (List.range rows).map fun c => if xor (w c i) (w c (i + 1)) then 255 else 0

/-- The grid with the class of every cell swapped: occupied and unknown cells become free
(0), free cells become occupied (100). -/
def complement (g : OccupancyGrid) : OccupancyGrid :=
  { g with data := g.data.map fun v => if isOccupied v then 0 else 100 }

/-- The transposed grid: `height` columns and `width` rows, the cell of row `j` and column
`i` being the cell of row `i` and column `j` of `g`. -/
def transpose (g : OccupancyGrid) : OccupancyGrid :=
  ⟨g.height, g.width, g.resolution,
    (List.range (g.width * g.height)).map fun k =>
      g.data.getD ((k % g.height) * g.width + k / g.height) 0⟩

/-- An `add_edge` call with the two grid coordinates of both end points swapped. -/
def swapCall (c : Nat × Nat × Nat × Nat) : Nat × Nat × Nat × Nat :=
  (c.2.1, c.1, c.2.2.2, c.2.2.1)

/-- An edge fixture with the two world coordinates of both end points swapped. -/
def swapXY (e : Nat × Vec2 × Vec2) : Nat × Vec2 × Vec2 :=
  (e.1, ⟨e.2.1.y, e.2.1.x⟩, ⟨e.2.2.y, e.2.2.x⟩)

/-- The order part of the scan invariant: the runs emitted so far are in increasing order
with a gap between any two, and all end before the start of a run still open. -/
def ScanOrder (st : Scan) : Prop :=
  st.runs.Pairwise (fun a b => a.2 < b.1) ∧
  (st.started = true → ∀ r ∈ st.runs, r.2 < st.start)

/-- The grid cut down to its first `width * height` cells. -/
def truncated (g : OccupancyGrid) : OccupancyGrid :=
  { g with data := g.data.take (g.width * g.height) }

/-- The mask reads of a seam loop over `seams` seams whose masks have `len` bytes: for every
seam, the positions `0, ..., len - 1` in order. -/
def maskReadsOf (seams len : Nat) : List (Nat × Nat) :=
  (List.range seams).flatMap fun _ => (List.range len).map fun j => (len, j)

/-- The `add_edge` calls, as `(x1, y1, x2, y2)` in call order, that the constructor's call of
`loadStaticMap` makes in approximate mode; `none` when a read leaves `data`. -/
def emittedCalls (g : OccupancyGrid) : Option (List (Nat × Nat × Nat × Nat)) :=
  (loadStaticMapTraced g true (initial false, noProbe)).map fun r => r.2.edgeCalls

/-- Whether some call of `cs` is horizontal at grid ordinate `k` and spans grid abscissa `c`
(left end included, right end excluded). -/
def callCrossesRowSeam (cs : List (Nat × Nat × Nat × Nat)) (k c : Nat) : Bool :=
  cs.any fun q =>
    decide (q.2.1 = k) && decide (q.2.2.2 = k) && decide (q.1 ≤ c) && decide (c < q.2.2.1)

/-- Whether some call of `cs` is vertical at grid abscissa `k` and spans grid ordinate `c`
(lower end included, upper end excluded). -/
def callCrossesColSeam (cs : List (Nat × Nat × Nat × Nat)) (k c : Nat) : Bool :=
  cs.any fun q =>
    decide (q.1 = k) && decide (q.2.2.1 = k) && decide (q.2.1 ≤ c) && decide (c < q.2.2.2)

/-- Rasterisation of a list of `add_edge` calls: the class of cell `(i, j)` is the class
`seed` of cell `(0, 0)`, flipped once for every call crossed on the way up column 0 to row
`i` and then along row `i` to column `j`. Only the integer arguments of the calls are used. -/
def rasteriseCalls (cs : List (Nat × Nat × Nat × Nat)) (seed : Bool) (i j : Nat) : Bool :=
  xor seed
    (xor (xorAll ((List.range i).map fun k => callCrossesRowSeam cs k 0))
      (xorAll ((List.range j).map fun k => callCrossesColSeam cs k i)))

/-! ## `lazyclear` -/

theorem lazyclearLoop_kept (n : Nat) (l : List Nat) (i : Nat) :
    (lazyclearLoop n i l).1 = l.take (n + 1 - i) := by
  induction l generalizing i with
  | nil => simp [lazyclearLoop]
  | cons b rest ih =>
    simp only [lazyclearLoop]
    by_cases h : i > n
    · have h0 : n + 1 - i = 0 := by omega
      have h1 : n + 1 - (i + 1) = 0 := by omega
      simp [h, ih, h0, h1]
    · have h1 : n + 1 - i = (n + 1 - (i + 1)) + 1 := by omega
      simp only [h, if_false, ih]
      rw [h1, List.take_succ_cons]

theorem lazyclearLoop_calls_index (n : Nat) (l : List Nat) (i : Nat) :
    ∀ p ∈ destroyedOf (lazyclearLoop n i l).2, n < p.1 := by
  induction l generalizing i with
  | nil => simp [lazyclearLoop, destroyedOf]
  | cons b rest ih =>
    simp only [lazyclearLoop]
    by_cases h : i > n
    · simp only [h, if_true]
      intro p hp
      simp only [destroyedOf, List.filterMap_cons, List.mem_cons] at hp
      rcases hp with hp | hp
      · subst hp; exact h
      · exact ih (i + 1) p hp
    · simp only [h, if_false]
      exact ih (i + 1)

theorem lazyclearLoop_calls_nil (n : Nat) (l : List Nat) (i : Nat)
    (h : l.length + i ≤ n + 1) : (lazyclearLoop n i l).2 = [] := by
  induction l generalizing i with
  | nil => simp [lazyclearLoop]
  | cons b rest ih =>
    simp only [List.length_cons] at h
    have hi : ¬ i > n := by omega
    simp only [lazyclearLoop, hi, if_false]
    exact ih (i + 1) (by omega)

theorem lazyclear_bodyList (s : LevelStaticMap) :
    (lazyclear s)._bodyList = s._bodyList.take (s._n_non_clear_bodies + 1) := by
  simp [lazyclear, lazyclearLoop_kept]

theorem lazyclear_nNonClearBodies (s : LevelStaticMap) :
    (lazyclear s)._n_non_clear_bodies = s._n_non_clear_bodies := rfl

/-- C2 (evaluation at the failing input). With one permanent body and two later bodies,
`lazyclear` keeps the entry at index 1 = `_n_non_clear_bodies` and destroys only the entry at
index 2. -/
theorem lazyclear_keeps_entry_at_watermark :
    (lazyclear ⟨false, false, 1, [0, 1, 2], [], 3, 0, 0, []⟩)._bodyList = [0, 1] ∧
    destroyedOf (lazyclear ⟨false, false, 1, [0, 1, 2], [], 3, 0, 0, []⟩).trace = [(2, 2)] ∧
    (lazyclear ⟨false, false, 1, [0, 1, 2], [], 3, 0, 0, []⟩)._bodyList ≠
      List.take 1 [0, 1, 2] := by
  decide

/-- C5. `lazyclear` is idempotent: a second call with no registration in between returns the
state the first call produced, so the registry holds the same handles in the same order and
the trace gains no call at all, in particular no `DestroyBody`. -/
theorem lazyclear_idempotent (s : LevelStaticMap) :
    lazyclear (lazyclear s) = lazyclear s ∧
    (lazyclear (lazyclear s))._bodyList = (lazyclear s)._bodyList ∧
    destroyedOf ((lazyclear (lazyclear s)).trace.drop (lazyclear s).trace.length) = [] := by
  have hnil : (lazyclearLoop (lazyclear s)._n_non_clear_bodies 0 (lazyclear s)._bodyList).2 = [] := by
    apply lazyclearLoop_calls_nil
    rw [lazyclear_bodyList, lazyclear_nNonClearBodies, List.length_take]
    omega
  have hkeep : (lazyclearLoop (lazyclear s)._n_non_clear_bodies 0 (lazyclear s)._bodyList).1
      = (lazyclear s)._bodyList := by
    rw [lazyclearLoop_kept, lazyclear_bodyList, lazyclear_nNonClearBodies]
    simp
  have h : lazyclear (lazyclear s) = lazyclear s := by
    conv_lhs => rw [lazyclear]
    simp only [hnil, hkeep, List.append_nil]
  refine ⟨h, ?_, ?_⟩
  · rw [h]
  · rw [h]; simp [destroyedOf]

theorem applyOp_invariant (s : LevelStaticMap) (op : RegistryOp)
    (h : s._n_non_clear_bodies ≤ s._bodyList.length) :
    (applyOp s op)._n_non_clear_bodies = s._n_non_clear_bodies ∧
    s._n_non_clear_bodies ≤ (applyOp s op)._bodyList.length ∧
    (applyOp s op)._bodyList.take s._n_non_clear_bodies = s._bodyList.take s._n_non_clear_bodies ∧
    ∃ t, (applyOp s op).trace = s.trace ++ t ∧
      ∀ p ∈ destroyedOf t, s._n_non_clear_bodies < p.1 := by
  cases op with
  | register b =>
    refine ⟨rfl, ?_, ?_, [], ?_, ?_⟩
    · simp only [applyOp, registerEphemeral, List.length_append]; omega
    · simp only [applyOp, registerEphemeral]
      rw [List.take_append_of_le_length h]
    · simp [applyOp, registerEphemeral]
    · simp [destroyedOf]
  | clear =>
    refine ⟨rfl, ?_, ?_, _, rfl, ?_⟩
    · simp only [applyOp, lazyclear_bodyList, List.length_take]; omega
    · simp only [applyOp, lazyclear_bodyList, List.take_take]
      congr 1; omega
    · exact lazyclearLoop_calls_index _ _ _

/-- C6. Watermark invariant: from a registry at least as long as the watermark
`n = _n_non_clear_bodies`, after any finite sequence of registrations and `lazyclear` calls
the watermark is unchanged, the registry is still at least `n` long, its first `n` entries are
the original ones in the original order, and every `DestroyBody` call issued along the way was
for an entry at an index `>= n` (none at an index `< n`). -/
theorem watermark_invariant (s : LevelStaticMap) (ops : List RegistryOp)
    (h : s._n_non_clear_bodies ≤ s._bodyList.length) :
    (applyOps s ops)._n_non_clear_bodies = s._n_non_clear_bodies ∧
    s._n_non_clear_bodies ≤ (applyOps s ops)._bodyList.length ∧
    (applyOps s ops)._bodyList.take s._n_non_clear_bodies = s._bodyList.take s._n_non_clear_bodies ∧
    ∃ t, (applyOps s ops).trace = s.trace ++ t ∧
      ∀ p ∈ destroyedOf t, s._n_non_clear_bodies ≤ p.1 := by
  induction ops generalizing s with
  | nil =>
    refine ⟨rfl, h, rfl, [], ?_, ?_⟩
    · simp [applyOps]
    · simp [destroyedOf]
  | cons op ops ih =>
    obtain ⟨h1, h2, h3, t1, h4, h5⟩ := applyOp_invariant s op h
    have h' : (applyOp s op)._n_non_clear_bodies ≤ (applyOp s op)._bodyList.length := by
      rw [h1]; exact h2
    obtain ⟨k1, k2, k3, t2, k4, k5⟩ := ih (applyOp s op) h'
    have hstep : applyOps s (op :: ops) = applyOps (applyOp s op) ops := rfl
    rw [hstep]
    rw [h1] at k1 k2 k3 k5
    refine ⟨k1, k2, k3.trans h3, t1 ++ t2, ?_, ?_⟩
    · rw [k4, h4, List.append_assoc]
    · intro p hp
      simp only [destroyedOf, List.filterMap_append, List.mem_append] at hp
      rcases hp with hp | hp
      · exact Nat.le_of_lt (h5 p hp)
      · exact k5 p hp

/-- Witness for C6: one permanent body, two registrations with a `lazyclear` in between and one
after. -/
theorem watermark_invariant_witness :
    (applyOps ⟨false, false, 1, [0], [], 1, 0, 0, []⟩
        [RegistryOp.register 1, RegistryOp.register 2, RegistryOp.clear,
         RegistryOp.register 3, RegistryOp.register 4, RegistryOp.clear])._n_non_clear_bodies = 1 ∧
    1 ≤ (applyOps ⟨false, false, 1, [0], [], 1, 0, 0, []⟩
        [RegistryOp.register 1, RegistryOp.register 2, RegistryOp.clear,
         RegistryOp.register 3, RegistryOp.register 4, RegistryOp.clear])._bodyList.length ∧
    (applyOps ⟨false, false, 1, [0], [], 1, 0, 0, []⟩
        [RegistryOp.register 1, RegistryOp.register 2, RegistryOp.clear,
         RegistryOp.register 3, RegistryOp.register 4, RegistryOp.clear])._bodyList.take 1
      = [0] ∧
    ∃ t, (applyOps ⟨false, false, 1, [0], [], 1, 0, 0, []⟩
        [RegistryOp.register 1, RegistryOp.register 2, RegistryOp.clear,
         RegistryOp.register 3, RegistryOp.register 4, RegistryOp.clear]).trace = [] ++ t ∧
      ∀ p ∈ destroyedOf t, 1 ≤ p.1 :=
  watermark_invariant ⟨false, false, 1, [0], [], 1, 0, 0, []⟩
    [RegistryOp.register 1, RegistryOp.register 2, RegistryOp.clear,
     RegistryOp.register 3, RegistryOp.register 4, RegistryOp.clear] (by decide)

/-! ## Per-cell mode -/

theorem foldlM_eq_some_foldl {α β : Type} (f : β → α → Option β) (f' : β → α → β)
    (l : List α) (h : ∀ b, ∀ a ∈ l, f b a = some (f' b a)) (b : β) :
    l.foldlM f b = some (l.foldl f' b) := by
  induction l generalizing b with
  | nil => rfl
  | cons a l ih =>
    rw [List.foldlM_cons, h b a (List.mem_cons_self a l)]
    simp only [Option.some_bind, List.foldl_cons]
    exact ih (fun b x hx => h b x (List.mem_cons_of_mem a hx)) (f' b a)

theorem foldl_if_eq_foldl_filter_map {α β γ : Type} (step : β → α → β) (f : β → γ → β)
    (p : α → Bool) (k : α → γ) (l : List α)
    (h : ∀ b, ∀ a ∈ l, step b a = if p a then f b (k a) else b) (b : β) :
    l.foldl step b = ((l.filter p).map k).foldl f b := by
  induction l generalizing b with
  | nil => rfl
  | cons a l ih =>
    have ih' := ih (fun b x hx => h b x (List.mem_cons_of_mem a hx))
    rw [List.foldl_cons, h b a (List.mem_cons_self a l)]
    by_cases hp : p a = true
    · simp [hp, ih']
    · simp [hp, ih']

theorem foldl_foldl_eq_foldl_flatMap {α β γ : Type} (f : β → γ → β) (r : α → List γ)
    (l : List α) (b : β) :
    l.foldl (fun b a => (r a).foldl f b) b = (l.flatMap r).foldl f b := by
  induction l generalizing b with
  | nil => rfl
  | cons a l ih => simp [ih]

theorem cellIndex_eq (g : OccupancyGrid) (h : g.WellFormed) (i j : Nat)
    (hi : i < g.height) (hj : j < g.width) :
    cellIndex g.width i j = i * g.width + j ∧ i * g.width + j < g.data.length := by
  obtain ⟨hlen, hfit⟩ := h
  have h1 : i * g.width + j < g.width * g.height := by
    calc i * g.width + j < i * g.width + g.width := by omega
      _ = (i + 1) * g.width := by ring
      _ ≤ g.height * g.width := Nat.mul_le_mul_right _ hi
      _ = g.width * g.height := by ring
  refine ⟨?_, by omega⟩
  unfold cellIndex
  exact Nat.mod_eq_of_lt (by omega)

theorem read_cell (g : OccupancyGrid) (h : g.WellFormed) (i j : Nat)
    (hi : i < g.height) (hj : j < g.width) :
    g.data[cellIndex g.width i j]? = some (g.data.getD (i * g.width + j) 0) := by
  obtain ⟨h1, h2⟩ := cellIndex_eq g h i j hi hj
  rw [h1, List.getD_eq_getElem?_getD, List.getElem?_eq_getElem h2]
  simp

theorem foldlM_pair {σ α : Type} (f : σ × Probe → α → Option (σ × Probe))
    (fv : σ → α → σ) (fp : Probe → α → Probe) (l : List α)
    (h : ∀ s p, ∀ a ∈ l, f (s, p) a = some (fv s a, fp p a)) (s : σ) (p : Probe) :
    l.foldlM f (s, p) = some (l.foldl fv s, l.foldl fp p) := by
  induction l generalizing s p with
  | nil => rfl
  | cons a l ih =>
    rw [List.foldlM_cons, h s p a (List.mem_cons_self a l)]
    simp only [Option.some_bind, List.foldl_cons]
    exact ih (fun s p x hx => h s p x (List.mem_cons_of_mem a hx)) (fv s a) (fp p a)

theorem addData_nil (p : Probe) : p.addData [] = p := by
  simp [Probe.addData]

theorem addData_addData (p : Probe) (a b : List Nat) :
    (p.addData a).addData b = p.addData (a ++ b) := by
  simp [Probe.addData]

theorem addMask_nil (p : Probe) : p.addMask [] = p := by
  simp [Probe.addMask]

theorem addMask_addMask (p : Probe) (a b : List (Nat × Nat)) :
    (p.addMask a).addMask b = p.addMask (a ++ b) := by
  simp [Probe.addMask]

theorem foldl_addData {α : Type} (l : List α) (k : α → List Nat) (p : Probe) :
    l.foldl (fun p a => p.addData (k a)) p = p.addData (l.flatMap k) := by
  induction l generalizing p with
  | nil => simp [addData_nil]
  | cons a l ih => simp [ih, addData_addData]

theorem foldl_addMask {α : Type} (l : List α) (k : α → List (Nat × Nat)) (p : Probe) :
    l.foldl (fun p a => p.addMask (k a)) p = p.addMask (l.flatMap k) := by
  induction l generalizing p with
  | nil => simp [addMask_nil]
  | cons a l ih => simp [ih, addMask_addMask]

theorem readData_eq (g : OccupancyGrid) (h : g.WellFormed) (i j : Nat)
    (hi : i < g.height) (hj : j < g.width) (p : Probe) :
    readData g (cellIndex g.width i j) p =
      some (g.data.getD (i * g.width + j) 0, p.addData [i * g.width + j]) := by
  unfold readData
  rw [read_cell g h i j hi hj, (cellIndex_eq g h i j hi hj).1]
  rfl

theorem occupiedTest_eq (g : OccupancyGrid) (h : g.WellFormed) (i j : Nat)
    (hi : i < g.height) (hj : j < g.width) (p : Probe) :
    occupiedTest g i j p =
      some (isOccupied (g.data.getD (i * g.width + j) 0),
        p.addData (cellReads g (i * g.width + j))) := by
  unfold occupiedTest cellReads
  simp only [readData_eq g h i j hi hj, Option.some_bind, Option.bind_eq_bind]
  generalize g.data.getD (i * g.width + j) 0 = v
  by_cases hv : (v == 100) = true
  · rw [if_pos hv, if_pos hv]
    simp only [isOccupied, hv, Bool.true_or]
    rfl
  · have hv' : (v == 100) = false := by simpa using hv
    rw [if_neg hv, if_neg hv]
    simp only [isOccupied, hv', Bool.false_or, addData_addData]
    rfl

theorem perCellStepTraced_eq (g : OccupancyGrid) (h : g.WellFormed) (i j : Nat)
    (hi : i < g.height) (hj : j < g.width) (s : LevelStaticMap) (p : Probe) :
    perCellStepTraced g i (s, p) j =
      some (if isOccupied (g.data.getD (i * g.width + j) 0)
          then placeBox g s (i * g.width + j) else s,
        p.addData (cellReads g (i * g.width + j))) := by
  have hdiv : (i * g.width + j) / g.width = i := by
    rw [Nat.add_comm, Nat.add_mul_div_right _ _ (by omega), Nat.div_eq_of_lt hj]; simp
  have hmod : (i * g.width + j) % g.width = j := by
    rw [Nat.add_comm, Nat.add_mul_mod_self_right, Nat.mod_eq_of_lt hj]
  unfold perCellStepTraced
  rw [occupiedTest_eq g h i j hi hj]
  simp only [Option.some_bind, Option.bind_eq_bind, placeBox, hdiv, hmod]
  split <;> rfl

theorem perCellStep_eq (g : OccupancyGrid) (h : g.WellFormed) (i j : Nat)
    (hi : i < g.height) (hj : j < g.width) (s : LevelStaticMap) :
    perCellStep g i s j =
      some (if isOccupied (g.data.getD (i * g.width + j) 0)
        then placeBox g s (i * g.width + j) else s) := by
  unfold perCellStep
  rw [perCellStepTraced_eq g h i j hi hj]
  rfl

theorem flatMap_range_rows (q : Nat → Bool) (w h : Nat) :
    ((List.range h).flatMap fun i =>
      ((List.range w).filter fun j => q (i * w + j)).map fun j => i * w + j)
      = (List.range (w * h)).filter q := by
  induction h with
  | zero => simp
  | succ n ih =>
    rw [List.range_succ, List.flatMap_append, ih, Nat.mul_succ, List.range_add,
      List.filter_append, List.filter_map]
    simp only [List.flatMap_cons, List.flatMap_nil, List.append_nil]
    congr 1
    have e : ∀ j, n * w + j = w * n + j := fun j => by rw [Nat.mul_comm]
    simp only [e]
    rfl

theorem flatMap_range_cells {β : Type} (k : Nat → List β) (w h : Nat) :
    ((List.range h).flatMap fun i => (List.range w).flatMap fun j => k (i * w + j))
      = (List.range (w * h)).flatMap k := by
  have hall : ((List.range h).flatMap fun i => (List.range w).map fun j => i * w + j)
      = List.range (w * h) := by
    have := flatMap_range_rows (fun _ => true) w h
    simpa using this
  rw [← hall, List.flatMap_assoc]
  apply List.flatMap_congr
  intro i _
  rw [List.flatMap_map]

theorem perCell_value_fold (g : OccupancyGrid) (h : g.WellFormed) (s : LevelStaticMap) :
    (List.range g.height).foldl
        (fun s i => (List.range g.width).foldl
          (fun s j => if isOccupied (g.data.getD (i * g.width + j) 0)
            then placeBox g s (i * g.width + j) else s) s) s
      = (occupiedCells g).foldl (placeBox g) s := by
  have hrow : ∀ (i : Nat) (b : LevelStaticMap),
      (List.range g.width).foldl
          (fun s j => if isOccupied (g.data.getD (i * g.width + j) 0)
            then placeBox g s (i * g.width + j) else s) b
        = (((List.range g.width).filter
            fun j => isOccupied (g.data.getD (i * g.width + j) 0)).map
              fun j => i * g.width + j).foldl (placeBox g) b :=
    fun i b => foldl_if_eq_foldl_filter_map _ (placeBox g) _ _ _ (fun _ _ _ => rfl) b
  simp only [hrow]
  rw [foldl_foldl_eq_foldl_flatMap (placeBox g)
    (fun i => ((List.range g.width).filter
          fun j => isOccupied (g.data.getD (i * g.width + j) 0)).map
            fun j => i * g.width + j)]
  rw [flatMap_range_rows (fun k => isOccupied (g.data.getD k 0)), occupiedCells, h.1]

theorem loadPerCellTraced_eq (g : OccupancyGrid) (h : g.WellFormed) (s : LevelStaticMap)
    (p : Probe) :
    loadPerCellTraced g (s, p) =
      some ((occupiedCells g).foldl (placeBox g) s,
        p.addData ((List.range (g.width * g.height)).flatMap (cellReads g))) := by
  unfold loadPerCellTraced
  rw [foldlM_pair _
    (fun s i => (List.range g.width).foldl
      (fun s j => if isOccupied (g.data.getD (i * g.width + j) 0)
        then placeBox g s (i * g.width + j) else s) s)
    (fun p i => (List.range g.width).foldl
      (fun p j => p.addData (cellReads g (i * g.width + j))) p)]
  · rw [perCell_value_fold g h s]
    simp only [foldl_addData]
    rw [flatMap_range_cells]
  · intro s' p' i hi
    rw [List.mem_range] at hi
    apply foldlM_pair
    intro s'' p'' j hj
    rw [List.mem_range] at hj
    exact perCellStepTraced_eq g h i j hi hj s'' p''

theorem loadPerCell_eq (g : OccupancyGrid) (h : g.WellFormed) (s : LevelStaticMap) :
    loadPerCell g s = some ((occupiedCells g).foldl (placeBox g) s) := by
  unfold loadPerCell
  rw [loadPerCellTraced_eq g h]
  rfl

theorem foldl_placeBox (g : OccupancyGrid) (ks : List Nat) (s : LevelStaticMap) :
    (ks.foldl (placeBox g) s).trace =
        s.trace ++ ks.map (fun k => Event.addBox (cellBox g k).1 (cellBox g k).2.1
          (cellBox g k).2.2.1 (cellBox g k).2.2.2) ∧
    (ks.foldl (placeBox g) s)._n_non_clear_bodies = s._n_non_clear_bodies + ks.length ∧
    (ks.foldl (placeBox g) s)._bodyList = s._bodyList ++ List.range' s.nextBody ks.length ∧
    (ks.foldl (placeBox g) s).nextBody = s.nextBody + ks.length ∧
    (ks.foldl (placeBox g) s)._dynamic = s._dynamic ∧
    (ks.foldl (placeBox g) s)._init_reset = s._init_reset ∧
    (ks.foldl (placeBox g) s)._wanderers = s._wanderers := by
  induction ks generalizing s with
  | nil => simp
  | cons k ks ih =>
    obtain ⟨h1, h2, h3, h4, h5, h6, h7⟩ := ih (placeBox g s k)
    simp only [List.foldl_cons]
    rw [h1, h2, h3, h4, h5, h6, h7]
    simp only [placeBox, addBox, cellBox, List.map_cons, List.length_cons, List.range'_succ,
      List.append_assoc, List.singleton_append]
    refine ⟨trivial, by omega, trivial, by omega, trivial, trivial, trivial⟩

theorem countP_eq_length_filter_range {α : Type} (p : α → Bool) (d : α) (l : List α) :
    ((List.range l.length).filter fun k => p (l.getD k d)).length = l.countP p := by
  induction l with
  | nil => simp
  | cons a l ih =>
    rw [List.length_cons, List.range_succ_eq_map, List.filter_cons, List.filter_map]
    have e : ((fun k => p ((a :: l).getD k d)) ∘ Nat.succ) = fun k => p (l.getD k d) := by
      funext k; simp
    rw [e, List.countP_cons]
    by_cases hp : p a = true
    · simpa [hp] using ih
    · simpa [hp] using ih

theorem boxesOf_map_addBox {α : Type} (f : α → Vec2 × ℚ × ℚ × ℚ) (ks : List α) :
    boxesOf (ks.map fun k => Event.addBox (f k).1 (f k).2.1 (f k).2.2.1 (f k).2.2.2)
      = ks.map f := by
  induction ks with
  | nil => rfl
  | cons k ks ih =>
    simp only [boxesOf, List.map_cons, List.filterMap_cons] at ih ⊢
    rw [ih]

/-- C1. Per-cell mode on a well-formed grid returns, and the `addBox` calls it issues are
exactly one box per cell valued 100 or -1, in row-major order of those cells, each centred on
its cell with half-extents `resolution / 2`; so the number of boxes is the number of cells
valued 100 or -1, and no other cell gets a box. -/
theorem perCell_one_box_per_occupied_cell (g : OccupancyGrid) (s : LevelStaticMap)
    (h : g.WellFormed) :
    ∃ s' t, loadStaticMap g false s = some s' ∧ s'.trace = s.trace ++ t ∧
      t.length = (boxesOf t).length ∧
      boxesOf t = (occupiedCells g).map (cellBox g) ∧
      (boxesOf t).length = g.data.countP isOccupied := by
  refine ⟨_, _, ?_, (foldl_placeBox g (occupiedCells g) s).1, ?_, ?_, ?_⟩
  · simp only [loadStaticMap, Bool.not_false, if_true]
    exact loadPerCell_eq g h s
  · rw [boxesOf_map_addBox]; simp
  · exact boxesOf_map_addBox _ _
  · rw [boxesOf_map_addBox, List.length_map, occupiedCells]
    exact countP_eq_length_filter_range isOccupied 0 g.data

/-- Witness for C1: the 3x3 grid with the centre occupied yields one box. -/
theorem perCell_one_box_per_occupied_cell_witness :
    centreGrid.WellFormed ∧
    ∃ s' t, loadStaticMap centreGrid false (initial false) = some s' ∧
      s'.trace = (initial false).trace ++ t ∧
      t.length = (boxesOf t).length ∧
      boxesOf t = (occupiedCells centreGrid).map (cellBox centreGrid) ∧
      (boxesOf t).length = centreGrid.data.countP isOccupied :=
  ⟨by decide, perCell_one_box_per_occupied_cell centreGrid (initial false) (by decide)⟩

/-! ## Coordinates -/

theorem lowerLeftCoord_eq (n : Nat) (r : ℚ) :
    lowerLeftCoord n r = -((n : ℚ) - 1) * r / 2 := by
  have h1 : n >>> 1 = n / 2 := by simp [Nat.shiftRight_eq_div_pow]
  have h2 : n &&& 1 = n % 2 := Nat.and_one_is_mod n
  unfold lowerLeftCoord
  rw [h1, h2]
  obtain ⟨k, hk | hk⟩ := Nat.even_or_odd' n
  · have e1 : n / 2 = k := by omega
    have e2 : n % 2 = 0 := by omega
    have e3 : (0 ^^^ 1 : Nat) = 1 := by decide
    rw [e1, e2, e3, hk]
    push_cast
    ring
  · have e1 : n / 2 = k := by omega
    have e2 : n % 2 = 1 := by omega
    have e3 : (1 ^^^ 1 : Nat) = 0 := by decide
    rw [e1, e2, e3, hk]
    push_cast
    ring

theorem cellPos_eq (g : OccupancyGrid) (i j : Nat) :
    cellPos g i j =
      ⟨((j : ℚ) - ((g.width : ℚ) - 1) / 2) * g.resolution,
       ((i : ℚ) - ((g.height : ℚ) - 1) / 2) * g.resolution⟩ := by
  simp only [cellPos, lower_left_pos, lowerLeftCoord_eq, Vec2.mk.injEq]
  constructor <;> ring

/-- C9. Over exact rationals: `lower_left_pos` is `(-(W-1)*r/2, -(H-1)*r/2)` for even and odd
sizes alike; the per-cell step for row `i`, column `j` of a well-formed grid adds, when the
cell is occupied, the box of half-extents `r/2` centred at
`((j - (W-1)/2)*r, (i - (H-1)/2)*r)`; the centres of cells `(i, j)` and `(H-1-i, W-1-j)` are
negatives of each other; the middle cell of an odd-sized grid is centred at the origin; and
for the 3x3 grid with `r = 1` the single box is at `(0, 0)` with half-extent `1/2`. -/
theorem perCell_box_geometry (g : OccupancyGrid) (s : LevelStaticMap) (i j : Nat)
    (hwf : g.WellFormed) (hi : i < g.height) (hj : j < g.width) :
    lower_left_pos g =
      ⟨-((g.width : ℚ) - 1) * g.resolution / 2, -((g.height : ℚ) - 1) * g.resolution / 2⟩ ∧
    perCellStep g i s j = some
      (if isOccupied (g.data.getD (i * g.width + j) 0) then
        { s with
          _bodyList := s._bodyList ++ [s.nextBody]
          nextBody := s.nextBody + 1
          _n_non_clear_bodies := s._n_non_clear_bodies + 1
          trace := s.trace ++
            [Event.addBox
              ⟨((j : ℚ) - ((g.width : ℚ) - 1) / 2) * g.resolution,
               ((i : ℚ) - ((g.height : ℚ) - 1) / 2) * g.resolution⟩
              (g.resolution / 2) (g.resolution / 2) 0] }
      else s) ∧
    cellPos g (g.height - 1 - i) (g.width - 1 - j) =
      ⟨-(cellPos g i j).x, -(cellPos g i j).y⟩ ∧
    (∀ (a b : Nat) (r : ℚ) (d : List Int), cellPos ⟨2 * a + 1, 2 * b + 1, r, d⟩ b a = ⟨0, 0⟩) ∧
    (loadStaticMap centreGrid false (initial false)).map (fun t => boxesOf t.trace)
      = some [(⟨0, 0⟩, 1 / 2, 1 / 2, 0)] := by
  refine ⟨?_, ?_, ?_, ?_, ?_⟩
  · simp only [lower_left_pos, lowerLeftCoord_eq]
  · rw [perCellStep_eq g hwf i j hi hj s]
    have hdiv : (i * g.width + j) / g.width = i := by
      rw [Nat.add_comm, Nat.add_mul_div_right _ _ (by omega), Nat.div_eq_of_lt hj]; simp
    have hmod : (i * g.width + j) % g.width = j := by
      rw [Nat.add_comm, Nat.add_mul_mod_self_right, Nat.mod_eq_of_lt hj]
    simp only [placeBox, addBox, hdiv, hmod, cellPos_eq]
  · have e1 : ((g.height - 1 - i : Nat) : ℚ) = (g.height : ℚ) - 1 - i := by
      have : g.height - 1 - i = g.height - (1 + i) := by omega
      rw [this, Nat.cast_sub (by omega)]; push_cast; ring
    have e2 : ((g.width - 1 - j : Nat) : ℚ) = (g.width : ℚ) - 1 - j := by
      have : g.width - 1 - j = g.width - (1 + j) := by omega
      rw [this, Nat.cast_sub (by omega)]; push_cast; ring
    simp only [cellPos_eq, e1, e2, Vec2.mk.injEq]
    constructor <;> ring
  · intro a b r d
    simp only [cellPos_eq, Vec2.mk.injEq]
    push_cast
    constructor <;> ring
  · have hocc : occupiedCells centreGrid = [4] := by decide
    simp only [loadStaticMap, Bool.not_false, if_true, loadPerCell_eq centreGrid (by decide),
      hocc, Option.map_some', List.foldl_cons, List.foldl_nil, placeBox, addBox, cellPos_eq]
    norm_num [initial, boxesOf, centreGrid]
    rfl

/-- Witness for C9: the centre cell of the 3x3 grid. -/
theorem perCell_box_geometry_witness :
    centreGrid.WellFormed ∧ 1 < centreGrid.height ∧ 1 < centreGrid.width ∧
    perCellStep centreGrid 1 (initial false) 1 = some
      { initial false with
        _bodyList := [0]
        nextBody := 1
        _n_non_clear_bodies := 1
        trace := [Event.addBox ⟨0, 0⟩ (1 / 2) (1 / 2) 0] } ∧
    cellPos centreGrid 1 1 = ⟨0, 0⟩ := by
  have h := perCell_box_geometry centreGrid (initial false) 1 1 (by decide) (by decide)
    (by decide)
  refine ⟨by decide, by decide, by decide, ?_, ?_⟩
  · have hocc : isOccupied (centreGrid.data.getD (1 * centreGrid.width + 1) 0) = true := by
      decide
    rw [h.2.1, if_pos hocc]
    norm_num [initial, centreGrid]
  · exact h.2.2.2.1 1 1 1 _

/-! ## Approximate mode: the image -/

theorem foldl_append_singleton {α β : Type} (f : α → β) (l : List α) (init : List β) :
    l.foldl (fun acc a => acc ++ [f a]) init = init ++ l.map f := by
  induction l generalizing init with
  | nil => simp
  | cons a l ih => simp [ih]

theorem foldl_append_flatMap {α β : Type} (f : α → List β) (l : List α) (init : List β) :
    l.foldl (fun acc a => acc ++ f a) init = init ++ l.flatMap f := by
  induction l generalizing init with
  | nil => simp
  | cons a l ih => simp [ih]

theorem classifyStep_eq (g : OccupancyGrid) (h : g.WellFormed) (i j : Nat)
    (hi : i < g.height) (hj : j < g.width) (row : List Nat) (p : Probe) :
    classifyStep g i (row, p) j =
      some (row ++ [if isWall g i j then 255 else 0],
        p.addData (cellReads g (i * g.width + j))) := by
  unfold classifyStep
  rw [occupiedTest_eq g h i j hi hj]
  rfl

theorem classifyRow_eq (g : OccupancyGrid) (h : g.WellFormed) (i : Nat)
    (hi : i < g.height) (px : List (List Nat)) (p : Probe) :
    classifyRow g (px, p) i =
      some (px ++ [(List.range g.width).map fun j => if isWall g i j then 255 else 0],
        p.addData ((List.range g.width).flatMap fun j => cellReads g (i * g.width + j))) := by
  unfold classifyRow
  rw [foldlM_pair _ (fun row j => row ++ [if isWall g i j then 255 else 0])
    (fun p j => p.addData (cellReads g (i * g.width + j)))]
  · rw [foldl_append_singleton, foldl_addData]
    rfl
  · intro row p' j hj
    rw [List.mem_range] at hj
    exact classifyStep_eq g h i j hi hj row p'

theorem buildStaticMapTraced_eq (g : OccupancyGrid) (h : g.WellFormed) (p : Probe) :
    buildStaticMapTraced g p =
      some (staticMapOf g,
        p.addData ((List.range (g.width * g.height)).flatMap (cellReads g))) := by
  unfold buildStaticMapTraced
  rw [foldlM_pair _
    (fun px i => px ++ [(List.range g.width).map fun j => if isWall g i j then 255 else 0])
    (fun p i => p.addData
      ((List.range g.width).flatMap fun j => cellReads g (i * g.width + j)))]
  · rw [foldl_append_singleton, foldl_addData, flatMap_range_cells]
    rfl
  · intro px p' i hi
    rw [List.mem_range] at hi
    exact classifyRow_eq g h i hi px p'

theorem buildStaticMap_eq (g : OccupancyGrid) (h : g.WellFormed) :
    buildStaticMap g = some (staticMapOf g) := by
  unfold buildStaticMap
  rw [buildStaticMapTraced_eq g h]
  rfl

theorem maskBit_lt (diff : List Nat) (j : Nat) (h : j < diff.length) :
    diff[j]? = some (diff.getD j 0) := by
  rw [List.getD_eq_getElem?_getD, List.getElem?_eq_getElem h]
  rfl

theorem edge_exists_eq (diff : List Nat) (j : Nat) (p : Probe) :
    edge_exists diff j p =
      some (maskBit diff j, p.addMask (if j < diff.length then [(diff.length, j)] else [])) := by
  unfold edge_exists maskBit
  by_cases h : j < diff.length
  · simp only [if_pos h, maskBit_lt diff j h]
    rfl
  · simp only [if_neg h, addMask_nil]
    rfl

theorem scanStep_eq (diff : List Nat) (st : Scan) (p : Probe) (j : Nat) :
    scanStep diff (st, p) j =
      some (scanStepValue diff st j,
        p.addMask (if j < diff.length then [(diff.length, j)] else [])) := by
  unfold scanStep scanStepValue
  rw [edge_exists_eq]
  simp only [Option.some_bind, Option.bind_eq_bind]
  split
  · rfl
  · split <;> rfl

theorem flatMap_guard_range (n : Nat) (f : Nat → Nat × Nat) :
    ((List.range (n + 1)).flatMap fun j => if j < n then [f j] else [])
      = (List.range n).map f := by
  rw [List.range_succ, List.flatMap_append]
  simp only [List.flatMap_cons, List.flatMap_nil, Nat.lt_irrefl, if_false, List.append_nil]
  have : ∀ l : List Nat, (∀ j ∈ l, j < n) →
      (l.flatMap fun j => if j < n then [f j] else []) = l.map f := by
    intro l
    induction l with
    | nil => intro _; rfl
    | cons a l ih =>
      intro hl
      have ha : a < n := hl a (List.mem_cons_self a l)
      simp only [List.flatMap_cons, List.map_cons, if_pos ha, List.singleton_append]
      rw [ih (fun j hj => hl j (List.mem_cons_of_mem a hj))]
  exact this _ (fun j hj => List.mem_range.1 hj)

theorem scan_eq (diff : List Nat) (p : Probe) :
    scan diff p =
      some ((List.range (diff.length + 1)).foldl (scanStepValue diff) ⟨0, false, []⟩,
        p.addMask ((List.range diff.length).map fun j => (diff.length, j))) := by
  unfold scan
  rw [foldlM_pair _ (scanStepValue diff)
    (fun p j => p.addMask (if j < diff.length then [(diff.length, j)] else []))]
  · rw [foldl_addMask, flatMap_guard_range]
  · intro st p' j _
    exact scanStep_eq diff st p' j

theorem scanRuns_eq (diff : List Nat) :
    scanRuns diff =
      ((List.range (diff.length + 1)).foldl (scanStepValue diff) ⟨0, false, []⟩).runs := by
  unfold scanRuns
  rw [scan_eq]

theorem scan_runs (diff : List Nat) (p : Probe) :
    scan diff p =
      some (⟨((List.range (diff.length + 1)).foldl (scanStepValue diff) ⟨0, false, []⟩).start,
          ((List.range (diff.length + 1)).foldl (scanStepValue diff) ⟨0, false, []⟩).started,
          scanRuns diff⟩,
        p.addMask ((List.range diff.length).map fun j => (diff.length, j))) := by
  rw [scan_eq, scanRuns_eq]

theorem rowSeam_eq (m : Mat) (acc : List (Nat × Nat × Nat × Nat)) (p : Probe) (i : Nat) :
    rowSeam m (acc, p) i =
      some (acc ++ (scanRuns (rowDiff m i)).map (fun q => (q.1, i, q.2, i)),
        p.addMask ((List.range m.cols).map fun j => (m.cols, j))) := by
  have hlen : (rowDiff m i).length = m.cols := by simp [rowDiff]
  unfold rowSeam
  rw [scan_runs, hlen]
  rfl

theorem colSeam_eq (m : Mat) (acc : List (Nat × Nat × Nat × Nat)) (p : Probe) (i : Nat) :
    colSeam m (acc, p) i =
      some (acc ++ (scanRuns (colDiff m i)).map (fun q => (i, q.1, i, q.2)),
        p.addMask ((List.range m.rows).map fun j => (m.rows, j))) := by
  have hlen : (colDiff m i).length = m.rows := by simp [colDiff]
  unfold colSeam
  rw [scan_runs, hlen]
  rfl

theorem rowLoop_eq (m : Mat) (p : Probe) :
    rowLoop m p =
      some ((List.range (m.rows - 1)).flatMap
          (fun i => (scanRuns (rowDiff m i)).map fun q => (q.1, i, q.2, i)),
        p.addMask (maskReadsOf (m.rows - 1) m.cols)) := by
  unfold rowLoop
  rw [foldlM_pair _
    (fun acc i => acc ++ (scanRuns (rowDiff m i)).map (fun q => (q.1, i, q.2, i)))
    (fun p _ => p.addMask ((List.range m.cols).map fun j => (m.cols, j)))]
  · rw [foldl_append_flatMap, foldl_addMask]
    rfl
  · intro acc p' i _
    exact rowSeam_eq m acc p' i

theorem colLoop_eq (m : Mat) (p : Probe) :
    colLoop m p =
      some ((List.range (m.cols - 1)).flatMap
          (fun i => (scanRuns (colDiff m i)).map fun q => (i, q.1, i, q.2)),
        p.addMask (maskReadsOf (m.cols - 1) m.rows)) := by
  unfold colLoop
  rw [foldlM_pair _
    (fun acc i => acc ++ (scanRuns (colDiff m i)).map (fun q => (i, q.1, i, q.2)))
    (fun p _ => p.addMask ((List.range m.rows).map fun j => (m.rows, j)))]
  · rw [foldl_append_flatMap, foldl_addMask]
    rfl
  · intro acc p' i _
    exact colSeam_eq m acc p' i

theorem rowEdgeCalls_flatMap (m : Mat) :
    rowEdgeCalls m =
      (List.range (m.rows - 1)).flatMap fun i =>
        (scanRuns (rowDiff m i)).map fun r => (r.1, i, r.2, i) := by
  unfold rowEdgeCalls
  rw [rowLoop_eq]

theorem colEdgeCalls_flatMap (m : Mat) :
    colEdgeCalls m =
      (List.range (m.cols - 1)).flatMap fun i =>
        (scanRuns (colDiff m i)).map fun r => (i, r.1, i, r.2) := by
  unfold colEdgeCalls
  rw [colLoop_eq]

theorem loadApproximateTraced_eq (g : OccupancyGrid) (h : g.WellFormed) (s : LevelStaticMap)
    (p : Probe) :
    loadApproximateTraced g (s, p) = some
      ({ s with
          nextBody := s.nextBody + 1
          trace := s.trace ++ [Event.createBody s.nextBody]
            ++ (rowEdgeCalls (staticMapOf g)).map (add_edge g s.nextBody)
            ++ (colEdgeCalls (staticMapOf g)).map (add_edge g s.nextBody)
          _n_non_clear_bodies := s._n_non_clear_bodies + 1
          _bodyList := s._bodyList ++ [s.nextBody] },
        (((p.addData ((List.range (g.width * g.height)).flatMap (cellReads g))).addMask
            (maskReadsOf (g.height - 1) g.width)).addMask
            (maskReadsOf (g.width - 1) g.height)).addCalls
          (rowEdgeCalls (staticMapOf g) ++ colEdgeCalls (staticMapOf g))) := by
  unfold loadApproximateTraced
  simp only [buildStaticMapTraced_eq g h, rowLoop_eq, colLoop_eq, Option.some_bind,
    Option.bind_eq_bind, rowEdgeCalls_flatMap, colEdgeCalls_flatMap]
  rfl

theorem loadApproximate_eq (g : OccupancyGrid) (h : g.WellFormed) (s : LevelStaticMap) :
    loadStaticMap g true s = some
      { s with
        nextBody := s.nextBody + 1
        trace := s.trace ++ [Event.createBody s.nextBody]
          ++ (rowEdgeCalls (staticMapOf g)).map (add_edge g s.nextBody)
          ++ (colEdgeCalls (staticMapOf g)).map (add_edge g s.nextBody)
        _n_non_clear_bodies := s._n_non_clear_bodies + 1
        _bodyList := s._bodyList ++ [s.nextBody] } := by
  simp only [loadStaticMap, Bool.not_true, if_false, loadApproximate,
    loadApproximateTraced_eq g h]
  rfl

theorem createdBodiesOf_map_addEdge (g : OccupancyGrid) (b : Nat)
    (l : List (Nat × Nat × Nat × Nat)) : createdBodiesOf (l.map (add_edge g b)) = [] := by
  induction l with
  | nil => rfl
  | cons c l ih =>
    simp only [createdBodiesOf, List.map_cons, List.filterMap_cons, add_edge] at ih ⊢
    exact ih

/-- C10. Starting from `_n_non_clear_bodies = 0`, one run of `loadStaticMap` on a well-formed
grid returns and leaves `_n_non_clear_bodies` equal to the number of cells valued 100 or -1 in
per-cell mode, and equal to 1 in approximate mode whatever the cells are; approximate mode
creates exactly one body and appends exactly that body to `_bodyList`. Both values are
expressions in the grid and the mode alone. -/
theorem loadStaticMap_nNonClearBodies (g : OccupancyGrid) (s : LevelStaticMap)
    (hwf : g.WellFormed) (h0 : s._n_non_clear_bodies = 0) :
    (∃ s', loadStaticMap g false s = some s' ∧
      s'._n_non_clear_bodies = g.data.countP isOccupied) ∧
    (∃ s' t, loadStaticMap g true s = some s' ∧ s'._n_non_clear_bodies = 1 ∧
      s'._bodyList = s._bodyList ++ [s.nextBody] ∧
      s'.trace = s.trace ++ t ∧ createdBodiesOf t = [s.nextBody]) := by
  constructor
  · refine ⟨(occupiedCells g).foldl (placeBox g) s, ?_, ?_⟩
    · simp only [loadStaticMap, Bool.not_false, if_true]
      exact loadPerCell_eq g hwf s
    · rw [(foldl_placeBox g (occupiedCells g) s).2.1, h0, Nat.zero_add, occupiedCells]
      exact countP_eq_length_filter_range isOccupied 0 g.data
  · refine ⟨_, [Event.createBody s.nextBody]
        ++ (rowEdgeCalls (staticMapOf g)).map (add_edge g s.nextBody)
        ++ (colEdgeCalls (staticMapOf g)).map (add_edge g s.nextBody),
      loadApproximate_eq g hwf s, ?_, rfl, ?_, ?_⟩
    · simp [h0]
    · simp only [List.append_assoc]
    · simp only [createdBodiesOf, List.filterMap_append, List.filterMap_cons,
        List.filterMap_nil]
      have h1 := createdBodiesOf_map_addEdge g s.nextBody (rowEdgeCalls (staticMapOf g))
      have h2 := createdBodiesOf_map_addEdge g s.nextBody (colEdgeCalls (staticMapOf g))
      simp only [createdBodiesOf] at h1 h2
      rw [h1, h2]
      rfl

/-- Witness for C10: the 3x3 grid with the centre occupied, from the constructor's state. -/
theorem loadStaticMap_nNonClearBodies_witness :
    centreGrid.WellFormed ∧ (initial false)._n_non_clear_bodies = 0 ∧
    (∃ s', loadStaticMap centreGrid false (initial false) = some s' ∧
      s'._n_non_clear_bodies = 1) ∧
    (∃ s' t, loadStaticMap centreGrid true (initial false) = some s' ∧
      s'._n_non_clear_bodies = 1 ∧ s'._bodyList = [0] ∧
      s'.trace = [] ++ t ∧ createdBodiesOf t = [0]) :=
  ⟨by decide, rfl,
    (loadStaticMap_nNonClearBodies centreGrid (initial false) (by decide) rfl).1,
    (loadStaticMap_nNonClearBodies centreGrid (initial false) (by decide) rfl).2⟩

/-! ## Approximate mode on the 3x3 example -/

theorem centreGrid_calls :
    rowEdgeCalls (staticMapOf centreGrid) = [(1, 0, 2, 0), (1, 1, 2, 1)] ∧
    colEdgeCalls (staticMapOf centreGrid) = [(0, 1, 0, 2), (1, 1, 1, 2)] := by
  decide

/-- C4 (evaluation at the failing input). On the 3x3 grid with the centre occupied and
resolution 1, approximate mode creates one body and four edge fixtures on it, namely
`(0,-1)-(1,-1)`, `(0,0)-(1,0)`, `(-1,0)-(-1,1)` and `(0,0)-(0,1)`; none of them is a side of
the footprint `[-1/2,1/2] x [-1/2,1/2]` of the box that per-cell mode places at `(0,0)`. -/
theorem centreGrid_approximate_edges :
    (loadStaticMap centreGrid true (initial false)).map
        (fun s => (createdBodiesOf s.trace, edgesOf s.trace)) =
      some ([0],
        [(0, ⟨0, -1⟩, ⟨1, -1⟩), (0, ⟨0, 0⟩, ⟨1, 0⟩),
         (0, ⟨-1, 0⟩, ⟨-1, 1⟩), (0, ⟨0, 0⟩, ⟨0, 1⟩)]) ∧
    (loadStaticMap centreGrid false (initial false)).map (fun s => boxesOf s.trace) =
      some [(⟨0, 0⟩, 1 / 2, 1 / 2, 0)] ∧
    ∀ e ∈ [((⟨0, -1⟩ : Vec2), (⟨1, -1⟩ : Vec2)), (⟨0, 0⟩, ⟨1, 0⟩),
        (⟨-1, 0⟩, ⟨-1, 1⟩), (⟨0, 0⟩, ⟨0, 1⟩)],
      e ∉ footprintSides ⟨0, 0⟩ (1 / 2) ∧ (e.2, e.1) ∉ footprintSides ⟨0, 0⟩ (1 / 2) := by
  refine ⟨?_, ?_, ?_⟩
  · rw [loadApproximate_eq centreGrid (by decide), centreGrid_calls.1, centreGrid_calls.2]
    simp only [Option.map_some', List.map_cons, List.map_nil, add_edge, lower_left_pos,
      lowerLeftCoord_eq]
    norm_num [initial, centreGrid, createdBodiesOf, edgesOf]
    exact ⟨rfl, rfl⟩
  · have hocc : occupiedCells centreGrid = [4] := by decide
    simp only [loadStaticMap, Bool.not_false, if_true, loadPerCell_eq centreGrid (by decide),
      hocc, Option.map_some', List.foldl_cons, List.foldl_nil, placeBox, addBox, cellPos_eq]
    norm_num [initial, boxesOf, centreGrid]
    rfl
  · intro e he
    simp only [List.mem_cons, List.mem_singleton, List.not_mem_nil, or_false] at he
    rcases he with h | h | h | h <;> subst h <;> norm_num [footprintSides]

/-! ## `reset` -/

theorem lazyclearLoop_calls_eq (n : Nat) (l : List Nat) (i : Nat) :
    (lazyclearLoop n i l).2 =
      (destroyedOf (lazyclearLoop n i l).2).map fun p => Event.destroyBody p.1 p.2 := by
  induction l generalizing i with
  | nil => rfl
  | cons b rest ih =>
    simp only [lazyclearLoop]
    by_cases h : i > n
    · simp only [h, if_true, destroyedOf, List.filterMap_cons, List.map_cons]
      congr 1
      exact ih (i + 1)
    · simp only [h, if_false]
      exact ih (i + 1)

theorem lazyclear_trace (s : LevelStaticMap) :
    ∃ d : List (Nat × Nat),
      (lazyclear s).trace = s.trace ++ d.map fun p => Event.destroyBody p.1 p.2 :=
  ⟨_, by rw [lazyclear, ← lazyclearLoop_calls_eq]⟩

theorem count_map_destroyBody (e : Event) (he : ∀ i b, e ≠ Event.destroyBody i b)
    (d : List (Nat × Nat)) : (d.map fun p => Event.destroyBody p.1 p.2).count e = 0 := by
  rw [List.count_eq_zero]
  intro hmem
  obtain ⟨p, _, hp⟩ := List.mem_map.1 hmem
  exact he p.1 p.2 hp.symm

theorem deletedWanderersOf_map_destroyBody (d : List (Nat × Nat)) :
    deletedWanderersOf (d.map fun p => Event.destroyBody p.1 p.2) = [] := by
  induction d with
  | nil => rfl
  | cons p d ih =>
    simp only [deletedWanderersOf, List.map_cons, List.filterMap_cons] at ih ⊢
    exact ih

theorem newWanderersOf_map_destroyBody (d : List (Nat × Nat)) :
    newWanderersOf (d.map fun p => Event.destroyBody p.1 p.2) = [] := by
  induction d with
  | nil => rfl
  | cons p d ih =>
    simp only [newWanderersOf, List.map_cons, List.filterMap_cons] at ih ⊢
    exact ih

theorem deletedWanderersOf_map_deleteWanderer (ws : List Wanderer) :
    deletedWanderersOf (ws.map Event.deleteWanderer) = ws := by
  induction ws with
  | nil => rfl
  | cons w ws ih =>
    simp only [deletedWanderersOf, List.map_cons, List.filterMap_cons] at ih ⊢
    rw [ih]

theorem newWanderersOf_map_deleteWanderer (ws : List Wanderer) :
    newWanderersOf (ws.map Event.deleteWanderer) = [] := by
  induction ws with
  | nil => rfl
  | cons w ws ih =>
    simp only [newWanderersOf, List.map_cons, List.filterMap_cons] at ih ⊢
    exact ih

theorem reset_not_dynamic (g : OccupancyGrid) (cfg : Settings) (f : Bool) (s : LevelStaticMap)
    (hd : s._dynamic = false) (hi : s._init_reset = true) :
    (reset g cfg f s)._dynamic = false ∧ (reset g cfg f s)._init_reset = true ∧
    goalAreaComputations (reset g cfg f s).trace = goalAreaComputations s.trace + 1 ∧
    dynamicAreaComputations (reset g cfg f s).trace = dynamicAreaComputations s.trace := by
  obtain ⟨d, hd'⟩ := lazyclear_trace s
  have h1 : (lazyclear s)._dynamic = false := hd
  have h2 : (lazyclear s)._init_reset = true := hi
  have hc := count_map_destroyBody Event.goalCalculateArea (fun _ _ h => by cases h) d
  have hc' := count_map_destroyBody Event.dynamicCalculateArea (fun _ _ h => by cases h) d
  cases f <;>
    simp [reset, resetGoalArea, resetDynamic, h1, h2, hd', goalAreaComputations,
      dynamicAreaComputations, List.count_append, hc, hc', List.count_cons]

theorem resetAll_not_dynamic (g : OccupancyGrid) (cfg : Settings) (flags : List Bool)
    (s : LevelStaticMap) (hd : s._dynamic = false) (hi : s._init_reset = true) :
    goalAreaComputations (resetAll g cfg flags s).trace =
      goalAreaComputations s.trace + flags.length ∧
    dynamicAreaComputations (resetAll g cfg flags s).trace =
      dynamicAreaComputations s.trace := by
  induction flags generalizing s with
  | nil => exact ⟨rfl, rfl⟩
  | cons f flags ih =>
    obtain ⟨h1, h2, h3, h4⟩ := reset_not_dynamic g cfg f s hd hi
    have e : resetAll g cfg (f :: flags) s = resetAll g cfg flags (reset g cfg f s) := rfl
    obtain ⟨i1, i2⟩ := ih _ h1 h2
    rw [e, i1, i2, h3, h4, List.length_cons]
    exact ⟨by omega, rfl⟩

/-! ## Dynamic obstacles -/

theorem spawn_loop (cfg : Settings) (n : Nat) (s : LevelStaticMap) :
    ∃ (ws : List Wanderer) (t : List Event),
      ((List.range n).foldl (fun u _ => spawnWanderer cfg u) s)._wanderers = s._wanderers ++ ws ∧
      ((List.range n).foldl (fun u _ => spawnWanderer cfg u) s).trace = s.trace ++ t ∧
      ((List.range n).foldl (fun u _ => spawnWanderer cfg u) s).nextWanderer
        = s.nextWanderer + n ∧
      newWanderersOf t = ws ∧ deletedWanderersOf t = [] ∧ ws.length = n ∧
      ∀ w ∈ ws, s.nextWanderer ≤ w.ptr := by
  induction n with
  | zero => exact ⟨[], [], by simp, by simp, rfl, rfl, rfl, rfl, by simp⟩
  | succ n ih =>
    obtain ⟨ws, t, h1, h2, h3, h4, h5, h6, h7⟩ := ih
    rw [List.range_succ, List.foldl_append]
    simp only [List.foldl_cons, List.foldl_nil]
    generalize (List.range n).foldl (fun u _ => spawnWanderer cfg u) s = u at h1 h2 h3
    refine ⟨ws ++ [⟨u.nextWanderer, cfg.randomPoint u.draws, cfg.obstacle_speed, 1 / 10,
        1 / 20, cfg.dynamic_obstacle_size / 2⟩],
      t ++ [Event.getRandomPoint (cfg.randomPoint u.draws),
        Event.newWanderer ⟨u.nextWanderer, cfg.randomPoint u.draws, cfg.obstacle_speed, 1 / 10,
        1 / 20, cfg.dynamic_obstacle_size / 2⟩], ?_, ?_, ?_, ?_, ?_, ?_, ?_⟩
    · simp only [spawnWanderer, h1, List.append_assoc]
    · simp only [spawnWanderer, h2, List.append_assoc]
    · simp only [spawnWanderer, h3]; omega
    · simp only [newWanderersOf, List.filterMap_append, List.filterMap_cons,
        List.filterMap_nil] at h4 ⊢
      rw [h4]
    · simp only [deletedWanderersOf, List.filterMap_append, List.filterMap_cons,
        List.filterMap_nil] at h5 ⊢
      rw [h5]; rfl
    · simp only [List.length_append, h6, List.length_singleton]
    · intro w hw
      rw [List.mem_append, List.mem_singleton] at hw
      rcases hw with hw | hw
      · exact h7 w hw
      · subst hw
        simp only [h3]; omega

theorem resetGoalArea_effect (g : OccupancyGrid) (cfg : Settings) (s : LevelStaticMap) :
    ∃ t, (resetGoalArea g cfg s).trace = s.trace ++ t ∧
      newWanderersOf t = [] ∧ deletedWanderersOf t = [] ∧
      (resetGoalArea g cfg s)._wanderers = s._wanderers ∧
      (resetGoalArea g cfg s).nextWanderer = s.nextWanderer ∧
      (resetGoalArea g cfg s)._dynamic = s._dynamic := by
  unfold resetGoalArea
  split
  · exact ⟨_, rfl, rfl, rfl, rfl, rfl, rfl⟩
  · exact ⟨[], by simp, rfl, rfl, rfl, rfl, rfl⟩

theorem resetDynamic_effect (g : OccupancyGrid) (cfg : Settings) (s : LevelStaticMap)
    (hd : s._dynamic = true) :
    ∃ (ws : List Wanderer) (t : List Event),
      (resetDynamic g cfg s)._wanderers = s._wanderers ++ ws ∧
      (resetDynamic g cfg s).trace = s.trace ++ t ∧
      newWanderersOf t = ws ∧ deletedWanderersOf t = [] ∧
      ws.length = cfg.num_dynamic_obstacles.toNat ∧
      ∀ w ∈ ws, s.nextWanderer ≤ w.ptr := by
  unfold resetDynamic
  rw [if_pos hd]
  by_cases hi : s._init_reset = true
  · simp only [hi, if_true]
    obtain ⟨ws, t, k1, k2, _, k4, k5, k6, k7⟩ := spawn_loop cfg cfg.num_dynamic_obstacles.toNat
      { s with
        _init_reset := false
        trace := s.trace ++
          [Event.dynamicClear,
           Event.dynamicAddCheeseRect (g.resolution * g.width / 2)
             (g.resolution * g.height / 2) (cfg.dynamic_obstacle_size / 2),
           Event.dynamicCalculateArea] }
    refine ⟨ws, [Event.dynamicClear,
           Event.dynamicAddCheeseRect (g.resolution * g.width / 2)
             (g.resolution * g.height / 2) (cfg.dynamic_obstacle_size / 2),
           Event.dynamicCalculateArea] ++ t, k1, ?_, ?_, ?_, k6, k7⟩
    · rw [k2, List.append_assoc]
    · simp only [newWanderersOf, List.filterMap_append, List.filterMap_cons,
        List.filterMap_nil, List.nil_append] at k4 ⊢
      exact k4
    · simp only [deletedWanderersOf, List.filterMap_append, List.filterMap_cons,
        List.filterMap_nil, List.nil_append] at k5 ⊢
      exact k5
  · simp only [hi, if_false, Bool.false_eq_true]
    obtain ⟨ws, t, k1, k2, _, k4, k5, k6, k7⟩ :=
      spawn_loop cfg cfg.num_dynamic_obstacles.toNat s
    exact ⟨ws, t, k1, k2, k4, k5, k6, k7⟩

theorem reset_front_effect (f : Bool) (s : LevelStaticMap) (hd : s._dynamic = true) :
    ∃ (u : LevelStaticMap) (t : List Event),
      u = (if f then
            { freeWanderers (lazyclear s) with
              trace := (freeWanderers (lazyclear s)).trace ++ [Event.resetRobotToCenter] }
          else freeWanderers (lazyclear s)) ∧
      u.trace = s.trace ++ t ∧ newWanderersOf t = [] ∧ deletedWanderersOf t = s._wanderers ∧
      u._wanderers = [] ∧ u.nextWanderer = s.nextWanderer ∧ u._dynamic = true := by
  obtain ⟨d, hd'⟩ := lazyclear_trace s
  have hA := deletedWanderersOf_map_destroyBody d
  have hB := newWanderersOf_map_destroyBody d
  have hC := deletedWanderersOf_map_deleteWanderer s._wanderers
  have hD := newWanderersOf_map_deleteWanderer s._wanderers
  have h2 : (lazyclear s)._wanderers = s._wanderers := rfl
  cases f
  · refine ⟨_, (d.map fun p => Event.destroyBody p.1 p.2)
        ++ s._wanderers.map Event.deleteWanderer, rfl, ?_, ?_, ?_, rfl, rfl, hd⟩
    · simp only [freeWanderers, hd', h2, Bool.false_eq_true, if_false, List.append_assoc]
    · simp only [newWanderersOf, List.filterMap_append] at hB hD ⊢
      rw [hB, hD]; rfl
    · simp only [deletedWanderersOf, List.filterMap_append] at hA hC ⊢
      rw [hA, hC]; rfl
  · refine ⟨_, (d.map fun p => Event.destroyBody p.1 p.2)
        ++ (s._wanderers.map Event.deleteWanderer ++ [Event.resetRobotToCenter]),
      rfl, ?_, ?_, ?_, rfl, rfl, hd⟩
    · simp only [freeWanderers, hd', h2, if_true, List.append_assoc]
    · simp only [newWanderersOf, List.filterMap_append, List.filterMap_cons,
        List.filterMap_nil] at hB hD ⊢
      rw [hB, hD]; rfl
    · simp only [deletedWanderersOf, List.filterMap_append, List.filterMap_cons,
        List.filterMap_nil] at hA hC ⊢
      rw [hA, hC]; simp

/-- C8. After `reset` on a level with dynamic obstacles enabled and
`num_dynamic_obstacles >= 0`: the `delete` statements executed by the call are exactly the
wanderers tracked before it, one `delete` per tracked entry; the tracked collection afterwards
is exactly the list of wanderers allocated by this call, in allocation order; it has
`num_dynamic_obstacles` entries; and each of them is a fresh allocation (its identity is not
below the allocation count at entry). -/
theorem reset_replaces_wanderers (g : OccupancyGrid) (cfg : Settings) (f : Bool)
    (s : LevelStaticMap) (hd : s._dynamic = true) (hn : 0 ≤ cfg.num_dynamic_obstacles) :
    ∃ t, (reset g cfg f s).trace = s.trace ++ t ∧
      deletedWanderersOf t = s._wanderers ∧
      newWanderersOf t = (reset g cfg f s)._wanderers ∧
      ((reset g cfg f s)._wanderers.length : Int) = cfg.num_dynamic_obstacles ∧
      ∀ w ∈ (reset g cfg f s)._wanderers, s.nextWanderer ≤ w.ptr := by
  obtain ⟨u, t1, hu, a1, a2, a3, a4, a5, a6⟩ := reset_front_effect f s hd
  obtain ⟨t2, b1, b2, b3, b4, b5, b6⟩ := resetGoalArea_effect g cfg u
  obtain ⟨ws, t3, c1, c2, c3, c4, c5, c6⟩ :=
    resetDynamic_effect g cfg (resetGoalArea g cfg u) (by rw [b6, a6])
  have hreset : reset g cfg f s =
      { resetDynamic g cfg (resetGoalArea g cfg u) with
        trace := (resetDynamic g cfg (resetGoalArea g cfg u)).trace
          ++ [Event.randomGoalSpawnUntilValid] } := by
    have h1 : (lazyclear s)._dynamic = true := hd
    rw [hu]
    simp only [reset, h1, if_true]
  have hw : (reset g cfg f s)._wanderers = ws := by
    rw [hreset]
    simp only [c1, b4, a4, List.nil_append]
  rw [hw]
  refine ⟨t1 ++ t2 ++ t3 ++ [Event.randomGoalSpawnUntilValid], ?_, ?_, ?_, ?_, ?_⟩
  · rw [hreset]
    simp only [c2, b1, a1, List.append_assoc]
  · simp only [deletedWanderersOf, List.filterMap_append, List.filterMap_cons,
      List.filterMap_nil] at a3 b3 c4 ⊢
    rw [a3, b3, c4]; simp
  · simp only [newWanderersOf, List.filterMap_append, List.filterMap_cons,
      List.filterMap_nil] at a2 b2 c3 ⊢
    rw [a2, b2, c3]; simp
  · rw [c5]; exact Int.toNat_of_nonneg hn
  · intro w hw'
    have := c6 w hw'
    rw [b5, a5] at this
    exact this

/-- Witness for C8: a reset of a level that tracks two wanderers, with two obstacles
requested. -/
theorem reset_replaces_wanderers_witness :
    trackedLevel._dynamic = true ∧ 0 ≤ exampleSettings.num_dynamic_obstacles ∧
    ∃ t, (reset centreGrid exampleSettings true trackedLevel).trace = trackedLevel.trace ++ t ∧
      deletedWanderersOf t = trackedLevel._wanderers ∧
      newWanderersOf t = (reset centreGrid exampleSettings true trackedLevel)._wanderers ∧
      ((reset centreGrid exampleSettings true trackedLevel)._wanderers.length : Int) =
        exampleSettings.num_dynamic_obstacles ∧
      ∀ w ∈ (reset centreGrid exampleSettings true trackedLevel)._wanderers,
        trackedLevel.nextWanderer ≤ w.ptr :=
  ⟨rfl, by decide,
    reset_replaces_wanderers centreGrid exampleSettings true trackedLevel rfl (by decide)⟩

/-! ## The seam scan -/

theorem edgeExists_lt (diff : List Nat) (j : Nat) (h : maskBit diff j = true) :
    j < diff.length := by
  unfold maskBit at h
  by_contra hj
  rw [if_neg hj] at h
  exact Bool.false_ne_true h

theorem covers_append_singleton (runs : List (Nat × Nat)) (a b c : Nat) :
    covers (runs ++ [(a, b)]) c ↔ covers runs c ∨ (a ≤ c ∧ c < b) := by
  unfold covers
  constructor
  · rintro ⟨r, hr, h1, h2⟩
    rw [List.mem_append, List.mem_singleton] at hr
    rcases hr with hr | hr
    · exact Or.inl ⟨r, hr, h1, h2⟩
    · subst hr; exact Or.inr ⟨h1, h2⟩
  · rintro (⟨r, hr, h1, h2⟩ | ⟨h1, h2⟩)
    · exact ⟨r, List.mem_append_left _ hr, h1, h2⟩
    · exact ⟨(a, b), List.mem_append_right _ (List.mem_singleton_self _), h1, h2⟩

theorem scanInv_step (diff : List Nat) (j : Nat) (st : Scan) (h : ScanInv diff j st) :
    ScanInv diff (j + 1) (scanStepValue diff st j) := by
  obtain ⟨h1, h2, h3⟩ := h
  have hnc : ¬ covers st.runs j := by
    rintro ⟨r, hr, _, hr2⟩
    have := (h1 r hr).2
    omega
  unfold scanStepValue
  cases he : maskBit diff j <;> cases hs : st.started
  · -- no edge, not started: nothing changes
    simp only [Bool.false_and, Bool.and_false, Bool.not_false, Bool.not_true, if_false,
      Bool.false_eq_true]
    refine ⟨fun r hr => ⟨(h1 r hr).1, by have := (h1 r hr).2; omega⟩, ?_, ?_⟩
    · intro hst; rw [hs] at hst; exact absurd hst Bool.false_ne_true
    · intro c hc
      rcases Nat.lt_succ_iff_lt_or_eq.1 hc with hc | hc
      · exact h3 c hc
      · subst hc
        rw [he, hs]
        simp [hnc]
  · -- no edge, started: the run is closed at `j`
    simp only [Bool.false_and, Bool.not_false, Bool.and_true, Bool.not_true, if_false,
      if_true, Bool.false_eq_true]
    obtain ⟨k1, k2, k3⟩ := h2 hs
    refine ⟨?_, ?_, ?_⟩
    · intro r hr
      rw [List.mem_append, List.mem_singleton] at hr
      rcases hr with hr | hr
      · exact ⟨(h1 r hr).1, by have := (h1 r hr).2; omega⟩
      · subst hr; exact ⟨k1, Nat.lt_succ_self j⟩
    · intro hst; exact absurd hst Bool.false_ne_true
    · intro c hc
      rw [covers_append_singleton]
      rcases Nat.lt_succ_iff_lt_or_eq.1 hc with hc | hc
      · rw [h3 c hc, hs]
        simp only [true_and, Bool.false_eq_true, false_and, or_false]
        constructor
        · rintro (h | h)
          · exact Or.inl h
          · exact Or.inr ⟨h, hc⟩
        · rintro (h | h)
          · exact Or.inl h
          · exact Or.inr h.1
      · subst hc
        rw [he]
        simp [hnc]
  · -- edge, not started: a run starts at `j`
    simp only [Bool.true_and, Bool.not_false, if_true]
    have hj := edgeExists_lt diff j he
    refine ⟨fun r hr => ⟨(h1 r hr).1, by have := (h1 r hr).2; omega⟩, ?_, ?_⟩
    · intro _
      refine ⟨Nat.lt_succ_self j, hj, ?_⟩
      intro c hc1 hc2
      have hc1' : j ≤ c := hc1
      have : c = j := by omega
      subst this; exact he
    · intro c hc
      rcases Nat.lt_succ_iff_lt_or_eq.1 hc with hc | hc
      · rw [h3 c hc, hs]
        simp only [Bool.false_eq_true, false_and, or_false, true_and]
        constructor
        · exact fun h => Or.inl h
        · rintro (h | h)
          · exact h
          · exact absurd (show j ≤ c from h) (by omega)
      · subst hc
        rw [he]
        simp
  · -- edge, started: the run goes on
    simp only [Bool.true_and, Bool.not_true, Bool.and_false, if_false, Bool.false_eq_true]
    have hj := edgeExists_lt diff j he
    obtain ⟨k1, k2, k3⟩ := h2 hs
    refine ⟨fun r hr => ⟨(h1 r hr).1, by have := (h1 r hr).2; omega⟩, ?_, ?_⟩
    · intro _
      refine ⟨by omega, hj, ?_⟩
      intro c hc1 hc2
      rcases Nat.lt_succ_iff_lt_or_eq.1 hc2 with hc | hc
      · exact k3 c hc1 hc
      · subst hc; exact he
    · intro c hc
      rcases Nat.lt_succ_iff_lt_or_eq.1 hc with hc | hc
      · exact h3 c hc
      · subst hc
        rw [he, hs]
        simp only [true_and, true_iff]
        exact Or.inr (Nat.le_of_lt k1)

theorem scanInv_fold (diff : List Nat) (k : Nat) :
    ScanInv diff k ((List.range k).foldl (scanStepValue diff) ⟨0, false, []⟩) := by
  induction k with
  | zero =>
    refine ⟨by simp, ?_, ?_⟩
    · intro h; exact absurd h Bool.false_ne_true
    · intro c hc; omega
  | succ k ih =>
    rw [List.range_succ, List.foldl_append]
    exact scanInv_step diff k _ ih

theorem scanRuns_spec (diff : List Nat) :
    (∀ r ∈ scanRuns diff, r.1 < r.2 ∧ r.2 ≤ diff.length) ∧
    ∀ c, maskBit diff c = true ↔ covers (scanRuns diff) c := by
  rw [scanRuns_eq]
  obtain ⟨h1, h2, h3⟩ := scanInv_fold diff (diff.length + 1)
  have hns : ((List.range (diff.length + 1)).foldl (scanStepValue diff) ⟨0, false, []⟩).started
      = false := by
    cases hs : ((List.range (diff.length + 1)).foldl (scanStepValue diff) ⟨0, false, []⟩).started
    · rfl
    · have := (h2 hs).2.1; omega
  refine ⟨fun r hr => ⟨(h1 r hr).1, by have := (h1 r hr).2; omega⟩, ?_⟩
  intro c
  by_cases hc : c < diff.length + 1
  · rw [h3 c hc, hns]
    simp [scanRuns]
  · constructor
    · intro h; have := edgeExists_lt diff c h; omega
    · rintro ⟨r, hr, _, hr2⟩
      have := (h1 r hr).2
      omega

/-! ## Rasterising the edges -/

theorem coord_le (a r : ℚ) (hr : 0 < r) (m n : Nat) :
    a + r * (m : ℚ) ≤ a + r * (n : ℚ) ↔ m ≤ n := by
  rw [add_le_add_iff_left, mul_le_mul_left hr, Nat.cast_le]

theorem coord_lt (a r : ℚ) (hr : 0 < r) (m n : Nat) :
    a + r * (m : ℚ) < a + r * (n : ℚ) ↔ m < n := by
  rw [add_lt_add_iff_left, mul_lt_mul_left hr, Nat.cast_lt]

theorem coord_eq (a r : ℚ) (hr : 0 < r) (m n : Nat) :
    a + r * (m : ℚ) = a + r * (n : ℚ) ↔ m = n := by
  rw [add_right_inj, mul_right_inj' (ne_of_gt hr), Nat.cast_inj]

theorem edgesOf_map_addEdge (g : OccupancyGrid) (b : Nat)
    (l : List (Nat × Nat × Nat × Nat)) :
    edgesOf (l.map (add_edge g b)) = l.map (edgeOfCall g b) := by
  induction l with
  | nil => rfl
  | cons c l ih =>
    simp only [edgesOf, List.map_cons, List.filterMap_cons, add_edge] at ih ⊢
    rw [ih]
    rfl

theorem emittedEdges_eq (g : OccupancyGrid) (h : g.WellFormed) :
    emittedEdges g = some
      ((rowEdgeCalls (staticMapOf g)).map (edgeOfCall g 0)
        ++ (colEdgeCalls (staticMapOf g)).map (edgeOfCall g 0)) := by
  rw [emittedEdges, loadApproximate_eq g h]
  simp only [Option.map_some', initial, List.nil_append]
  have h1 := edgesOf_map_addEdge g 0 (rowEdgeCalls (staticMapOf g))
  have h2 := edgesOf_map_addEdge g 0 (colEdgeCalls (staticMapOf g))
  simp only [edgesOf, List.filterMap_append, List.filterMap_cons, List.filterMap_nil,
    List.nil_append] at h1 h2 ⊢
  rw [h1, h2]

theorem staticMapOf_at (g : OccupancyGrid) (i j : Nat) (hi : i < g.height)
    (hj : j < g.width) :
    (staticMapOf g).at i j = if isWall g i j then 255 else 0 := by
  simp [Mat.at, staticMapOf, List.getD_eq_getElem?_getD, List.getElem?_map,
    List.getElem?_range, hi, hj]

theorem absdiff_class (a b : Bool) :
    (absdiff (if a then 255 else 0) (if b then 255 else 0) != 0) = xor a b := by
  cases a <;> cases b <;> decide

theorem edgeExists_rowDiff (g : OccupancyGrid) (k c : Nat) (hk : k + 1 < g.height)
    (hc : c < g.width) :
    maskBit (rowDiff (staticMapOf g) k) c = xor (isWall g k c) (isWall g (k + 1) c) := by
  have hlen : (rowDiff (staticMapOf g) k).length = g.width := by simp [rowDiff, staticMapOf]
  unfold maskBit
  rw [hlen, if_pos hc]
  have hget : (rowDiff (staticMapOf g) k).getD c 0 =
      absdiff ((staticMapOf g).at k c) ((staticMapOf g).at (k + 1) c) := by
    have hc' : c < (staticMapOf g).cols := hc
    simp [rowDiff, List.getD_eq_getElem?_getD, List.getElem?_map, List.getElem?_range, hc']
  rw [hget, staticMapOf_at g k c (by omega) hc, staticMapOf_at g (k + 1) c hk hc]
  exact absdiff_class _ _

theorem edgeExists_colDiff (g : OccupancyGrid) (k c : Nat) (hk : k + 1 < g.width)
    (hc : c < g.height) :
    maskBit (colDiff (staticMapOf g) k) c = xor (isWall g c k) (isWall g c (k + 1)) := by
  have hlen : (colDiff (staticMapOf g) k).length = g.height := by simp [colDiff, staticMapOf]
  unfold maskBit
  rw [hlen, if_pos hc]
  have hget : (colDiff (staticMapOf g) k).getD c 0 =
      absdiff ((staticMapOf g).at c k) ((staticMapOf g).at c (k + 1)) := by
    have hc' : c < (staticMapOf g).rows := hc
    simp [colDiff, List.getD_eq_getElem?_getD, List.getElem?_map, List.getElem?_range, hc']
  rw [hget, staticMapOf_at g c k hc (by omega), staticMapOf_at g c (k + 1) hc hk]
  exact absdiff_class _ _

theorem mem_rowEdgeCalls (m : Mat) (x : Nat × Nat × Nat × Nat) :
    x ∈ rowEdgeCalls m ↔
      ∃ i, i < m.rows - 1 ∧ ∃ r ∈ scanRuns (rowDiff m i), x = (r.1, i, r.2, i) := by
  simp only [rowEdgeCalls_flatMap, List.mem_flatMap, List.mem_range, List.mem_map]
  constructor
  · rintro ⟨i, hi, r, hr, rfl⟩; exact ⟨i, hi, r, hr, rfl⟩
  · rintro ⟨i, hi, r, hr, rfl⟩; exact ⟨i, hi, r, hr, rfl⟩

theorem mem_colEdgeCalls (m : Mat) (x : Nat × Nat × Nat × Nat) :
    x ∈ colEdgeCalls m ↔
      ∃ i, i < m.cols - 1 ∧ ∃ r ∈ scanRuns (colDiff m i), x = (i, r.1, i, r.2) := by
  simp only [colEdgeCalls_flatMap, List.mem_flatMap, List.mem_range, List.mem_map]
  constructor
  · rintro ⟨i, hi, r, hr, rfl⟩; exact ⟨i, hi, r, hr, rfl⟩
  · rintro ⟨i, hi, r, hr, rfl⟩; exact ⟨i, hi, r, hr, rfl⟩

theorem crossesRowSeam_emitted (g : OccupancyGrid) (hr : 0 < g.resolution) (k c : Nat)
    (hk : k < g.height - 1) :
    crossesRowSeam g.width g.height g.resolution
        ((rowEdgeCalls (staticMapOf g)).map (edgeOfCall g 0)
          ++ (colEdgeCalls (staticMapOf g)).map (edgeOfCall g 0)) k c
      = maskBit (rowDiff (staticMapOf g) k) c := by
  rw [Bool.eq_iff_iff, (scanRuns_spec (rowDiff (staticMapOf g) k)).2 c]
  unfold crossesRowSeam
  rw [List.any_eq_true]
  simp only [Bool.and_eq_true, decide_eq_true_eq, List.mem_append, List.mem_map]
  constructor
  · rintro ⟨e, he, ⟨⟨hy1, hy2⟩, hx1⟩, hx2⟩
    rcases he with ⟨x, hx, rfl⟩ | ⟨x, hx, rfl⟩
    · obtain ⟨i, _, r, hrun, rfl⟩ := (mem_rowEdgeCalls _ x).1 hx
      simp only [edgeOfCall, lower_left_pos] at hy1 hx1 hx2
      have hik : i = k := (coord_eq _ _ hr i k).1 hy1
      subst hik
      exact ⟨r, hrun, (coord_le _ _ hr _ _).1 hx1, (coord_lt _ _ hr _ _).1 hx2⟩
    · obtain ⟨i, _, r, hrun, rfl⟩ := (mem_colEdgeCalls _ x).1 hx
      simp only [edgeOfCall, lower_left_pos] at hy1 hy2
      have e1 : r.1 = k := (coord_eq _ _ hr _ _).1 hy1
      have e2 : r.2 = k := (coord_eq _ _ hr _ _).1 hy2
      have := ((scanRuns_spec (colDiff (staticMapOf g) i)).1 r hrun).1
      omega
  · rintro ⟨r, hrun, h1, h2⟩
    refine ⟨edgeOfCall g 0 (r.1, k, r.2, k),
      Or.inl ⟨_, (mem_rowEdgeCalls _ _).2 ⟨k, hk, r, hrun, rfl⟩, rfl⟩, ?_⟩
    exact ⟨⟨⟨rfl, rfl⟩, (coord_le _ _ hr _ _).2 h1⟩, (coord_lt _ _ hr _ _).2 h2⟩

theorem crossesColSeam_emitted (g : OccupancyGrid) (hr : 0 < g.resolution) (k c : Nat)
    (hk : k < g.width - 1) :
    crossesColSeam g.width g.height g.resolution
        ((rowEdgeCalls (staticMapOf g)).map (edgeOfCall g 0)
          ++ (colEdgeCalls (staticMapOf g)).map (edgeOfCall g 0)) k c
      = maskBit (colDiff (staticMapOf g) k) c := by
  rw [Bool.eq_iff_iff, (scanRuns_spec (colDiff (staticMapOf g) k)).2 c]
  unfold crossesColSeam
  rw [List.any_eq_true]
  simp only [Bool.and_eq_true, decide_eq_true_eq, List.mem_append, List.mem_map]
  constructor
  · rintro ⟨e, he, ⟨⟨hx1, hx2⟩, hy1⟩, hy2⟩
    rcases he with ⟨x, hx, rfl⟩ | ⟨x, hx, rfl⟩
    · obtain ⟨i, _, r, hrun, rfl⟩ := (mem_rowEdgeCalls _ x).1 hx
      simp only [edgeOfCall, lower_left_pos] at hx1 hx2
      have e1 : r.1 = k := (coord_eq _ _ hr _ _).1 hx1
      have e2 : r.2 = k := (coord_eq _ _ hr _ _).1 hx2
      have := ((scanRuns_spec (rowDiff (staticMapOf g) i)).1 r hrun).1
      omega
    · obtain ⟨i, _, r, hrun, rfl⟩ := (mem_colEdgeCalls _ x).1 hx
      simp only [edgeOfCall, lower_left_pos] at hx1 hy1 hy2
      have hik : i = k := (coord_eq _ _ hr i k).1 hx1
      subst hik
      exact ⟨r, hrun, (coord_le _ _ hr _ _).1 hy1, (coord_lt _ _ hr _ _).1 hy2⟩
  · rintro ⟨r, hrun, h1, h2⟩
    refine ⟨edgeOfCall g 0 (k, r.1, k, r.2),
      Or.inr ⟨_, (mem_colEdgeCalls _ _).2 ⟨k, hk, r, hrun, rfl⟩, rfl⟩, ?_⟩
    exact ⟨⟨⟨rfl, rfl⟩, (coord_le _ _ hr _ _).2 h1⟩, (coord_lt _ _ hr _ _).2 h2⟩

theorem xorAll_append_singleton (l : List Bool) (b : Bool) :
    xorAll (l ++ [b]) = xor (xorAll l) b := by
  simp [xorAll, List.foldl_append]

theorem xorAll_telescope (w : Nat → Bool) (f : Nat → Bool) (n : Nat)
    (h : ∀ k, k < n → f k = xor (w k) (w (k + 1))) :
    xorAll ((List.range n).map f) = xor (w 0) (w n) := by
  induction n with
  | zero => simp [xorAll]
  | succ n ih =>
    rw [List.range_succ, List.map_append, List.map_singleton, xorAll_append_singleton,
      ih (fun k hk => h k (Nat.lt_succ_of_lt hk)), h n (Nat.lt_succ_self n)]
    cases w 0 <;> cases w n <;> cases w (n + 1) <;> rfl

theorem rasterise_emitted (g : OccupancyGrid) (hr : 0 < g.resolution) (i j : Nat)
    (hi : i < g.height) (hj : j < g.width) (seed : Bool) :
    rasterise g.width g.height g.resolution
        ((rowEdgeCalls (staticMapOf g)).map (edgeOfCall g 0)
          ++ (colEdgeCalls (staticMapOf g)).map (edgeOfCall g 0)) seed i j
      = xor seed (xor (isWall g 0 0) (isWall g i j)) := by
  unfold rasterise
  rw [xorAll_telescope (fun k => isWall g k 0) _ i, xorAll_telescope (fun k => isWall g i k) _ j]
  · cases seed <;> cases isWall g 0 0 <;> cases isWall g i 0 <;> cases isWall g i j <;> rfl
  · intro k hk
    rw [crossesColSeam_emitted g hr k i (by omega), edgeExists_colDiff g k i (by omega) hi]
  · intro k hk
    rw [crossesRowSeam_emitted g hr k 0 (by omega), edgeExists_rowDiff g k 0 (by omega)
      (by omega)]

theorem emittedCalls_eq (g : OccupancyGrid) (h : g.WellFormed) :
    emittedCalls g
      = some (rowEdgeCalls (staticMapOf g) ++ colEdgeCalls (staticMapOf g)) := by
  unfold emittedCalls loadStaticMapTraced
  simp only [Bool.not_true, Bool.false_eq_true, if_false]
  rw [loadApproximateTraced_eq g h]
  simp [Probe.addCalls, Probe.addMask, Probe.addData, noProbe]

theorem callCrossesRowSeam_emitted (m : Mat) (k c : Nat) (hk : k < m.rows - 1) :
    callCrossesRowSeam (rowEdgeCalls m ++ colEdgeCalls m) k c = maskBit (rowDiff m k) c := by
  rw [Bool.eq_iff_iff, (scanRuns_spec (rowDiff m k)).2 c]
  unfold callCrossesRowSeam
  rw [List.any_eq_true]
  simp only [Bool.and_eq_true, decide_eq_true_eq, List.mem_append]
  constructor
  · rintro ⟨q, hq, ⟨⟨hy1, hy2⟩, hx1⟩, hx2⟩
    rcases hq with hq | hq
    · obtain ⟨i, _, r, hrun, rfl⟩ := (mem_rowEdgeCalls _ q).1 hq
      have hik : i = k := hy1
      subst hik
      exact ⟨r, hrun, hx1, hx2⟩
    · obtain ⟨i, _, r, hrun, rfl⟩ := (mem_colEdgeCalls _ q).1 hq
      have e1 : r.1 = k := hy1
      have e2 : r.2 = k := hy2
      have := ((scanRuns_spec (colDiff m i)).1 r hrun).1
      omega
  · rintro ⟨r, hrun, h1, h2⟩
    exact ⟨(r.1, k, r.2, k), Or.inl ((mem_rowEdgeCalls _ _).2 ⟨k, hk, r, hrun, rfl⟩),
      ⟨⟨⟨rfl, rfl⟩, h1⟩, h2⟩⟩

theorem callCrossesColSeam_emitted (m : Mat) (k c : Nat) (hk : k < m.cols - 1) :
    callCrossesColSeam (rowEdgeCalls m ++ colEdgeCalls m) k c = maskBit (colDiff m k) c := by
  rw [Bool.eq_iff_iff, (scanRuns_spec (colDiff m k)).2 c]
  unfold callCrossesColSeam
  rw [List.any_eq_true]
  simp only [Bool.and_eq_true, decide_eq_true_eq, List.mem_append]
  constructor
  · rintro ⟨q, hq, ⟨⟨hx1, hx2⟩, hy1⟩, hy2⟩
    rcases hq with hq | hq
    · obtain ⟨i, _, r, hrun, rfl⟩ := (mem_rowEdgeCalls _ q).1 hq
      have e1 : r.1 = k := hx1
      have e2 : r.2 = k := hx2
      have := ((scanRuns_spec (rowDiff m i)).1 r hrun).1
      omega
    · obtain ⟨i, _, r, hrun, rfl⟩ := (mem_colEdgeCalls _ q).1 hq
      have hik : i = k := hx1
      subst hik
      exact ⟨r, hrun, hy1, hy2⟩
  · rintro ⟨r, hrun, h1, h2⟩
    exact ⟨(k, r.1, k, r.2), Or.inr ((mem_colEdgeCalls _ _).2 ⟨k, hk, r, hrun, rfl⟩),
      ⟨⟨⟨rfl, rfl⟩, h1⟩, h2⟩⟩

theorem rasteriseCalls_emitted (g : OccupancyGrid) (i j : Nat)
    (hi : i < g.height) (hj : j < g.width) (seed : Bool) :
    rasteriseCalls (rowEdgeCalls (staticMapOf g) ++ colEdgeCalls (staticMapOf g)) seed i j
      = xor seed (xor (isWall g 0 0) (isWall g i j)) := by
  unfold rasteriseCalls
  rw [xorAll_telescope (fun k => isWall g k 0) _ i, xorAll_telescope (fun k => isWall g i k) _ j]
  · cases seed <;> cases isWall g 0 0 <;> cases isWall g i 0 <;> cases isWall g i j <;> rfl
  · intro k hk
    have hk1 : k < (staticMapOf g).cols - 1 := by
      show k < g.width - 1
      omega
    rw [callCrossesColSeam_emitted (staticMapOf g) k i hk1,
      edgeExists_colDiff g k i (by omega) hi]
  · intro k hk
    have hk1 : k < (staticMapOf g).rows - 1 := by
      show k < g.height - 1
      omega
    rw [callCrossesRowSeam_emitted (staticMapOf g) k 0 hk1,
      edgeExists_rowDiff g k 0 (by omega) (by omega)]

theorem classes_equal_or_swapped (g g' : OccupancyGrid)
    (key : ∀ i j, i < g.height → j < g.width →
      xor (isWall g' 0 0) (isWall g' i j) = xor (isWall g 0 0) (isWall g i j)) :
    (∀ i j, i < g.height → j < g.width → isWall g' i j = isWall g i j) ∨
    (∀ i j, i < g.height → j < g.width → isWall g' i j = !isWall g i j) := by
  cases h0 : isWall g 0 0 <;> cases h0' : isWall g' 0 0
  · left; intro i j hi hj
    have := key i j hi hj; rw [h0, h0'] at this; simpa using this
  · right; intro i j hi hj
    have := key i j hi hj; rw [h0, h0'] at this
    revert this; cases isWall g' i j <;> cases isWall g i j <;> simp
  · right; intro i j hi hj
    have := key i j hi hj; rw [h0, h0'] at this
    revert this; cases isWall g' i j <;> cases isWall g i j <;> simp
  · left; intro i j hi hj
    have := key i j hi hj; rw [h0, h0'] at this
    revert this; cases isWall g' i j <;> cases isWall g i j <;> simp

/-! ## Edges and classification -/

/-- C3 (counterexample). The 1x1 grid with a free cell and the 1x1 grid with an occupied cell
have the same dimensions and resolution and both emit the empty edge list, yet their cell has
different classes; hence no function of `W`, `H`, `r` and the emitted edges returns the class
of every cell of every grid. -/
theorem edges_do_not_determine_class :
    emittedEdges freeCell = some [] ∧ emittedEdges wallCell = some [] ∧
    isWall freeCell 0 0 = false ∧ isWall wallCell 0 0 = true ∧
    ¬ ∃ raster : Nat → Nat → ℚ → List (Nat × Vec2 × Vec2) → Nat → Nat → Bool,
      ∀ g : OccupancyGrid, g.WellFormed → 0 < g.resolution →
        ∀ es, emittedEdges g = some es →
          ∀ i j, i < g.height → j < g.width →
            raster g.width g.height g.resolution es i j = isWall g i j := by
  have h1 : emittedEdges freeCell = some [] := by decide
  have h2 : emittedEdges wallCell = some [] := by decide
  refine ⟨h1, h2, by decide, by decide, ?_⟩
  rintro ⟨raster, hraster⟩
  have a := hraster freeCell (by decide) (by norm_num [freeCell]) [] h1 0 0 (by decide)
    (by decide)
  have b := hraster wallCell (by decide) (by norm_num [wallCell]) [] h2 0 0 (by decide)
    (by decide)
  have e1 : isWall freeCell 0 0 = false := by decide
  have e2 : isWall wallCell 0 0 = true := by decide
  rw [e1] at a
  rw [e2] at b
  have : raster 1 1 1 [] 0 0 = false := a
  rw [show raster wallCell.width wallCell.height wallCell.resolution [] 0 0
    = raster 1 1 1 [] 0 0 from rfl, this] at b
  exact Bool.false_ne_true b

/-- C3 (amended). On a well-formed grid approximate mode returns, and the `add_edge` calls
it makes (integer arguments `x1, y1, x2, y2`) determine the class of every cell once the class
of cell `(0, 0)` is given: `rasteriseCalls`, applied to the calls and the class of cell
`(0, 0)`, returns the class of every cell. Hence two well-formed grids of the same dimensions
that make the same calls have classifications that are equal everywhere or complementary
everywhere. The emitted edges are the calls mapped to world coordinates; over exact rational
arithmetic, with the end points `lower_left_pos + r * (x, y)` unrounded and `r > 0`, the same
two statements hold of the emitted edges, given `W`, `H` and `r` (`rasterise`). -/
theorem edges_determine_class_up_to_complement (g g' : OccupancyGrid)
    (h : g.WellFormed) (h' : g'.WellFormed)
    (hw : g'.width = g.width) (hh : g'.height = g.height) :
    (∃ cs, emittedCalls g = some cs ∧
      ∀ i j, i < g.height → j < g.width →
        rasteriseCalls cs (isWall g 0 0) i j = isWall g i j) ∧
    (emittedCalls g' = emittedCalls g →
      (∀ i j, i < g.height → j < g.width → isWall g' i j = isWall g i j) ∨
      (∀ i j, i < g.height → j < g.width → isWall g' i j = !isWall g i j)) ∧
    (∃ cs, emittedCalls g = some cs ∧ emittedEdges g = some (cs.map (edgeOfCall g 0))) ∧
    (0 < g.resolution →
      ∃ es, emittedEdges g = some es ∧
        ∀ i j, i < g.height → j < g.width →
          rasterise g.width g.height g.resolution es (isWall g 0 0) i j = isWall g i j) ∧
    (0 < g.resolution → g'.resolution = g.resolution → emittedEdges g' = emittedEdges g →
      (∀ i j, i < g.height → j < g.width → isWall g' i j = isWall g i j) ∨
      (∀ i j, i < g.height → j < g.width → isWall g' i j = !isWall g i j)) := by
  refine ⟨⟨_, emittedCalls_eq g h, ?_⟩, ?_, ⟨_, emittedCalls_eq g h, ?_⟩, ?_, ?_⟩
  · intro i j hi hj
    rw [rasteriseCalls_emitted g i j hi hj]
    cases isWall g 0 0 <;> cases isWall g i j <;> rfl
  · intro heq
    rw [emittedCalls_eq g h, emittedCalls_eq g' h', Option.some.injEq] at heq
    apply classes_equal_or_swapped
    intro i j hi hj
    have a := rasteriseCalls_emitted g i j hi hj false
    have b := rasteriseCalls_emitted g' i j (by omega) (by omega) false
    rw [heq, a] at b
    simpa using b.symm
  · rw [emittedEdges_eq g h, List.map_append]
  · intro hr
    refine ⟨_, emittedEdges_eq g h, ?_⟩
    intro i j hi hj
    rw [rasterise_emitted g hr i j hi hj]
    cases isWall g 0 0 <;> cases isWall g i j <;> rfl
  · intro hr hres heq
    rw [emittedEdges_eq g h, emittedEdges_eq g' h', Option.some.injEq] at heq
    have hr' : 0 < g'.resolution := by rw [hres]; exact hr
    apply classes_equal_or_swapped
    intro i j hi hj
    have a := rasterise_emitted g hr i j hi hj false
    have b := rasterise_emitted g' hr' i j (by omega) (by omega) false
    rw [heq, hw, hh, hres, a] at b
    simpa using b.symm

/-- Witness for C3 (amended): the 3x3 grid with the centre occupied and its class-swapped
grid make the same `add_edge` calls and emit the same edges, and their classifications are
complementary. -/
theorem edges_determine_class_up_to_complement_witness :
    centreGrid.WellFormed ∧ ringGrid.WellFormed ∧
    ringGrid.width = centreGrid.width ∧ ringGrid.height = centreGrid.height ∧
    0 < centreGrid.resolution ∧ ringGrid.resolution = centreGrid.resolution ∧
    emittedCalls ringGrid = emittedCalls centreGrid ∧
    emittedEdges ringGrid = emittedEdges centreGrid ∧
    (∃ cs, emittedCalls centreGrid = some cs ∧
      ∀ i j, i < centreGrid.height → j < centreGrid.width →
        rasteriseCalls cs (isWall centreGrid 0 0) i j = isWall centreGrid i j) ∧
    (∃ cs, emittedCalls centreGrid = some cs ∧
      emittedEdges centreGrid = some (cs.map (edgeOfCall centreGrid 0))) ∧
    (∃ es, emittedEdges centreGrid = some es ∧
      ∀ i j, i < centreGrid.height → j < centreGrid.width →
        rasterise centreGrid.width centreGrid.height centreGrid.resolution es
          (isWall centreGrid 0 0) i j = isWall centreGrid i j) ∧
    ((∀ i j, i < centreGrid.height → j < centreGrid.width →
        isWall ringGrid i j = isWall centreGrid i j) ∨
      (∀ i j, i < centreGrid.height → j < centreGrid.width →
        isWall ringGrid i j = !isWall centreGrid i j)) ∧
    ((∀ i j, i < centreGrid.height → j < centreGrid.width →
        isWall ringGrid i j = isWall centreGrid i j) ∨
      (∀ i j, i < centreGrid.height → j < centreGrid.width →
        isWall ringGrid i j = !isWall centreGrid i j)) := by
  have hcalls : rowEdgeCalls (staticMapOf ringGrid) = rowEdgeCalls (staticMapOf centreGrid) ∧
      colEdgeCalls (staticMapOf ringGrid) = colEdgeCalls (staticMapOf centreGrid) := by
    decide
  have hc : emittedCalls ringGrid = emittedCalls centreGrid := by
    rw [emittedCalls_eq ringGrid (by decide), emittedCalls_eq centreGrid (by decide),
      hcalls.1, hcalls.2]
  have heq : emittedEdges ringGrid = emittedEdges centreGrid := by
    rw [emittedEdges_eq ringGrid (by decide), emittedEdges_eq centreGrid (by decide),
      hcalls.1, hcalls.2]
    rfl
  have hr : 0 < centreGrid.resolution := by norm_num [centreGrid]
  have h := edges_determine_class_up_to_complement centreGrid ringGrid (by decide)
    (by decide) rfl rfl
  exact ⟨by decide, by decide, rfl, rfl, hr, rfl, hc, heq, h.1, h.2.2.1, h.2.2.2.1 hr,
    h.2.1 hc, h.2.2.2.2 hr rfl heq⟩

/-! ## `reset` with dynamic obstacles: the spawn areas are computed once -/

theorem spawn_loop_events (cfg : Settings) (n : Nat) (s : LevelStaticMap) :
    ∃ t : List Event,
      ((List.range n).foldl (fun u _ => spawnWanderer cfg u) s).trace = s.trace ++ t ∧
      ((List.range n).foldl (fun u _ => spawnWanderer cfg u) s)._dynamic = s._dynamic ∧
      ((List.range n).foldl (fun u _ => spawnWanderer cfg u) s)._init_reset = s._init_reset ∧
      t.count Event.goalCalculateArea = 0 ∧ t.count Event.dynamicCalculateArea = 0 := by
  induction n with
  | zero => exact ⟨[], by simp, rfl, rfl, rfl, rfl⟩
  | succ n ih =>
    obtain ⟨t, h1, h2, h3, h4, h5⟩ := ih
    rw [List.range_succ, List.foldl_append]
    simp only [List.foldl_cons, List.foldl_nil]
    generalize (List.range n).foldl (fun u _ => spawnWanderer cfg u) s = u at h1 h2 h3
    refine ⟨t ++ [Event.getRandomPoint (cfg.randomPoint u.draws),
        Event.newWanderer ⟨u.nextWanderer, cfg.randomPoint u.draws, cfg.obstacle_speed, 1 / 10,
        1 / 20, cfg.dynamic_obstacle_size / 2⟩], ?_, ?_, ?_, ?_, ?_⟩
    · simp only [spawnWanderer, h1, List.append_assoc]
    · simp only [spawnWanderer, h2]
    · simp only [spawnWanderer, h3]
    · simp [List.count_append, h4, List.count_cons]
    · simp [List.count_append, h5, List.count_cons]

theorem resetDynamic_counts (g : OccupancyGrid) (cfg : Settings) (s : LevelStaticMap)
    (hd : s._dynamic = true) :
    (resetDynamic g cfg s)._dynamic = true ∧ (resetDynamic g cfg s)._init_reset = false ∧
    goalAreaComputations (resetDynamic g cfg s).trace = goalAreaComputations s.trace ∧
    dynamicAreaComputations (resetDynamic g cfg s).trace =
      dynamicAreaComputations s.trace + (if s._init_reset then 1 else 0) := by
  unfold resetDynamic
  rw [if_pos hd]
  by_cases hi : s._init_reset = true
  · simp only [hi, if_true]
    obtain ⟨t, k1, k2, k3, k4, k5⟩ := spawn_loop_events cfg cfg.num_dynamic_obstacles.toNat
      { s with
        _init_reset := false
        trace := s.trace ++
          [Event.dynamicClear,
           Event.dynamicAddCheeseRect (g.resolution * g.width / 2)
             (g.resolution * g.height / 2) (cfg.dynamic_obstacle_size / 2),
           Event.dynamicCalculateArea] }
    refine ⟨k2.trans hd, k3, ?_, ?_⟩
    · rw [k1]; simp [goalAreaComputations, List.count_append, k4, List.count_cons]
    · rw [k1]; simp [dynamicAreaComputations, List.count_append, k5, List.count_cons]
  · have hi' : s._init_reset = false := by simpa using hi
    simp only [hi', if_false, Bool.false_eq_true]
    obtain ⟨t, k1, k2, k3, k4, k5⟩ :=
      spawn_loop_events cfg cfg.num_dynamic_obstacles.toNat s
    refine ⟨k2.trans hd, k3.trans hi', ?_, ?_⟩
    · rw [k1]; simp [goalAreaComputations, List.count_append, k4]
    · rw [k1]; simp [dynamicAreaComputations, List.count_append, k5]

theorem resetGoalArea_counts (g : OccupancyGrid) (cfg : Settings) (s : LevelStaticMap) :
    (resetGoalArea g cfg s)._dynamic = s._dynamic ∧
    (resetGoalArea g cfg s)._init_reset = s._init_reset ∧
    goalAreaComputations (resetGoalArea g cfg s).trace =
      goalAreaComputations s.trace + (if s._init_reset then 1 else 0) ∧
    dynamicAreaComputations (resetGoalArea g cfg s).trace =
      dynamicAreaComputations s.trace := by
  unfold resetGoalArea
  by_cases hi : s._init_reset = true
  · simp [hi, goalAreaComputations, dynamicAreaComputations, List.count_append,
      List.count_cons]
  · have hi' : s._init_reset = false := by simpa using hi
    simp [hi']

theorem reset_front_counts (f : Bool) (s : LevelStaticMap) :
    ∃ u : LevelStaticMap,
      u = (if f then
            { freeWanderers (lazyclear s) with
              trace := (freeWanderers (lazyclear s)).trace ++ [Event.resetRobotToCenter] }
          else freeWanderers (lazyclear s)) ∧
      u._dynamic = s._dynamic ∧ u._init_reset = s._init_reset ∧
      goalAreaComputations u.trace = goalAreaComputations s.trace ∧
      dynamicAreaComputations u.trace = dynamicAreaComputations s.trace := by
  obtain ⟨d, hd'⟩ := lazyclear_trace s
  have hc1 := count_map_destroyBody Event.goalCalculateArea (fun _ _ h => by cases h) d
  have hc2 := count_map_destroyBody Event.dynamicCalculateArea (fun _ _ h => by cases h) d
  have hw1 : (s._wanderers.map Event.deleteWanderer).count Event.goalCalculateArea = 0 := by
    rw [List.count_eq_zero]; intro hm
    obtain ⟨w, _, hw⟩ := List.mem_map.1 hm
    cases hw
  have hw2 : (s._wanderers.map Event.deleteWanderer).count Event.dynamicCalculateArea = 0 := by
    rw [List.count_eq_zero]; intro hm
    obtain ⟨w, _, hw⟩ := List.mem_map.1 hm
    cases hw
  have hwl : (lazyclear s)._wanderers = s._wanderers := rfl
  cases f
  · refine ⟨_, rfl, rfl, rfl, ?_, ?_⟩
    · simp [freeWanderers, hd', hwl, goalAreaComputations, List.count_append, hc1, hw1]
    · simp [freeWanderers, hd', hwl, dynamicAreaComputations, List.count_append, hc2, hw2]
  · refine ⟨_, rfl, rfl, rfl, ?_, ?_⟩
    · simp [freeWanderers, hd', hwl, goalAreaComputations, List.count_append, hc1, hw1,
        List.count_cons]
    · simp [freeWanderers, hd', hwl, dynamicAreaComputations, List.count_append, hc2, hw2,
        List.count_cons]

theorem reset_dynamic (g : OccupancyGrid) (cfg : Settings) (f : Bool) (s : LevelStaticMap)
    (hd : s._dynamic = true) :
    (reset g cfg f s)._dynamic = true ∧ (reset g cfg f s)._init_reset = false ∧
    goalAreaComputations (reset g cfg f s).trace =
      goalAreaComputations s.trace + (if s._init_reset then 1 else 0) ∧
    dynamicAreaComputations (reset g cfg f s).trace =
      dynamicAreaComputations s.trace + (if s._init_reset then 1 else 0) := by
  obtain ⟨u, hu, a1, a2, a3, a4⟩ := reset_front_counts f s
  obtain ⟨b1, b2, b3, b4⟩ := resetGoalArea_counts g cfg u
  obtain ⟨c1, c2, c3, c4⟩ := resetDynamic_counts g cfg (resetGoalArea g cfg u)
    (by rw [b1, a1, hd])
  have hreset : reset g cfg f s =
      { resetDynamic g cfg (resetGoalArea g cfg u) with
        trace := (resetDynamic g cfg (resetGoalArea g cfg u)).trace
          ++ [Event.randomGoalSpawnUntilValid] } := by
    have h1 : (lazyclear s)._dynamic = true := hd
    rw [hu]
    simp only [reset, h1, if_true]
  rw [hreset]
  refine ⟨c1, c2, ?_, ?_⟩
  · have : goalAreaComputations ((resetDynamic g cfg (resetGoalArea g cfg u)).trace
        ++ [Event.randomGoalSpawnUntilValid])
        = goalAreaComputations (resetDynamic g cfg (resetGoalArea g cfg u)).trace := by
      simp [goalAreaComputations, List.count_append, List.count_cons]
    show goalAreaComputations ((resetDynamic g cfg (resetGoalArea g cfg u)).trace
        ++ [Event.randomGoalSpawnUntilValid]) = _
    rw [this, c3, b3, a3, a2]
  · have : dynamicAreaComputations ((resetDynamic g cfg (resetGoalArea g cfg u)).trace
        ++ [Event.randomGoalSpawnUntilValid])
        = dynamicAreaComputations (resetDynamic g cfg (resetGoalArea g cfg u)).trace := by
      simp [dynamicAreaComputations, List.count_append, List.count_cons]
    show dynamicAreaComputations ((resetDynamic g cfg (resetGoalArea g cfg u)).trace
        ++ [Event.randomGoalSpawnUntilValid]) = _
    rw [this, c4, b4, a4, b2, a2]

theorem resetAll_dynamic (g : OccupancyGrid) (cfg : Settings) (f : Bool) (flags : List Bool)
    (s : LevelStaticMap) (hd : s._dynamic = true) (hi : s._init_reset = true) :
    goalAreaComputations (resetAll g cfg (f :: flags) s).trace
      = goalAreaComputations s.trace + 1 ∧
    dynamicAreaComputations (resetAll g cfg (f :: flags) s).trace
      = dynamicAreaComputations s.trace + 1 := by
  have hrest : ∀ (flags : List Bool) (u : LevelStaticMap), u._dynamic = true →
      u._init_reset = false →
      goalAreaComputations (resetAll g cfg flags u).trace = goalAreaComputations u.trace ∧
      dynamicAreaComputations (resetAll g cfg flags u).trace
        = dynamicAreaComputations u.trace := by
    intro flags
    induction flags with
    | nil => intro u _ _; exact ⟨rfl, rfl⟩
    | cons f' flags ih =>
      intro u hu1 hu2
      obtain ⟨r1, r2, r3, r4⟩ := reset_dynamic g cfg f' u hu1
      obtain ⟨i1, i2⟩ := ih (reset g cfg f' u) r1 r2
      have e : resetAll g cfg (f' :: flags) u = resetAll g cfg flags (reset g cfg f' u) := rfl
      rw [e, i1, i2, r3, r4, hu2]
      simp
  obtain ⟨r1, r2, r3, r4⟩ := reset_dynamic g cfg f s hd
  obtain ⟨i1, i2⟩ := hrest flags (reset g cfg f s) r1 r2
  have e : resetAll g cfg (f :: flags) s = resetAll g cfg flags (reset g cfg f s) := rfl
  rw [e, i1, i2, r3, r4, hi]
  simp

/-! ## How often the spawn areas are computed -/

theorem construct_centreGrid (dynamic : Bool) :
    construct centreGrid dynamic true = some
      { initial dynamic with
        nextBody := 1
        trace := [Event.createBody 0]
          ++ (rowEdgeCalls (staticMapOf centreGrid)).map (add_edge centreGrid 0)
          ++ (colEdgeCalls (staticMapOf centreGrid)).map (add_edge centreGrid 0)
        _n_non_clear_bodies := 1
        _bodyList := [0] } := by
  rw [construct, loadApproximate_eq centreGrid (by decide)]
  rfl

theorem construct_centreGrid_state (dynamic : Bool) (s : LevelStaticMap)
    (hs : construct centreGrid dynamic true = some s) :
    s._dynamic = dynamic ∧ s._init_reset = true ∧ goalAreaComputations s.trace = 0 ∧
    dynamicAreaComputations s.trace = 0 := by
  rw [construct_centreGrid] at hs
  cases hs
  refine ⟨rfl, rfl, ?_, ?_⟩
  · rw [centreGrid_calls.1, centreGrid_calls.2]
    simp [goalAreaComputations, add_edge, initial]
  · rw [centreGrid_calls.1, centreGrid_calls.2]
    simp [dynamicAreaComputations, add_edge, initial]

/-- C7 (evaluation at the failing input). On a level constructed with `dynamic = false`, every
`reset` finds `_init_reset` still `true` and computes the goal spawn area again: after the
resets `flags` the computation has run `flags.length` times, so twice after two resets (the
dynamic-obstacle area is never computed). On a level constructed with `dynamic = true` both
areas are computed once, whatever the number of resets. -/
theorem goal_area_recomputed_when_not_dynamic :
    (construct centreGrid false true).map
        (fun s => goalAreaComputations
          (reset centreGrid exampleSettings false
            (reset centreGrid exampleSettings false s)).trace) = some 2 ∧
    (∀ flags : List Bool, (construct centreGrid false true).map
        (fun s =>
          (goalAreaComputations (resetAll centreGrid exampleSettings flags s).trace,
           dynamicAreaComputations (resetAll centreGrid exampleSettings flags s).trace))
        = some (flags.length, 0)) ∧
    (∀ (f : Bool) (flags : List Bool), (construct centreGrid true true).map
        (fun s =>
          (goalAreaComputations (resetAll centreGrid exampleSettings (f :: flags) s).trace,
           dynamicAreaComputations
             (resetAll centreGrid exampleSettings (f :: flags) s).trace))
        = some (1, 1)) := by
  have hgen : ∀ flags : List Bool, (construct centreGrid false true).map
      (fun s =>
        (goalAreaComputations (resetAll centreGrid exampleSettings flags s).trace,
         dynamicAreaComputations (resetAll centreGrid exampleSettings flags s).trace))
      = some (flags.length, 0) := by
    intro flags
    obtain ⟨s, hs⟩ : ∃ s, construct centreGrid false true = some s :=
      ⟨_, construct_centreGrid false⟩
    obtain ⟨h1, h2, h3, h4⟩ := construct_centreGrid_state false s hs
    obtain ⟨k1, k2⟩ := resetAll_not_dynamic centreGrid exampleSettings flags s h1 h2
    rw [hs, Option.map_some', k1, k2, h3, h4, Nat.zero_add]
  refine ⟨?_, hgen, ?_⟩
  · have := hgen [false, false]
    obtain ⟨s, hs⟩ : ∃ s, construct centreGrid false true = some s :=
      ⟨_, construct_centreGrid false⟩
    rw [hs, Option.map_some'] at this ⊢
    exact congrArg (Option.map Prod.fst) this
  · intro f flags
    obtain ⟨s, hs⟩ : ∃ s, construct centreGrid true true = some s :=
      ⟨_, construct_centreGrid true⟩
    obtain ⟨h1, h2, h3, h4⟩ := construct_centreGrid_state true s hs
    obtain ⟨k1, k2⟩ := resetAll_dynamic centreGrid exampleSettings f flags s h1 h2
    rw [hs, Option.map_some', k1, k2, h3, h4]

/-! ## `lazyclear`: the exact boundary -/

theorem lazyclearLoop_destroyed (n : Nat) (l : List Nat) (i : Nat) :
    destroyedOf (lazyclearLoop n i l).2 =
      (l.drop (n + 1 - i)).enumFrom (max i (n + 1)) := by
  induction l generalizing i with
  | nil => simp [lazyclearLoop, destroyedOf]
  | cons b rest ih =>
    simp only [lazyclearLoop]
    by_cases h : i > n
    · have h0 : n + 1 - i = 0 := by omega
      have h1 : n + 1 - (i + 1) = 0 := by omega
      have h2 : max i (n + 1) = i := by omega
      have h3 : max (i + 1) (n + 1) = i + 1 := by omega
      have := ih (i + 1)
      rw [h1, h3] at this
      simp only [h, if_true, destroyedOf, List.filterMap_cons, h0, h2, List.drop_zero,
        List.enumFrom_cons] at this ⊢
      rw [this]
    · have h0 : n + 1 - i = (n + 1 - (i + 1)) + 1 := by omega
      have h2 : max i (n + 1) = max (i + 1) (n + 1) := by omega
      simp only [h, if_false]
      rw [ih (i + 1), h0, List.drop_succ_cons, h2]

theorem lazyclear_destroyed (s : LevelStaticMap) :
    ∃ t, (lazyclear s).trace = s.trace ++ t ∧
      t = (destroyedOf t).map (fun p => Event.destroyBody p.1 p.2) ∧
      destroyedOf t =
        (s._bodyList.drop (s._n_non_clear_bodies + 1)).enumFrom (s._n_non_clear_bodies + 1) := by
  refine ⟨(lazyclearLoop s._n_non_clear_bodies 0 s._bodyList).2, rfl,
    lazyclearLoop_calls_eq _ _ _, ?_⟩
  rw [lazyclearLoop_destroyed]
  simp

theorem map_snd_enumFrom (l : List Nat) (k : Nat) : (l.enumFrom k).map Prod.snd = l := by
  induction l generalizing k with
  | nil => rfl
  | cons a l ih => simp [List.enumFrom_cons, ih]

/-- C18. Exact boundary of the clear loop: `lazyclear` keeps exactly the entries at indices
`0..n` inclusive, `n = _n_non_clear_bodies` (the first `min |L| (n+1)` entries, in order), and
the `DestroyBody` calls it issues, its only calls, are exactly the entries at indices `> n`,
in order, each with its index; the entry at index `n`, when present, survives. -/
theorem lazyclear_exact_boundary (s : LevelStaticMap) :
    (lazyclear s)._bodyList = s._bodyList.take (s._n_non_clear_bodies + 1) ∧
    (lazyclear s)._bodyList.length = min s._bodyList.length (s._n_non_clear_bodies + 1) ∧
    (lazyclear s)._bodyList[s._n_non_clear_bodies]? = s._bodyList[s._n_non_clear_bodies]? ∧
    ∃ t, (lazyclear s).trace = s.trace ++ t ∧
      t = (destroyedOf t).map (fun p => Event.destroyBody p.1 p.2) ∧
      destroyedOf t =
        (s._bodyList.drop (s._n_non_clear_bodies + 1)).enumFrom
          (s._n_non_clear_bodies + 1) := by
  refine ⟨lazyclear_bodyList s, ?_, ?_, lazyclear_destroyed s⟩
  · rw [lazyclear_bodyList, List.length_take, Nat.min_comm]
  · rw [lazyclear_bodyList, List.getElem?_take_of_lt (Nat.lt_succ_self _)]

/-- C14. In one `lazyclear` call the entries kept, in order, followed by the entries passed
to `DestroyBody`, in order, are the registry the call started from: every entry is kept or
destroyed, exactly once and never both; and when the registry has no duplicate handles, no
handle is destroyed twice and no destroyed handle is kept. -/
theorem lazyclear_partition (s : LevelStaticMap) :
    ∃ t, (lazyclear s).trace = s.trace ++ t ∧
      (lazyclear s)._bodyList ++ (destroyedOf t).map Prod.snd = s._bodyList ∧
      (s._bodyList.Nodup →
        ((destroyedOf t).map Prod.snd).Nodup ∧
        ∀ b ∈ (destroyedOf t).map Prod.snd, b ∉ (lazyclear s)._bodyList) := by
  obtain ⟨t, h1, _, h3⟩ := lazyclear_destroyed s
  have hsplit : (lazyclear s)._bodyList ++ (destroyedOf t).map Prod.snd = s._bodyList := by
    rw [h3, map_snd_enumFrom, lazyclear_bodyList, List.take_append_drop]
  refine ⟨t, h1, hsplit, ?_⟩
  intro hnd
  rw [← hsplit] at hnd
  obtain ⟨_, h5, h6⟩ := List.nodup_append.1 hnd
  exact ⟨h5, fun b hb hk => h6 hk hb⟩

/-- Witness for C14: a registry of four distinct handles with watermark 1. -/
theorem lazyclear_partition_witness :
    crowdedLevel._bodyList.Nodup ∧
    ∃ t, (lazyclear crowdedLevel).trace = crowdedLevel.trace ++ t ∧
      (lazyclear crowdedLevel)._bodyList ++ (destroyedOf t).map Prod.snd
        = crowdedLevel._bodyList ∧
      ((destroyedOf t).map Prod.snd).Nodup ∧
      ∀ b ∈ (destroyedOf t).map Prod.snd, b ∉ (lazyclear crowdedLevel)._bodyList := by
  obtain ⟨t, h1, h2, h3⟩ := lazyclear_partition crowdedLevel
  exact ⟨by decide, t, h1, h2, h3 (by decide)⟩

/-! ## Seam masks in terms of classes -/

theorem absdiff_class_byte (a b : Bool) :
    absdiff (if a then 255 else 0) (if b then 255 else 0) = if xor a b then 255 else 0 := by
  cases a <;> cases b <;> decide

theorem rowDiff_eq_rowMask (g : OccupancyGrid) (i : Nat) (hi : i + 1 < g.height) :
    rowDiff (staticMapOf g) i = rowMask (isWall g) g.width i := by
  unfold rowDiff rowMask
  have hc : (staticMapOf g).cols = g.width := rfl
  rw [hc]
  apply List.map_congr_left
  intro c hc
  rw [List.mem_range] at hc
  rw [staticMapOf_at g i c (by omega) hc, staticMapOf_at g (i + 1) c hi hc]
  exact absdiff_class_byte _ _

theorem colDiff_eq_colMask (g : OccupancyGrid) (i : Nat) (hi : i + 1 < g.width) :
    colDiff (staticMapOf g) i = colMask (isWall g) g.height i := by
  unfold colDiff colMask
  have hc : (staticMapOf g).rows = g.height := rfl
  rw [hc]
  apply List.map_congr_left
  intro c hc
  rw [List.mem_range] at hc
  rw [staticMapOf_at g c i hc (by omega), staticMapOf_at g c (i + 1) hc hi]
  exact absdiff_class_byte _ _

theorem rowEdgeCalls_eq (g : OccupancyGrid) :
    rowEdgeCalls (staticMapOf g) =
      (List.range (g.height - 1)).flatMap fun i =>
        (scanRuns (rowMask (isWall g) g.width i)).map fun r => (r.1, i, r.2, i) := by
  rw [rowEdgeCalls_flatMap]
  have hr : (staticMapOf g).rows = g.height := rfl
  rw [hr]
  apply List.flatMap_congr
  intro i hi
  rw [List.mem_range] at hi
  rw [rowDiff_eq_rowMask g i (by omega)]

theorem colEdgeCalls_eq (g : OccupancyGrid) :
    colEdgeCalls (staticMapOf g) =
      (List.range (g.width - 1)).flatMap fun i =>
        (scanRuns (colMask (isWall g) g.height i)).map fun r => (i, r.1, i, r.2) := by
  rw [colEdgeCalls_flatMap]
  have hr : (staticMapOf g).cols = g.width := rfl
  rw [hr]
  apply List.flatMap_congr
  intro i hi
  rw [List.mem_range] at hi
  rw [colDiff_eq_colMask g i (by omega)]

theorem rowMask_congr (w w' : Nat → Nat → Bool) (cols i : Nat)
    (h : ∀ c, c < cols → xor (w i c) (w (i + 1) c) = xor (w' i c) (w' (i + 1) c)) :
    rowMask w cols i = rowMask w' cols i := by
  unfold rowMask
  apply List.map_congr_left
  intro c hc
  rw [List.mem_range] at hc
  rw [h c hc]

theorem colMask_congr (w w' : Nat → Nat → Bool) (rows i : Nat)
    (h : ∀ c, c < rows → xor (w c i) (w c (i + 1)) = xor (w' c i) (w' c (i + 1))) :
    colMask w rows i = colMask w' rows i := by
  unfold colMask
  apply List.map_congr_left
  intro c hc
  rw [List.mem_range] at hc
  rw [h c hc]

theorem edge_exists_rowMask (w : Nat → Nat → Bool) (cols i c : Nat) :
    maskBit (rowMask w cols i) c = (decide (c < cols) && xor (w i c) (w (i + 1) c)) := by
  have hlen : (rowMask w cols i).length = cols := by simp [rowMask]
  unfold maskBit
  rw [hlen]
  by_cases hc : c < cols
  · simp only [hc, if_true, decide_True, Bool.true_and]
    have : (rowMask w cols i).getD c 0 = if xor (w i c) (w (i + 1) c) then 255 else 0 := by
      simp [rowMask, List.getD_eq_getElem?_getD, List.getElem?_map, List.getElem?_range, hc]
    rw [this]
    cases xor (w i c) (w (i + 1) c) <;> decide
  · simp [hc]

theorem edge_exists_colMask (w : Nat → Nat → Bool) (rows i c : Nat) :
    maskBit (colMask w rows i) c = (decide (c < rows) && xor (w c i) (w c (i + 1))) :=
  edge_exists_rowMask (fun a b => w b a) rows i c

theorem scanRuns_eq_nil_iff (diff : List Nat) :
    scanRuns diff = [] ↔ ∀ c, maskBit diff c = false := by
  obtain ⟨h1, h2⟩ := scanRuns_spec diff
  constructor
  · intro h c
    cases hc : maskBit diff c
    · rfl
    · obtain ⟨r, hr, _⟩ := (h2 c).1 hc
      rw [h] at hr
      exact absurd hr (List.not_mem_nil r)
  · intro h
    rw [List.eq_nil_iff_forall_not_mem]
    intro r hr
    have hcov : covers (scanRuns diff) r.1 := ⟨r, hr, Nat.le_refl _, (h1 r hr).1⟩
    have := (h2 r.1).2 hcov
    rw [h r.1] at this
    exact Bool.false_ne_true this

theorem rowEdgeCalls_eq_nil_iff (g : OccupancyGrid) :
    rowEdgeCalls (staticMapOf g) = [] ↔
      ∀ i c, i + 1 < g.height → c < g.width → isWall g i c = isWall g (i + 1) c := by
  rw [rowEdgeCalls_eq, List.flatMap_eq_nil_iff]
  simp only [List.mem_range, List.map_eq_nil_iff, scanRuns_eq_nil_iff, edge_exists_rowMask,
    Bool.and_eq_false_imp, decide_eq_true_eq]
  constructor
  · intro h i c hi hc
    have := h i (by omega) c hc
    revert this
    cases isWall g i c <;> cases isWall g (i + 1) c <;> simp
  · intro h i hi c hc
    rw [h i c (by omega) hc]
    simp

theorem colEdgeCalls_eq_nil_iff (g : OccupancyGrid) :
    colEdgeCalls (staticMapOf g) = [] ↔
      ∀ i c, i + 1 < g.width → c < g.height → isWall g c i = isWall g c (i + 1) := by
  rw [colEdgeCalls_eq, List.flatMap_eq_nil_iff]
  simp only [List.mem_range, List.map_eq_nil_iff, scanRuns_eq_nil_iff, edge_exists_colMask,
    Bool.and_eq_false_imp, decide_eq_true_eq]
  constructor
  · intro h i c hi hc
    have := h i (by omega) c hc
    revert this
    cases isWall g c i <;> cases isWall g c (i + 1) <;> simp
  · intro h i hi c hc
    rw [h i c (by omega) hc]
    simp

/-! ## Grids without edges -/

theorem uniform_iff_adjacent (w : Nat → Nat → Bool) (W H : Nat) :
    (∀ i j i' j', i < H → j < W → i' < H → j' < W → w i j = w i' j') ↔
      (∀ i c, i + 1 < H → c < W → w i c = w (i + 1) c) ∧
      (∀ i c, i + 1 < W → c < H → w c i = w c (i + 1)) := by
  constructor
  · intro h
    exact ⟨fun i c hi hc => h i c (i + 1) c (by omega) hc hi hc,
      fun i c hi hc => h c i c (i + 1) hc (by omega) hc hi⟩
  · rintro ⟨hrow, hcol⟩
    have hcol0 : ∀ i, i < H → 0 < W → w i 0 = w 0 0 := by
      intro i
      induction i with
      | zero => intros; rfl
      | succ i ih =>
        intro hi hW
        rw [← hrow i 0 hi hW]
        exact ih (by omega) hW
    have hrow0 : ∀ j i, j < W → i < H → w i j = w i 0 := by
      intro j
      induction j with
      | zero => intros; rfl
      | succ j ih =>
        intro i hj hi
        rw [← hcol j i hj hi]
        exact ih i (by omega) hi
    intro i j i' j' hi hj hi' hj'
    rw [hrow0 j i hj hi, hrow0 j' i' hj' hi', hcol0 i hi (by omega), hcol0 i' hi' (by omega)]

theorem emittedEdges_eq_nil_iff (g : OccupancyGrid) (hwf : g.WellFormed) :
    emittedEdges g = some [] ↔
      ∀ i j i' j', i < g.height → j < g.width → i' < g.height → j' < g.width →
        isWall g i j = isWall g i' j' := by
  rw [emittedEdges_eq g hwf, uniform_iff_adjacent, ← rowEdgeCalls_eq_nil_iff,
    ← colEdgeCalls_eq_nil_iff]
  simp

/-- C11. On a well-formed grid, approximate mode emits zero edges if and only if all cells
have the same wall/free class; in particular an all-free grid emits zero edges. -/
theorem zero_edges_iff_uniform (g : OccupancyGrid) (hwf : g.WellFormed) :
    (emittedEdges g = some [] ↔
      ∀ i j i' j', i < g.height → j < g.width → i' < g.height → j' < g.width →
        isWall g i j = isWall g i' j') ∧
    ((∀ i j, i < g.height → j < g.width → isWall g i j = false) →
      emittedEdges g = some []) := by
  refine ⟨emittedEdges_eq_nil_iff g hwf, fun h => ?_⟩
  rw [emittedEdges_eq_nil_iff g hwf]
  intro i j i' j' hi hj hi' hj'
  rw [h i j hi hj, h i' j' hi' hj']

/-- Witness for C11: the 3x2 all-free grid emits no edge. -/
theorem zero_edges_iff_uniform_witness :
    freeGrid.WellFormed ∧
    (∀ i j, i < freeGrid.height → j < freeGrid.width → isWall freeGrid i j = false) ∧
    emittedEdges freeGrid = some [] := by
  have hfree : ∀ i j, i < freeGrid.height → j < freeGrid.width →
      isWall freeGrid i j = false := by
    intro i j hi hj
    have hi' : i < 2 := hi
    have hj' : j < 3 := hj
    interval_cases i <;> interval_cases j <;> rfl
  exact ⟨by decide, hfree, (zero_edges_iff_uniform freeGrid (by decide)).2 hfree⟩

/-- C12. For a grid with no column or no row and an empty cell sequence, `loadStaticMap`
returns in both modes: approximate mode creates its body, registers it and creates no edge
fixture (either seam loop does not run or scans empty masks), and per-cell mode leaves the
level unchanged, so emits no box. -/
theorem degenerate_grid_no_geometry (g : OccupancyGrid) (s : LevelStaticMap)
    (hdata : g.data = []) (h0 : g.width = 0 ∨ g.height = 0) :
    loadStaticMap g true s = some
      { s with
        nextBody := s.nextBody + 1
        trace := s.trace ++ [Event.createBody s.nextBody]
        _n_non_clear_bodies := s._n_non_clear_bodies + 1
        _bodyList := s._bodyList ++ [s.nextBody] } ∧
    edgesOf [Event.createBody s.nextBody] = [] ∧
    emittedEdges g = some [] ∧
    loadStaticMap g false s = some s := by
  have hzero : g.width * g.height = 0 := by
    rcases h0 with h | h <;> simp [h]
  have hwf : g.WellFormed := by
    refine ⟨by rw [hdata, hzero]; rfl, by rw [hzero]; decide⟩
  have hrow : rowEdgeCalls (staticMapOf g) = [] := by
    rw [rowEdgeCalls_eq_nil_iff]
    intro i c hi hc
    rcases h0 with h | h <;> omega
  have hcol : colEdgeCalls (staticMapOf g) = [] := by
    rw [colEdgeCalls_eq_nil_iff]
    intro i c hi hc
    rcases h0 with h | h <;> omega
  refine ⟨?_, rfl, ?_, ?_⟩
  · rw [loadApproximate_eq g hwf, hrow, hcol]
    simp
  · rw [emittedEdges_eq g hwf, hrow, hcol]
    rfl
  · simp only [loadStaticMap, Bool.not_false, if_true]
    rw [loadPerCell_eq g hwf]
    simp [occupiedCells, hdata]

/-- Witness for C12: five rows, no column. -/
theorem degenerate_grid_no_geometry_witness :
    emptyGrid.data = [] ∧ (emptyGrid.width = 0 ∨ emptyGrid.height = 0) ∧
    loadStaticMap emptyGrid true (initial false) = some
      { initial false with
        nextBody := 1
        trace := [Event.createBody 0]
        _n_non_clear_bodies := 1
        _bodyList := [0] } ∧
    edgesOf [Event.createBody 0] = [] ∧
    emittedEdges emptyGrid = some [] ∧
    loadStaticMap emptyGrid false (initial false) = some (initial false) :=
  ⟨rfl, Or.inl rfl,
    degenerate_grid_no_geometry emptyGrid (initial false) rfl (Or.inl rfl)⟩

/-! ## Complement and transpose -/

theorem rowEdgeCalls_congr (g g' : OccupancyGrid) (hw : g'.width = g.width)
    (hh : g'.height = g.height)
    (h : ∀ i c, i + 1 < g.height → c < g.width →
      xor (isWall g' i c) (isWall g' (i + 1) c) = xor (isWall g i c) (isWall g (i + 1) c)) :
    rowEdgeCalls (staticMapOf g') = rowEdgeCalls (staticMapOf g) := by
  rw [rowEdgeCalls_eq, rowEdgeCalls_eq, hw, hh]
  apply List.flatMap_congr
  intro i hi
  rw [List.mem_range] at hi
  rw [rowMask_congr (isWall g') (isWall g) g.width i (fun c hc => h i c (by omega) hc)]

theorem colEdgeCalls_congr (g g' : OccupancyGrid) (hw : g'.width = g.width)
    (hh : g'.height = g.height)
    (h : ∀ i c, i + 1 < g.width → c < g.height →
      xor (isWall g' c i) (isWall g' c (i + 1)) = xor (isWall g c i) (isWall g c (i + 1))) :
    colEdgeCalls (staticMapOf g') = colEdgeCalls (staticMapOf g) := by
  rw [colEdgeCalls_eq, colEdgeCalls_eq, hw, hh]
  apply List.flatMap_congr
  intro i hi
  rw [List.mem_range] at hi
  rw [colMask_congr (isWall g') (isWall g) g.height i (fun c hc => h i c (by omega) hc)]

theorem isOccupied_swap (v : Int) :
    isOccupied (if isOccupied v then 0 else 100) = !isOccupied v := by
  cases h : isOccupied v <;> simp [isOccupied]

theorem isWall_complement (g : OccupancyGrid) (hwf : g.WellFormed) (i j : Nat)
    (hi : i < g.height) (hj : j < g.width) :
    isWall (complement g) i j = !isWall g i j := by
  have hlt := (cellIndex_eq g hwf i j hi hj).2
  unfold isWall complement
  simp only [List.getD_eq_getElem?_getD, List.getElem?_map, List.getElem?_eq_getElem hlt,
    Option.map_some', Option.getD_some]
  exact isOccupied_swap _

theorem complement_wellFormed (g : OccupancyGrid) (hwf : g.WellFormed) :
    (complement g).WellFormed := by
  obtain ⟨h1, h2⟩ := hwf
  exact ⟨by simp [complement, h1], h2⟩

/-- C19. Complement invariance of approximate mode: swapping the wall/free class of every
cell of a well-formed grid gives a well-formed grid on which `loadStaticMap` in approximate
mode returns the same level, hence the same list of edge fixtures in the same order. -/
theorem complement_same_edges (g : OccupancyGrid) (s : LevelStaticMap) (hwf : g.WellFormed) :
    (complement g).WellFormed ∧
    (∀ i j, i < g.height → j < g.width → isWall (complement g) i j = !isWall g i j) ∧
    loadStaticMap (complement g) true s = loadStaticMap g true s ∧
    emittedEdges (complement g) = emittedEdges g := by
  have hwf' := complement_wellFormed g hwf
  have hrow : rowEdgeCalls (staticMapOf (complement g)) = rowEdgeCalls (staticMapOf g) := by
    apply rowEdgeCalls_congr g (complement g) rfl rfl
    intro i c hi hc
    rw [isWall_complement g hwf i c (by omega) hc, isWall_complement g hwf (i + 1) c hi hc]
    cases isWall g i c <;> cases isWall g (i + 1) c <;> rfl
  have hcol : colEdgeCalls (staticMapOf (complement g)) = colEdgeCalls (staticMapOf g) := by
    apply colEdgeCalls_congr g (complement g) rfl rfl
    intro i c hi hc
    rw [isWall_complement g hwf c i hc (by omega), isWall_complement g hwf c (i + 1) hc hi]
    cases isWall g c i <;> cases isWall g c (i + 1) <;> rfl
  have hload : ∀ t : LevelStaticMap,
      loadStaticMap (complement g) true t = loadStaticMap g true t := by
    intro t
    rw [loadApproximate_eq g hwf, loadApproximate_eq (complement g) hwf', hrow, hcol]
    rfl
  refine ⟨hwf', fun i j hi hj => isWall_complement g hwf i j hi hj, hload s, ?_⟩
  unfold emittedEdges
  rw [hload]

/-- Witness for C19: the 3x3 grid with the centre occupied. -/
theorem complement_same_edges_witness :
    centreGrid.WellFormed ∧ (complement centreGrid).WellFormed ∧
    (∀ i j, i < centreGrid.height → j < centreGrid.width →
      isWall (complement centreGrid) i j = !isWall centreGrid i j) ∧
    loadStaticMap (complement centreGrid) true (initial false)
      = loadStaticMap centreGrid true (initial false) ∧
    emittedEdges (complement centreGrid) = emittedEdges centreGrid :=
  ⟨by decide, complement_same_edges centreGrid (initial false) (by decide)⟩

theorem isWall_transpose (g : OccupancyGrid) (i j : Nat) (hi : i < g.height)
    (hj : j < g.width) : isWall (transpose g) j i = isWall g i j := by
  have hk : j * g.height + i < g.width * g.height := by
    calc j * g.height + i < j * g.height + g.height := by omega
      _ = (j + 1) * g.height := by ring
      _ ≤ g.width * g.height := Nat.mul_le_mul_right _ hj
  have hmod : (j * g.height + i) % g.height = i := by
    rw [Nat.add_comm, Nat.add_mul_mod_self_right, Nat.mod_eq_of_lt hi]
  have hdiv : (j * g.height + i) / g.height = j := by
    rw [Nat.add_comm, Nat.add_mul_div_right _ _ (by omega), Nat.div_eq_of_lt hi]; simp
  unfold isWall
  have hw : (transpose g).width = g.height := rfl
  rw [hw]
  simp only [transpose, List.getD_eq_getElem?_getD, List.getElem?_map, List.getElem?_range hk,
    Option.map_some', Option.getD_some, hmod, hdiv]

theorem transpose_wellFormed (g : OccupancyGrid) (hwf : g.WellFormed) :
    (transpose g).WellFormed := by
  obtain ⟨_, h2⟩ := hwf
  refine ⟨?_, ?_⟩
  · simp [transpose, Nat.mul_comm]
  · show g.height * g.width < 2 ^ 32
    rw [Nat.mul_comm]; exact h2

theorem colEdgeCalls_transpose (g : OccupancyGrid) :
    colEdgeCalls (staticMapOf g) = (rowEdgeCalls (staticMapOf (transpose g))).map swapCall := by
  rw [colEdgeCalls_eq, rowEdgeCalls_eq, List.map_flatMap]
  have hh : (transpose g).height = g.width := rfl
  have hw : (transpose g).width = g.height := rfl
  rw [hh, hw]
  apply List.flatMap_congr
  intro i hi
  rw [List.mem_range] at hi
  have hmask : rowMask (isWall (transpose g)) g.height i = colMask (isWall g) g.height i := by
    rw [rowMask_congr (isWall (transpose g)) (fun a b => isWall g b a) g.height i]
    · rfl
    · intro c hc
      rw [isWall_transpose g c i hc (by omega), isWall_transpose g c (i + 1) hc (by omega)]
  rw [hmask, List.map_map]
  rfl

theorem rowEdgeCalls_transpose (g : OccupancyGrid) :
    rowEdgeCalls (staticMapOf g) = (colEdgeCalls (staticMapOf (transpose g))).map swapCall := by
  rw [colEdgeCalls_eq, rowEdgeCalls_eq, List.map_flatMap]
  have hh : (transpose g).height = g.width := rfl
  have hw : (transpose g).width = g.height := rfl
  rw [hh, hw]
  apply List.flatMap_congr
  intro i hi
  rw [List.mem_range] at hi
  have hmask : colMask (isWall (transpose g)) g.width i = rowMask (isWall g) g.width i := by
    rw [colMask_congr (isWall (transpose g)) (fun a b => isWall g b a) g.width i]
    · rfl
    · intro c hc
      rw [isWall_transpose g i c (by omega) hc, isWall_transpose g (i + 1) c (by omega) hc]
  rw [hmask, List.map_map]
  rfl

theorem edgeOfCall_transpose (g : OccupancyGrid) (b : Nat) (c : Nat × Nat × Nat × Nat) :
    edgeOfCall g b (swapCall c) = swapXY (edgeOfCall (transpose g) b c) := rfl

theorem swapXY_swapXY (e : Nat × Vec2 × Vec2) : swapXY (swapXY e) = e := rfl

/-- C17. Transpose symmetry of approximate mode on a well-formed grid `G`: the `add_edge`
calls of the column loop on `G` are the calls of the row loop on the transposed grid with the
two grid coordinates of both end points swapped, in the same order, and the calls of the row
loop on `G` are those of the column loop on the transposed grid, swapped; so the edge
fixtures emitted for the transposed grid are the vertical edges of `G` followed by the
horizontal edges of `G`, each with its world coordinates swapped. -/
theorem transpose_symmetry (g : OccupancyGrid) (hwf : g.WellFormed) :
    (transpose g).WellFormed ∧
    (∀ i j, i < g.height → j < g.width → isWall (transpose g) j i = isWall g i j) ∧
    colEdgeCalls (staticMapOf g)
      = (rowEdgeCalls (staticMapOf (transpose g))).map swapCall ∧
    rowEdgeCalls (staticMapOf g)
      = (colEdgeCalls (staticMapOf (transpose g))).map swapCall ∧
    emittedEdges g = some
      ((rowEdgeCalls (staticMapOf g)).map (edgeOfCall g 0)
        ++ (colEdgeCalls (staticMapOf g)).map (edgeOfCall g 0)) ∧
    emittedEdges (transpose g) = some
      (((colEdgeCalls (staticMapOf g)).map (edgeOfCall g 0)).map swapXY
        ++ ((rowEdgeCalls (staticMapOf g)).map (edgeOfCall g 0)).map swapXY) := by
  have hwf' := transpose_wellFormed g hwf
  refine ⟨hwf', fun i j hi hj => isWall_transpose g i j hi hj, colEdgeCalls_transpose g,
    rowEdgeCalls_transpose g, emittedEdges_eq g hwf, ?_⟩
  rw [emittedEdges_eq (transpose g) hwf', colEdgeCalls_transpose g, rowEdgeCalls_transpose g]
  simp only [List.map_map]
  have e : (swapXY ∘ edgeOfCall g 0 ∘ swapCall) = edgeOfCall (transpose g) 0 := by
    funext c
    simp only [Function.comp_apply, edgeOfCall_transpose, swapXY_swapXY]
  rw [e]

/-- Witness for C17: a 3x2 grid with walls of both kinds. -/
theorem transpose_symmetry_witness :
    mixedGrid.WellFormed ∧ (transpose mixedGrid).WellFormed ∧
    (∀ i j, i < mixedGrid.height → j < mixedGrid.width →
      isWall (transpose mixedGrid) j i = isWall mixedGrid i j) ∧
    colEdgeCalls (staticMapOf mixedGrid)
      = (rowEdgeCalls (staticMapOf (transpose mixedGrid))).map swapCall ∧
    rowEdgeCalls (staticMapOf mixedGrid)
      = (colEdgeCalls (staticMapOf (transpose mixedGrid))).map swapCall ∧
    emittedEdges mixedGrid = some
      ((rowEdgeCalls (staticMapOf mixedGrid)).map (edgeOfCall mixedGrid 0)
        ++ (colEdgeCalls (staticMapOf mixedGrid)).map (edgeOfCall mixedGrid 0)) ∧
    emittedEdges (transpose mixedGrid) = some
      (((colEdgeCalls (staticMapOf mixedGrid)).map (edgeOfCall mixedGrid 0)).map swapXY
        ++ ((rowEdgeCalls (staticMapOf mixedGrid)).map (edgeOfCall mixedGrid 0)).map swapXY) :=
  ⟨by decide, transpose_symmetry mixedGrid (by decide)⟩

/-! ## The runs of a seam are the maximal runs of its mask -/

theorem scanOrder_step (diff : List Nat) (j : Nat) (st : Scan) (h : ScanInv diff j st)
    (ho : ScanOrder st) : ScanOrder (scanStepValue diff st j) := by
  obtain ⟨h1, h2, _⟩ := h
  obtain ⟨o1, o2⟩ := ho
  unfold scanStepValue
  cases he : maskBit diff j <;> cases hs : st.started
  · simp only [Bool.false_and, Bool.and_false, Bool.not_false, Bool.not_true, if_false,
      Bool.false_eq_true]
    exact ⟨o1, fun hst => by rw [hs] at hst; exact absurd hst Bool.false_ne_true⟩
  · simp only [Bool.false_and, Bool.not_false, Bool.and_true, Bool.not_true, if_false,
      if_true, Bool.false_eq_true]
    refine ⟨?_, fun hst => absurd hst Bool.false_ne_true⟩
    rw [List.pairwise_append]
    refine ⟨o1, List.pairwise_singleton _ _, ?_⟩
    intro a ha b hb
    rw [List.mem_singleton] at hb
    subst hb
    exact o2 hs a ha
  · simp only [Bool.true_and, Bool.not_false, if_true]
    exact ⟨o1, fun _ r hr => (h1 r hr).2⟩
  · simp only [Bool.true_and, Bool.not_true, Bool.and_false, if_false, Bool.false_eq_true]
    exact ⟨o1, fun _ => o2 hs⟩

theorem scanOrder_fold (diff : List Nat) (k : Nat) :
    ScanOrder ((List.range k).foldl (scanStepValue diff) ⟨0, false, []⟩) := by
  induction k with
  | zero => exact ⟨List.Pairwise.nil, fun h => absurd h Bool.false_ne_true⟩
  | succ k ih =>
    rw [List.range_succ, List.foldl_append]
    exact scanOrder_step diff k _ (scanInv_fold diff k) ih

theorem scanRuns_pairwise (diff : List Nat) :
    (scanRuns diff).Pairwise (fun a b => a.2 < b.1) := by
  rw [scanRuns_eq]
  exact (scanOrder_fold diff (diff.length + 1)).1

theorem pairwise_trichotomy {α : Type} (R : α → α → Prop) (l : List α) (h : l.Pairwise R) :
    ∀ a ∈ l, ∀ b ∈ l, a = b ∨ R a b ∨ R b a := by
  induction l with
  | nil => intro a ha; exact absurd ha (List.not_mem_nil a)
  | cons x l ih =>
    rw [List.pairwise_cons] at h
    intro a ha b hb
    rw [List.mem_cons] at ha hb
    rcases ha with ha | ha <;> rcases hb with hb | hb
    · exact Or.inl (ha.trans hb.symm)
    · subst ha; exact Or.inr (Or.inl (h.1 b hb))
    · subst hb; exact Or.inr (Or.inr (h.1 a ha))
    · exact ih h.2 a ha b hb

theorem scanRuns_maximal (diff : List Nat) (r : Nat × Nat) (hr : r ∈ scanRuns diff) :
    (∀ c, r.1 ≤ c → c < r.2 → maskBit diff c = true) ∧
    (0 < r.1 → maskBit diff (r.1 - 1) = false) ∧
    maskBit diff r.2 = false := by
  obtain ⟨h1, h2⟩ := scanRuns_spec diff
  have htri := pairwise_trichotomy _ _ (scanRuns_pairwise diff)
  have hlt := (h1 r hr).1
  refine ⟨fun c hc1 hc2 => (h2 c).2 ⟨r, hr, hc1, hc2⟩, ?_, ?_⟩
  · intro hpos
    cases he : maskBit diff (r.1 - 1)
    · rfl
    · obtain ⟨r', hr', k1, k2⟩ := (h2 _).1 he
      rcases htri r hr r' hr' with h | h | h
      · subst h; omega
      · omega
      · omega
  · cases he : maskBit diff r.2
    · rfl
    · obtain ⟨r', hr', k1, k2⟩ := (h2 _).1 he
      have hlt' := (h1 r' hr').1
      rcases htri r hr r' hr' with h | h | h
      · subst h; omega
      · omega
      · omega

theorem flatMap_range_single {α : Type} (f : Nat → List α) (n i : Nat) (hi : i < n)
    (h : ∀ a, a < n → a ≠ i → f a = []) : (List.range n).flatMap f = f i := by
  induction n with
  | zero => omega
  | succ n ih =>
    rw [List.range_succ, List.flatMap_append]
    simp only [List.flatMap_cons, List.flatMap_nil, List.append_nil]
    by_cases hin : i = n
    · subst hin
      have : (List.range i).flatMap f = [] := by
        rw [List.flatMap_eq_nil_iff]
        intro a ha
        rw [List.mem_range] at ha
        exact h a (by omega) (by omega)
      rw [this, List.nil_append]
    · rw [ih (by omega) (fun a ha hne => h a (by omega) hne), h n (by omega) (Ne.symm hin),
        List.append_nil]

theorem rowEdgeCalls_at_seam (m : Mat) (i : Nat) (hi : i < m.rows - 1) :
    (rowEdgeCalls m).filter (fun c => c.2.1 == i)
      = (scanRuns (rowDiff m i)).map fun r => (r.1, i, r.2, i) := by
  rw [rowEdgeCalls_flatMap, List.filter_flatMap]
  rw [flatMap_range_single _ (m.rows - 1) i hi]
  · rw [List.filter_eq_self]
    intro c hc
    obtain ⟨r, _, rfl⟩ := List.mem_map.1 hc
    simp
  · intro a _ hne
    rw [List.filter_eq_nil_iff]
    intro c hc
    obtain ⟨r, _, rfl⟩ := List.mem_map.1 hc
    simpa using hne

/-- C15. On a well-formed grid, for every row seam `i` (`i + 1 < H`), the `add_edge` calls
of the row loop for that seam are `(start, i, end, i)` for the runs `[start, end)` of the
scan of the seam's mask, and those runs are exactly the maximal runs of consecutive columns
where rows `i` and `i + 1` differ in class: `start < end <= W`, every column of a run
differs, columns `start - 1` and `end` (when inside the grid) do not, runs come in increasing
order with a gap between any two, a column differs if and only if it lies in a run, and a
run that reaches the last column is emitted with `end = W`. -/
theorem row_seam_runs_are_maximal (g : OccupancyGrid) (i : Nat) (hwf : g.WellFormed)
    (hi : i + 1 < g.height) :
    buildStaticMap g = some (staticMapOf g) ∧
    (rowEdgeCalls (staticMapOf g)).filter (fun c => c.2.1 == i)
      = (scanRuns (rowDiff (staticMapOf g) i)).map (fun r => (r.1, i, r.2, i)) ∧
    (∀ r ∈ scanRuns (rowDiff (staticMapOf g) i),
      r.1 < r.2 ∧ r.2 ≤ g.width ∧
      (∀ c, r.1 ≤ c → c < r.2 → xor (isWall g i c) (isWall g (i + 1) c) = true) ∧
      (0 < r.1 → xor (isWall g i (r.1 - 1)) (isWall g (i + 1) (r.1 - 1)) = false) ∧
      (r.2 < g.width → xor (isWall g i r.2) (isWall g (i + 1) r.2) = false)) ∧
    (scanRuns (rowDiff (staticMapOf g) i)).Pairwise (fun a b => a.2 < b.1) ∧
    (∀ c, c < g.width →
      (xor (isWall g i c) (isWall g (i + 1) c) = true ↔
        ∃ r ∈ scanRuns (rowDiff (staticMapOf g) i), r.1 ≤ c ∧ c < r.2)) ∧
    (0 < g.width →
      xor (isWall g i (g.width - 1)) (isWall g (i + 1) (g.width - 1)) = true →
      ∃ r ∈ scanRuns (rowDiff (staticMapOf g) i), r.2 = g.width) := by
  have hlen : (rowDiff (staticMapOf g) i).length = g.width := by simp [rowDiff, staticMapOf]
  obtain ⟨h1, h2⟩ := scanRuns_spec (rowDiff (staticMapOf g) i)
  have hcov : ∀ c, c < g.width →
      (xor (isWall g i c) (isWall g (i + 1) c) = true ↔
        ∃ r ∈ scanRuns (rowDiff (staticMapOf g) i), r.1 ≤ c ∧ c < r.2) := by
    intro c hc
    rw [← edgeExists_rowDiff g i c hi hc]
    exact h2 c
  refine ⟨buildStaticMap_eq g hwf, rowEdgeCalls_at_seam _ i (by show i < g.height - 1; omega),
    ?_, scanRuns_pairwise _, hcov, ?_⟩
  · intro r hr
    obtain ⟨m1, m2, m3⟩ := scanRuns_maximal _ r hr
    have hle : r.2 ≤ g.width := by have := (h1 r hr).2; omega
    refine ⟨(h1 r hr).1, hle, ?_, ?_, ?_⟩
    · intro c hc1 hc2
      rw [← edgeExists_rowDiff g i c hi (by omega)]
      exact m1 c hc1 hc2
    · intro hpos
      rw [← edgeExists_rowDiff g i (r.1 - 1) hi (by have := (h1 r hr).1; omega)]
      exact m2 hpos
    · intro hlt
      rw [← edgeExists_rowDiff g i r.2 hi hlt]
      exact m3
  · intro hW hlast
    obtain ⟨r, hr, k1, k2⟩ := (hcov (g.width - 1) (by omega)).1 hlast
    have := (h1 r hr).2
    exact ⟨r, hr, by omega⟩

/-- Witness for C15: seam 0 of a 3x2 grid whose first row is free, wall, wall over a free
row has the single run `[1, 3)`, closed by the sentinel iteration. -/
theorem row_seam_runs_are_maximal_witness :
    sentinelGrid.WellFormed ∧ 0 + 1 < sentinelGrid.height ∧
    scanRuns (rowDiff (staticMapOf sentinelGrid) 0) = [(1, 3)] ∧
    (rowEdgeCalls (staticMapOf sentinelGrid)).filter (fun c => c.2.1 == 0) = [(1, 0, 3, 0)] ∧
    (∀ c, c < sentinelGrid.width →
      (xor (isWall sentinelGrid 0 c) (isWall sentinelGrid (0 + 1) c) = true ↔
        ∃ r ∈ scanRuns (rowDiff (staticMapOf sentinelGrid) 0), r.1 ≤ c ∧ c < r.2)) ∧
    ∃ r ∈ scanRuns (rowDiff (staticMapOf sentinelGrid) 0), r.2 = sentinelGrid.width := by
  have h := row_seam_runs_are_maximal sentinelGrid 0 (by decide) (by decide)
  have hruns : scanRuns (rowDiff (staticMapOf sentinelGrid) 0) = [(1, 3)] := by decide
  refine ⟨by decide, by decide, hruns, ?_, h.2.2.2.2.1, h.2.2.2.2.2 (by decide) (by decide)⟩
  rw [h.2.1, hruns]
  rfl

/-! ## Where the edges lie -/

theorem edgeOfCall_row (g : OccupancyGrid) (b s i e : Nat) :
    edgeOfCall g b (s, i, e, i) = (b, cellPos g i s, cellPos g i e) := by
  simp [edgeOfCall, cellPos, mul_comm]

theorem edgeOfCall_col (g : OccupancyGrid) (b s i e : Nat) :
    edgeOfCall g b (i, s, i, e) = (b, cellPos g s i, cellPos g e i) := by
  simp [edgeOfCall, cellPos, mul_comm]

/-- C16 (evaluation at the failing input). Every horizontal edge of a run `[start, end)` of
the seam between rows `i` and `i + 1` goes from the centre of cell `(i, start)` to the centre
of cell `(i, end)`, and every vertical edge from the centre of cell `(start, i)` to the
centre of cell `(end, i)`. On the 3x3 grid with the centre occupied the edge of the seam
between rows 0 and 1 is `(0,-1)-(1,-1)`, while the midpoint of the two row centres is
`y = -1/2` and the sides of column 1 are `x = -1/2` and `x = 1/2`. -/
theorem edges_lie_on_cell_centres :
    (∀ (g : OccupancyGrid) (b s i e : Nat),
      edgeOfCall g b (s, i, e, i) = (b, cellPos g i s, cellPos g i e)) ∧
    (∀ (g : OccupancyGrid) (b s i e : Nat),
      edgeOfCall g b (i, s, i, e) = (b, cellPos g s i, cellPos g e i)) ∧
    (rowEdgeCalls (staticMapOf centreGrid)).filter (fun c => c.2.1 == 0) = [(1, 0, 2, 0)] ∧
    emittedEdges centreGrid = some
      [(0, ⟨0, -1⟩, ⟨1, -1⟩), (0, ⟨0, 0⟩, ⟨1, 0⟩),
       (0, ⟨-1, 0⟩, ⟨-1, 1⟩), (0, ⟨0, 0⟩, ⟨0, 1⟩)] ∧
    ((cellPos centreGrid 0 1).y + (cellPos centreGrid 1 1).y) / 2 = -1 / 2 ∧
    (cellPos centreGrid 0 1).x - centreGrid.resolution / 2 = -1 / 2 ∧
    (cellPos centreGrid 0 1).x + centreGrid.resolution / 2 = 1 / 2 := by
  refine ⟨edgeOfCall_row, edgeOfCall_col, by decide, ?_, ?_, ?_, ?_⟩
  · rw [emittedEdges_eq centreGrid (by decide), centreGrid_calls.1, centreGrid_calls.2]
    simp only [List.map_cons, List.map_nil, edgeOfCall, lower_left_pos, lowerLeftCoord_eq]
    norm_num [centreGrid]
  · simp only [cellPos_eq]; norm_num [centreGrid]
  · simp only [cellPos_eq]; norm_num [centreGrid]
  · simp only [cellPos_eq]; norm_num [centreGrid]

/-! ## Cell sequences of the wrong length -/

theorem foldlM_congr_option {α β : Type} (f f' : β → α → Option β) (l : List α)
    (h : ∀ b, ∀ a ∈ l, f b a = f' b a) (b : β) : l.foldlM f b = l.foldlM f' b := by
  induction l generalizing b with
  | nil => rfl
  | cons a l ih =>
    rw [List.foldlM_cons, List.foldlM_cons, h b a (List.mem_cons_self a l)]
    cases f' b a with
    | none => rfl
    | some b1 => exact ih (fun b x hx => h b x (List.mem_cons_of_mem a hx)) b1

theorem foldlM_some_mem {α β : Type} (f : β → α → Option β) (l : List α) (b r : β)
    (h : l.foldlM f b = some r) : ∀ a ∈ l, ∃ b' r', f b' a = some r' := by
  induction l generalizing b with
  | nil => intro a ha; exact absurd ha (List.not_mem_nil a)
  | cons x l ih =>
    rw [List.foldlM_cons] at h
    cases hx : f b x with
    | none => rw [hx] at h; cases h
    | some b1 =>
      rw [hx] at h
      intro a ha
      rw [List.mem_cons] at ha
      rcases ha with ha | ha
      · subst ha; exact ⟨b, b1, hx⟩
      · exact ih b1 h a ha

theorem occupiedTest_some (g : OccupancyGrid) (i j : Nat) (p : Probe) (r : Bool × Probe)
    (h : occupiedTest g i j p = some r) : cellIndex g.width i j < g.data.length := by
  unfold occupiedTest readData at h
  by_contra hge
  rw [List.getElem?_eq_none (by omega)] at h
  cases h

theorem perCellStepTraced_some (g : OccupancyGrid) (i j : Nat) (st r : LevelStaticMap × Probe)
    (h : perCellStepTraced g i st j = some r) : cellIndex g.width i j < g.data.length := by
  unfold perCellStepTraced at h
  cases ht : occupiedTest g i j st.2 with
  | none => rw [ht] at h; cases h
  | some q => exact occupiedTest_some g i j st.2 q ht

theorem classifyStep_some (g : OccupancyGrid) (i j : Nat) (acc r : List Nat × Probe)
    (h : classifyStep g i acc j = some r) : cellIndex g.width i j < g.data.length := by
  unfold classifyStep at h
  cases ht : occupiedTest g i j acc.2 with
  | none => rw [ht] at h; cases h
  | some q => exact occupiedTest_some g i j acc.2 q ht

theorem loadPerCellTraced_some (g : OccupancyGrid) (st r : LevelStaticMap × Probe)
    (h : loadPerCellTraced g st = some r) :
    ∀ i j, i < g.height → j < g.width → cellIndex g.width i j < g.data.length := by
  intro i j hi hj
  unfold loadPerCellTraced at h
  obtain ⟨b, r', hrow⟩ := foldlM_some_mem _ _ _ _ h i (List.mem_range.2 hi)
  obtain ⟨b', r'', hstep⟩ := foldlM_some_mem _ _ _ _ hrow j (List.mem_range.2 hj)
  exact perCellStepTraced_some g i j b' r'' hstep

theorem buildStaticMapTraced_some (g : OccupancyGrid) (p : Probe) (r : Mat × Probe)
    (h : buildStaticMapTraced g p = some r) :
    ∀ i j, i < g.height → j < g.width → cellIndex g.width i j < g.data.length := by
  intro i j hi hj
  unfold buildStaticMapTraced at h
  cases hf : (List.range g.height).foldlM (classifyRow g) ([], p) with
  | none => rw [hf] at h; cases h
  | some q =>
    obtain ⟨b, r', hrow⟩ := foldlM_some_mem _ _ _ _ hf i (List.mem_range.2 hi)
    unfold classifyRow at hrow
    cases hin : (List.range g.width).foldlM (classifyStep g i) ([], b.2) with
    | none => rw [hin] at hrow; cases hrow
    | some q' =>
      obtain ⟨b', r'', hstep⟩ := foldlM_some_mem _ _ _ _ hin j (List.mem_range.2 hj)
      exact classifyStep_some g i j b' r'' hstep

theorem loadStaticMapTraced_some (g : OccupancyGrid) (mode : Bool)
    (st r : LevelStaticMap × Probe) (h : loadStaticMapTraced g mode st = some r) :
    ∀ i j, i < g.height → j < g.width → cellIndex g.width i j < g.data.length := by
  cases mode
  · simp only [loadStaticMapTraced, Bool.not_false, if_true] at h
    exact loadPerCellTraced_some g st r h
  · simp only [loadStaticMapTraced, Bool.not_true, if_false, Bool.false_eq_true] at h
    unfold loadApproximateTraced at h
    cases hb : buildStaticMapTraced g st.2 with
    | none => rw [hb] at h; cases h
    | some m => exact buildStaticMapTraced_some g st.2 m hb

theorem loadStaticMap_eq_traced (g : OccupancyGrid) (mode : Bool) (s : LevelStaticMap) :
    loadStaticMap g mode s = (loadStaticMapTraced g mode (s, noProbe)).map Prod.fst := by
  cases mode <;> rfl

theorem reads_in_range (g : OccupancyGrid) (mode : Bool) (s r : LevelStaticMap)
    (h : loadStaticMap g mode s = some r) :
    ∀ i j, i < g.height → j < g.width → cellIndex g.width i j < g.data.length := by
  rw [loadStaticMap_eq_traced] at h
  cases ht : loadStaticMapTraced g mode (s, noProbe) with
  | none => rw [ht] at h; cases h
  | some q => exact loadStaticMapTraced_some g mode (s, noProbe) q ht

theorem truncated_wellFormed (g : OccupancyGrid) (hlen : g.width * g.height ≤ g.data.length)
    (hfit : g.width * g.height < 2 ^ 32) : (truncated g).WellFormed := by
  refine ⟨?_, hfit⟩
  show (g.data.take (g.width * g.height)).length = g.width * g.height
  rw [List.length_take]
  omega

theorem read_truncated (g : OccupancyGrid) (hlen : g.width * g.height ≤ g.data.length)
    (hfit : g.width * g.height < 2 ^ 32) (i j : Nat) (hi : i < g.height)
    (hj : j < g.width) :
    g.data[cellIndex g.width i j]? = (truncated g).data[cellIndex g.width i j]? := by
  have hwf := truncated_wellFormed g hlen hfit
  obtain ⟨h1, h2⟩ := cellIndex_eq (truncated g) hwf i j hi hj
  have h3 : cellIndex g.width i j < g.width * g.height := by
    have hl : (truncated g).data.length = g.width * g.height := hwf.1
    have h1' : cellIndex g.width i j = i * g.width + j := h1
    have h2' : i * g.width + j < (truncated g).data.length := h2
    rw [h1', ← hl]; exact h2'
  show _ = (g.data.take (g.width * g.height))[cellIndex g.width i j]?
  rw [List.getElem?_take, if_pos h3]

theorem occupiedTest_truncated (g : OccupancyGrid)
    (hlen : g.width * g.height ≤ g.data.length) (hfit : g.width * g.height < 2 ^ 32)
    (i j : Nat) (hi : i < g.height) (hj : j < g.width) (p : Probe) :
    occupiedTest g i j p = occupiedTest (truncated g) i j p := by
  have hw : (truncated g).width = g.width := rfl
  unfold occupiedTest readData
  rw [hw]
  simp only [read_truncated g hlen hfit i j hi hj]

theorem loadStaticMapTraced_truncated (g : OccupancyGrid)
    (hlen : g.width * g.height ≤ g.data.length) (hfit : g.width * g.height < 2 ^ 32)
    (mode : Bool) (st : LevelStaticMap × Probe) :
    loadStaticMapTraced g mode st = loadStaticMapTraced (truncated g) mode st := by
  cases mode
  · simp only [loadStaticMapTraced, Bool.not_false, if_true, loadPerCellTraced]
    show (List.range g.height).foldlM _ st = (List.range g.height).foldlM _ st
    apply foldlM_congr_option
    intro b i hi
    rw [List.mem_range] at hi
    show (List.range g.width).foldlM _ b = (List.range g.width).foldlM _ b
    apply foldlM_congr_option
    intro b' j hj
    rw [List.mem_range] at hj
    unfold perCellStepTraced
    rw [occupiedTest_truncated g hlen hfit i j hi hj]
    rfl
  · simp only [loadStaticMapTraced, Bool.not_true, if_false, Bool.false_eq_true,
      loadApproximateTraced]
    have hb : buildStaticMapTraced g st.2 = buildStaticMapTraced (truncated g) st.2 := by
      unfold buildStaticMapTraced
      show (List.range g.height).foldlM _ _ >>= _ = (List.range g.height).foldlM _ _ >>= _
      congr 1
      apply foldlM_congr_option
      intro b i hi
      rw [List.mem_range] at hi
      unfold classifyRow
      show (List.range g.width).foldlM _ _ >>= _ = (List.range g.width).foldlM _ _ >>= _
      congr 1
      apply foldlM_congr_option
      intro b' j hj
      rw [List.mem_range] at hj
      unfold classifyStep
      rw [occupiedTest_truncated g hlen hfit i j hi hj]
    rw [hb]
    rfl

theorem loadStaticMap_truncated (g : OccupancyGrid)
    (hlen : g.width * g.height ≤ g.data.length) (hfit : g.width * g.height < 2 ^ 32)
    (mode : Bool) (s : LevelStaticMap) :
    loadStaticMap g mode s = loadStaticMap (truncated g) mode s := by
  rw [loadStaticMap_eq_traced, loadStaticMap_eq_traced,
    loadStaticMapTraced_truncated g hlen hfit]

theorem loadStaticMap_short (g : OccupancyGrid) (hlen : g.data.length < g.width * g.height)
    (hfit : g.width * g.height < 2 ^ 32) (mode : Bool) (s : LevelStaticMap) :
    loadStaticMap g mode s = none := by
  cases h : loadStaticMap g mode s with
  | none => rfl
  | some r =>
    exfalso
    have hW : 0 < g.width := by
      rcases Nat.eq_zero_or_pos g.width with h0 | h0
      · rw [h0, Nat.zero_mul] at hlen; omega
      · exact h0
    have hi : g.data.length / g.width < g.height :=
      Nat.div_lt_of_lt_mul hlen
    have hj : g.data.length % g.width < g.width := Nat.mod_lt _ hW
    have := reads_in_range g mode s r h _ _ hi hj
    unfold cellIndex at this
    rw [Nat.mul_comm, Nat.div_add_mod, Nat.mod_eq_of_lt (by omega)] at this
    omega

/-- C13 (counterexample). The 1x1 grid with the two-entry cell sequence `[100, 0]` has a
length different from `W * H`, yet `loadStaticMap` returns in both modes: per-cell mode adds
one box and sets `_n_non_clear_bodies` to 1, approximate mode creates and registers its
body. -/
theorem long_grid_is_accepted :
    longGrid.data.length ≠ longGrid.width * longGrid.height ∧
    (loadStaticMap longGrid false (initial false)).map
        (fun s => ((boxesOf s.trace).length, s._n_non_clear_bodies)) = some (1, 1) ∧
    (loadStaticMap longGrid true (initial false)).map
        (fun s => (createdBodiesOf s.trace, s._bodyList, s._n_non_clear_bodies))
      = some ([0], [0], 1) := by
  refine ⟨by decide, ?_, ?_⟩
  · rw [loadStaticMap_truncated longGrid (by decide) (by decide)]
    have hocc : occupiedCells (truncated longGrid) = [0] := by decide
    simp only [loadStaticMap, Bool.not_false, if_true,
      loadPerCell_eq (truncated longGrid) (by decide), hocc, Option.map_some',
      List.foldl_cons, List.foldl_nil, placeBox, addBox]
    simp [initial, boxesOf]
  · rw [loadStaticMap_truncated longGrid (by decide) (by decide),
      loadApproximate_eq (truncated longGrid) (by decide)]
    have h1 : rowEdgeCalls (staticMapOf (truncated longGrid)) = [] := by decide
    have h2 : colEdgeCalls (staticMapOf (truncated longGrid)) = [] := by decide
    rw [h1, h2]
    simp [initial, createdBodiesOf]

/-- C13 (amended). `loadStaticMap` makes no length check. For a grid with `W * H < 2^32`
whose cell sequence has at least `W * H` entries it returns, in either mode, exactly what it
returns for the grid cut down to its first `W * H` cells (the extra entries are never read);
when the cell sequence has fewer than `W * H` entries the scan reads `data` past its end, so
no result is defined. -/
theorem loadStaticMap_no_length_check (g : OccupancyGrid) (mode : Bool) (s : LevelStaticMap)
    (hfit : g.width * g.height < 2 ^ 32) :
    (g.width * g.height ≤ g.data.length →
      (truncated g).WellFormed ∧
      loadStaticMap g mode s = loadStaticMap (truncated g) mode s ∧
      ∃ s', loadStaticMap g mode s = some s') ∧
    (g.data.length < g.width * g.height → loadStaticMap g mode s = none) := by
  refine ⟨fun hlen => ?_, fun hlen => loadStaticMap_short g hlen hfit mode s⟩
  have hwf := truncated_wellFormed g hlen hfit
  refine ⟨hwf, loadStaticMap_truncated g hlen hfit mode s, ?_⟩
  rw [loadStaticMap_truncated g hlen hfit mode s]
  cases mode
  · exact ⟨_, by
      simp only [loadStaticMap, Bool.not_false, if_true]
      exact loadPerCell_eq (truncated g) hwf s⟩
  · exact ⟨_, loadApproximate_eq (truncated g) hwf s⟩

/-- Witness for C13 (amended): a 1x1 grid with two entries is compiled as its first cell, and
a 2x1 grid with one entry yields no result. -/
theorem loadStaticMap_no_length_check_witness :
    longGrid.width * longGrid.height < 2 ^ 32 ∧
    longGrid.width * longGrid.height ≤ longGrid.data.length ∧
    ((truncated longGrid).WellFormed ∧
      loadStaticMap longGrid false (initial false)
        = loadStaticMap (truncated longGrid) false (initial false) ∧
      ∃ s', loadStaticMap longGrid false (initial false) = some s') ∧
    shortGrid.width * shortGrid.height < 2 ^ 32 ∧
    shortGrid.data.length < shortGrid.width * shortGrid.height ∧
    loadStaticMap shortGrid true (initial false) = none :=
  ⟨by decide, by decide,
    (loadStaticMap_no_length_check longGrid false (initial false) (by decide)).1 (by decide),
    by decide, by decide,
    (loadStaticMap_no_length_check shortGrid true (initial false) (by decide)).2 (by decide)⟩

/-! ## Reads of the cell sequence and of the seam masks -/

theorem mem_cellReads (g : OccupancyGrid) (n k : Nat)
    (h : k ∈ (List.range n).flatMap (cellReads g)) : k < n := by
  rw [List.mem_flatMap] at h
  obtain ⟨a, ha, hk⟩ := h
  rw [List.mem_range] at ha
  unfold cellReads at hk
  split at hk <;> simp at hk <;> omega

theorem count_cellReads_one (g : OccupancyGrid) (n k : Nat) :
    (cellReads g n).count k
      = if k = n then (if g.data.getD n 0 == 100 then 1 else 2) else 0 := by
  unfold cellReads
  by_cases hk : k = n
  · subst hk
    split <;> simp
  · have hne : (n == k) = false := by
      rw [beq_eq_false_iff_ne]
      exact fun e => hk e.symm
    split <;> simp [hk, List.count_cons, hne]

theorem count_cellReads (g : OccupancyGrid) (n k : Nat) :
    ((List.range n).flatMap (cellReads g)).count k
      = if k < n then (if g.data.getD k 0 == 100 then 1 else 2) else 0 := by
  induction n with
  | zero => simp
  | succ n ih =>
    rw [List.range_succ, List.flatMap_append, List.count_append, ih, List.flatMap_singleton,
      count_cellReads_one]
    by_cases h1 : k < n
    · have h2 : k ≠ n := by omega
      have h3 : k < n + 1 := by omega
      rw [if_pos h1, if_neg h2, if_pos h3, Nat.add_zero]
    · by_cases h2 : k = n
      · subst h2
        rw [if_neg h1, if_pos rfl, if_pos (Nat.lt_succ_self k)]
        omega
      · have h3 : ¬ k < n + 1 := by omega
        rw [if_neg h1, if_neg h2, if_neg h3]

theorem mem_maskReadsOf (n len : Nat) (q : Nat × Nat) (h : q ∈ maskReadsOf n len) :
    q.1 = len ∧ q.2 < len := by
  unfold maskReadsOf at h
  rw [List.mem_flatMap] at h
  obtain ⟨_, _, hq⟩ := h
  rw [List.mem_map] at hq
  obtain ⟨j, hj, rfl⟩ := hq
  rw [List.mem_range] at hj
  exact ⟨rfl, hj⟩

/-- C20 (counterexample). On the well-formed 1x1 grid whose cell holds 0, either mode
evaluates `data[0]` twice for the single classification of the cell: the value is not 100, so
the second operand of the occupancy condition reads the element again. The cell index is
therefore not read exactly once per mode. -/
theorem free_cell_is_read_twice :
    freeCell.WellFormed ∧
    (loadStaticMapTraced freeCell false (initial false, noProbe)).map
        (fun r => r.2.dataReads) = some [0, 0] ∧
    (loadStaticMapTraced freeCell true (initial false, noProbe)).map
        (fun r => r.2.dataReads) = some [0, 0] ∧
    ([0, 0] : List Nat).count 0 ≠ 1 := by
  refine ⟨by decide, ?_, ?_, by decide⟩
  · unfold loadStaticMapTraced
    simp only [Bool.not_false, if_true]
    rw [loadPerCellTraced_eq freeCell (by decide)]
    decide
  · unfold loadStaticMapTraced
    simp only [Bool.not_true, Bool.false_eq_true, if_false]
    rw [loadApproximateTraced_eq freeCell (by decide)]
    decide

/-- C20 (amended). On a grid whose cell sequence has `W * H` entries with `W * H < 2 ^ 32`:
every index `i * cols + j` of the loop nest is below `2 ^ 32`, so the `uint32` expression
does not wrap, and is below `W * H`, the length of `data`. Either mode returns; it evaluates
the occupancy condition once for every cell, in row-major order, and each evaluation reads
`data[i * cols + j]` once when the value is 100 and twice otherwise, so every recorded read is
below `W * H` and the element of cell `k` is read once or twice according to its value. The
per-cell mode reads no mask; the approximate mode reads, for each of the `H - 1` row seams,
the mask positions `0, ..., W - 1` and, for each of the `W - 1` column seams, the positions
`0, ..., H - 1`: every mask read is at a position below the total of its mask, the iteration
`j = total` reading nothing. -/
theorem grid_scan_index_safety (g : OccupancyGrid) (s : LevelStaticMap) (h : g.WellFormed) :
    (∀ i j, i < g.height → j < g.width →
      i * g.width + j < 2 ^ 32 ∧ cellIndex g.width i j = i * g.width + j ∧
      cellIndex g.width i j < g.width * g.height ∧
      cellIndex g.width i j < g.data.length) ∧
    (∃ s1, loadStaticMapTraced g false (s, noProbe) = some (s1,
      ⟨(List.range (g.width * g.height)).flatMap (cellReads g), [], []⟩)) ∧
    (∃ s1, loadStaticMapTraced g true (s, noProbe) = some (s1,
      ⟨(List.range (g.width * g.height)).flatMap (cellReads g),
        maskReadsOf (g.height - 1) g.width ++ maskReadsOf (g.width - 1) g.height,
        rowEdgeCalls (staticMapOf g) ++ colEdgeCalls (staticMapOf g)⟩)) ∧
    (∀ mode, loadStaticMap g mode s
      = (loadStaticMapTraced g mode (s, noProbe)).map Prod.fst) ∧
    ((List.range (g.width * g.height)).flatMap (cellReads g)
      = (List.range g.height).flatMap fun i => (List.range g.width).flatMap fun j =>
          if g.data.getD (i * g.width + j) 0 == 100 then [cellIndex g.width i j]
          else [cellIndex g.width i j, cellIndex g.width i j]) ∧
    (∀ k ∈ (List.range (g.width * g.height)).flatMap (cellReads g),
      k < g.width * g.height) ∧
    (∀ k, k < g.width * g.height →
      ((List.range (g.width * g.height)).flatMap (cellReads g)).count k
        = if g.data.getD k 0 == 100 then 1 else 2) ∧
    (∀ q ∈ maskReadsOf (g.height - 1) g.width ++ maskReadsOf (g.width - 1) g.height,
      q.2 < q.1) := by
  have hidx : ∀ i j, i < g.height → j < g.width →
      i * g.width + j < 2 ^ 32 ∧ cellIndex g.width i j = i * g.width + j ∧
      cellIndex g.width i j < g.width * g.height ∧
      cellIndex g.width i j < g.data.length := by
    intro i j hi hj
    obtain ⟨h1, h2⟩ := cellIndex_eq g h i j hi hj
    have hl := h.1
    have hf := h.2
    rw [h1]
    exact ⟨by omega, rfl, by omega, h2⟩
  refine ⟨hidx, ?_, ?_, ?_, ?_, ?_, ?_, ?_⟩
  · unfold loadStaticMapTraced
    simp only [Bool.not_false, if_true]
    rw [loadPerCellTraced_eq g h]
    exact ⟨_, rfl⟩
  · unfold loadStaticMapTraced
    simp only [Bool.not_true, Bool.false_eq_true, if_false]
    rw [loadApproximateTraced_eq g h]
    exact ⟨_, rfl⟩
  · exact fun mode => loadStaticMap_eq_traced g mode s
  · rw [← flatMap_range_cells (cellReads g) g.width g.height]
    apply List.flatMap_congr
    intro i hi
    apply List.flatMap_congr
    intro j hj
    rw [List.mem_range] at hi hj
    rw [(cellIndex_eq g h i j hi hj).1]
    rfl
  · exact fun k hk => mem_cellReads g _ k hk
  · intro k hk
    rw [count_cellReads, if_pos hk]
  · intro q hq
    rw [List.mem_append] at hq
    rcases hq with hq | hq
    · obtain ⟨h1, h2⟩ := mem_maskReadsOf _ _ q hq
      omega
    · obtain ⟨h1, h2⟩ := mem_maskReadsOf _ _ q hq
      omega

/-- Witness for C20 (amended): the 3x2 grid with cells `100, 0, -1, 0, 0, 100`. Both modes
read element 0 and element 5 once and the other elements twice, in row-major order; the
approximate mode reads the three positions of its one row-seam mask and the two positions of
each of its two column-seam masks. -/
theorem grid_scan_index_safety_witness :
    mixedGrid.WellFormed ∧
    (∃ s1, loadStaticMapTraced mixedGrid false (initial false, noProbe) = some (s1,
      ⟨[0, 1, 1, 2, 2, 3, 3, 4, 4, 5], [], []⟩)) ∧
    (∃ s1, loadStaticMapTraced mixedGrid true (initial false, noProbe) = some (s1,
      ⟨[0, 1, 1, 2, 2, 3, 3, 4, 4, 5],
        [(3, 0), (3, 1), (3, 2), (2, 0), (2, 1), (2, 0), (2, 1)],
        [(0, 0, 1, 0), (0, 0, 0, 1), (1, 0, 1, 2)]⟩)) := by
  have h := grid_scan_index_safety mixedGrid (initial false) (by decide)
  have e1 : (List.range (mixedGrid.width * mixedGrid.height)).flatMap (cellReads mixedGrid)
      = [0, 1, 1, 2, 2, 3, 3, 4, 4, 5] := by decide
  have e2 : maskReadsOf (mixedGrid.height - 1) mixedGrid.width
      ++ maskReadsOf (mixedGrid.width - 1) mixedGrid.height
      = [(3, 0), (3, 1), (3, 2), (2, 0), (2, 1), (2, 0), (2, 1)] := by decide
  have e3 : rowEdgeCalls (staticMapOf mixedGrid) ++ colEdgeCalls (staticMapOf mixedGrid)
      = [(0, 0, 1, 0), (0, 0, 0, 1), (1, 0, 1, 2)] := by decide
  rw [e1, e2, e3] at h
  exact ⟨by decide, h.2.1, h.2.2.1⟩

end Arena2D
